import Mathlib

/-!
# DX10 preset management: a shallow embedding

The development embeds the preset subsystem of the DX10 plug-in
(`Source/PresetManager.h`, `Source/PluginEditor.cpp`) and states the properties of
its directory scanner, preset serializer and selector mediator over that embedding.

The source is written against the JUCE library.  Every JUCE primitive the source
calls is given here as a small executable function whose doc comment names the JUCE
function it stands for.
-/

namespace DX10

/-! ## JUCE strings, paths and platform facts -/

/-- The type `juce::File`, kept as the list of the components of its full path.
The empty list is `juce::File()`, the file with an empty path. -/
abbrev File := List String

/-- Platform facts JUCE takes from the build target and from the operating system:
`NAMES_ARE_CASE_SENSITIVE` of `juce_File.cpp` and the two special locations the
source asks `File::getSpecialLocation` for. -/
structure Host where
  namesAreCaseSensitive : Bool
  userDocumentsDirectory : File
  userApplicationDataDirectory : File

/-- The function `String::startsWithChar`. -/
def startsWithChar (s : String) (c : Char) : Bool :=
  match s.data with
  | [] => false
  | x :: _ => x == c

/-- The function `String::endsWith`. -/
def endsWith (s suffix : String) : Bool :=
  suffix.data.isSuffixOf s.data

/-- The function `String::endsWithIgnoreCase`. -/
def endsWithIgnoreCase (s suffix : String) : Bool :=
  (suffix.data.map Char.toLower).isSuffixOf (s.data.map Char.toLower)

/-- The function `File::getFileName`: the last component of the path. -/
def getFileName (f : File) : String :=
  f.getLast?.getD ""

/-- The function `File::getParentDirectory`. -/
def getParentDirectory (f : File) : File :=
  f.dropLast

/-- The function `File::getChildFile` for a plain child name. -/
def getChildFile (f : File) (name : String) : File :=
  f ++ [name]

/-- The function `File::getFullPathName`: every component behind a separator. -/
def getFullPathName (f : File) : String :=
  String.mk (f.flatMap (fun c => '/' :: c.data))

/-- Index of the last occurrence of a character, as `String::lastIndexOfChar`
(`none` for the `-1` of JUCE). -/
def lastIndexOfChar (cs : List Char) (c : Char) : Option Nat :=
  match cs.reverse.indexOf? c with
  | some i => some (cs.length - 1 - i)
  | none => none

/-- The function `File::getFileNameWithoutExtension`: the file name up to its last
dot, when that dot is not the first character of the name. -/
def getFileNameWithoutExtension (f : File) : String :=
  let name := (getFileName f).data
  match lastIndexOfChar name '.' with
  | some lastDot => if lastDot > 0 then String.mk (name.take lastDot) else String.mk name
  | none => String.mk name

/-- The function `File::hasFileExtension` for a suffix that starts with a dot and
holds no semicolon: the full path ends with the suffix, letter case ignored.  The
test looks at the path only, never at the file system. -/
def hasFileExtension (f : File) (possibleSuffix : String) : Bool :=
  endsWithIgnoreCase (getFullPathName f) possibleSuffix

/-- The function `File::withFileExtension` for an extension that starts with a
dot: the text from the last dot of the file name on is replaced; the empty file
stays empty. -/
def withFileExtension (f : File) (newExtension : String) : File :=
  if f.isEmpty then []
  else
    let name := (getFileName f).data
    let stem :=
      match lastIndexOfChar name '.' with
      | some lastDot => name.take lastDot
      | none => name
    f.dropLast ++ [String.mk stem ++ newExtension]

/-- Three-way comparison of two character sequences by code point, as
`String::compare`. -/
def compareChars : List Char → List Char → Ordering
  | [], [] => Ordering.eq
  | [], _ :: _ => Ordering.lt
  | _ :: _, [] => Ordering.gt
  | a :: as, b :: bs =>
    if a.toNat < b.toNat then Ordering.lt
    else if b.toNat < a.toNat then Ordering.gt
    else compareChars as bs

/-- Upper-case form of a string, as `String::toUpperCase`, on the letters `a` to
`z`. -/
def toUpperCase (s : String) : String :=
  String.mk (s.data.map Char.toUpper)

/-- The function `String::compareIgnoreCase`: JUCE compares the two texts character
by character after `CharacterFunctions::toUpperCase`, so a character that lies
between `Z` and `a`, such as `_`, sorts behind every letter. -/
def compareIgnoreCase (a b : String) : Ordering :=
  compareChars (toUpperCase a).data (toUpperCase b).data

/-- The static `compareFilenames` of `juce_File.cpp`: `String::compare` where file
names are case sensitive, `String::compareIgnoreCase` elsewhere. -/
def compareFilenames (h : Host) (name1 name2 : String) : Ordering :=
  if h.namesAreCaseSensitive then compareChars name1.data name2.data
  else compareIgnoreCase name1 name2

/-- The operator `File::operator==`. -/
def fileEquals (h : Host) (a b : File) : Bool :=
  compareFilenames h (getFullPathName a) (getFullPathName b) == Ordering.eq

/-- The operator `File::operator<`, in the non-strict form the sort uses. -/
def fileLessOrEqual (h : Host) (a b : File) : Bool :=
  compareFilenames h (getFullPathName a) (getFullPathName b) != Ordering.gt

/-- Insertion of one file into a sorted array of files. -/
def insertSorted (h : Host) (x : File) : List File → List File
  | [] => [x]
  | y :: ys => if fileLessOrEqual h x y then x :: y :: ys else y :: insertSorted h x ys

/-- The call `Array<File>::sort()`: ascending by `File::operator<`.  Files that
compare equal keep their order; the children of one directory compare equal only
when their names differ in nothing but letter case on a host that ignores it. -/
def sortFiles (h : Host) : List File → List File
  | [] => []
  | x :: xs => insertSorted h x (sortFiles h xs)

/-- The call `String::matchesWildcard` for the pattern `"*" + suffix`, as the
directory iterator makes it: letter case is ignored exactly where file names are not
case sensitive. -/
def matchesWildcardSuffix (h : Host) (name suffix : String) : Bool :=
  if h.namesAreCaseSensitive then endsWith name suffix else endsWithIgnoreCase name suffix

/-! ## XML documents and value trees -/

/-- An element of an XML document (`juce::XmlElement`): tag name, attributes in
document order, child elements.  Text nodes are not part of the model. -/
inductive XmlElement where
  | mk (tag : String) (attributes : List (String × String)) (children : List XmlElement)

/-- The tree of the parameter store (`juce::ValueTree`): type, properties in
insertion order, children.  A property value is kept in its text form, the form
`NamedValueSet::copyToXmlAttributes` writes and `setFromXmlAttributes` reads. -/
inductive ValueTree where
  | mk (type : String) (properties : List (String × String)) (children : List ValueTree)

/-- Tag name of an element. -/
def XmlElement.tag : XmlElement → String
  | XmlElement.mk t _ _ => t

/-- Attributes of an element. -/
def XmlElement.attributes : XmlElement → List (String × String)
  | XmlElement.mk _ a _ => a

/-- Child elements of an element. -/
def XmlElement.children : XmlElement → List XmlElement
  | XmlElement.mk _ _ c => c

/-- The function `ValueTree::getType`. -/
def ValueTree.getType : ValueTree → String
  | ValueTree.mk t _ _ => t

/-- Properties of the root of a tree. -/
def ValueTree.properties : ValueTree → List (String × String)
  | ValueTree.mk _ p _ => p

/-- Children of the root of a tree. -/
def ValueTree.children : ValueTree → List ValueTree
  | ValueTree.mk _ _ c => c

/-- Replace-or-append on an ordered list of named values: what both
`XmlElement::setAttribute` and `NamedValueSet::set` do with their list. -/
def setNamed (name value : String) : List (String × String) → List (String × String)
  | [] => [(name, value)]
  | (n, v) :: rest =>
    if n == name then (n, value) :: rest else (n, v) :: setNamed name value rest

/-- The function `XmlElement::setAttribute`. -/
def XmlElement.setAttribute (x : XmlElement) (name value : String) : XmlElement :=
  match x with
  | XmlElement.mk t a c => XmlElement.mk t (setNamed name value a) c

/-- The function `XmlElement::getStringAttribute`: the empty string when absent. -/
def XmlElement.getStringAttribute (x : XmlElement) (name : String) : String :=
  match x.attributes.find? (fun p => p.1 == name) with
  | some p => p.2
  | none => ""

/-- The function `String::equalsIgnoreCase`: `compareIgnoreCase` gives zero. -/
def equalsIgnoreCase (a b : String) : Bool :=
  compareIgnoreCase a b == Ordering.eq

/-- The function `XmlElement::hasTagName`: JUCE matches the tag name with
`String::equalsIgnoreCase`.  (A debug build also asserts that a matching tag is
equal to the given name; the value returned is the same.) -/
def XmlElement.hasTagName (x : XmlElement) (possibleTagName : String) : Bool :=
  equalsIgnoreCase x.tag possibleTagName

/-- The function `NamedValueSet::copyToXmlAttributes`: one `setAttribute` per
property, in order. -/
def copyToXmlAttributes (props : List (String × String)) : List (String × String) :=
  props.foldl (fun attrs p => setNamed p.1 p.2 attrs) []

/-- The function `NamedValueSet::setFromXmlAttributes`: the set is cleared and one
value is added per attribute, in order. -/
def setFromXmlAttributes (attrs : List (String × String)) : List (String × String) :=
  attrs.foldl (fun props p => setNamed p.1 p.2 props) []

mutual
/-- The function `ValueTree::SharedObject::createXml`. -/
def createXmlObject : ValueTree → XmlElement
  | ValueTree.mk t p c => XmlElement.mk t (copyToXmlAttributes p) (createXmlList c)
/-- The children of `createXml`, in order. -/
def createXmlList : List ValueTree → List XmlElement
  | [] => []
  | v :: vs => createXmlObject v :: createXmlList vs
end

/-- The function `ValueTree::createXml`; a null pointer only for an invalid tree,
which the model does not hold. -/
def ValueTree.createXml (v : ValueTree) : Option XmlElement :=
  some (createXmlObject v)

mutual
/-- The function `ValueTree::fromXml`. -/
def fromXml : XmlElement → ValueTree
  | XmlElement.mk t a c => ValueTree.mk t (setFromXmlAttributes a) (fromXmlList c)
/-- The children of `fromXml`, in order. -/
def fromXmlList : List XmlElement → List ValueTree
  | [] => []
  | x :: xs => fromXml x :: fromXmlList xs
end

/-! ## The file system -/

/-- One entry of a directory: a regular file with its content, or a directory with
its entries.  The content of a regular file is the document `XmlDocument::parse`
reads from it, `none` when the bytes are not a well-formed document. -/
inductive FsNode where
  | file (name : String) (content : Option XmlElement)
  | dir (name : String) (children : List FsNode)

/-- Name of a directory entry. -/
def FsNode.name : FsNode → String
  | FsNode.file n _ => n
  | FsNode.dir n _ => n

/-- Whether the entry is a directory. -/
def FsNode.isDir : FsNode → Bool
  | FsNode.file _ _ => false
  | FsNode.dir _ _ => true

/-- The entry of a directory with the given name. -/
def findEntry (nodes : List FsNode) (name : String) : Option FsNode :=
  nodes.find? (fun n => n.name == name)

/-- The entry a path leads to, from the entries of the top directory.  The empty
path leads nowhere: `juce::File()` does not exist. -/
def lookup : List FsNode → File → Option FsNode
  | _, [] => none
  | nodes, [n] => findEntry nodes n
  | nodes, n :: m :: rest =>
    match findEntry nodes n with
    | some (FsNode.dir _ ch) => lookup ch (m :: rest)
    | _ => none

/-- The function `File::exists`. -/
def fileExists (fs : List FsNode) (f : File) : Bool :=
  (lookup fs f).isSome

/-- The function `File::isDirectory`. -/
def isDirectory (fs : List FsNode) (f : File) : Bool :=
  match lookup fs f with
  | some (FsNode.dir _ _) => true
  | _ => false

/-- The function `File::existsAsFile`: it exists and is not a directory. -/
def existsAsFile (fs : List FsNode) (f : File) : Bool :=
  fileExists fs f && !isDirectory fs f

/-- The function `XmlDocument::parse (const File&)`: the document of a regular
file, a null pointer for anything else. -/
def parseXml (fs : List FsNode) (f : File) : Option XmlElement :=
  match lookup fs f with
  | some (FsNode.file _ content) => content
  | _ => none

/-- The entries of the directory at a path; nothing when the path is no directory. -/
def entriesOf (fs : List FsNode) (dir : File) : List FsNode :=
  match lookup fs dir with
  | some (FsNode.dir _ ch) => ch
  | _ => []

/-- The call `dir.findChildFiles (File::findFilesAndDirectories, false)`: every
entry of the directory, hidden ones included, in directory order. -/
def findChildFiles (fs : List FsNode) (dir : File) : List File :=
  (entriesOf fs dir).map (fun n => getChildFile dir n.name)

mutual
/-- Every regular file at or below an entry that lives in directory `base`. -/
def filesBelow (base : File) : FsNode → List File
  | FsNode.file n _ => [getChildFile base n]
  | FsNode.dir n ch => filesBelowList (getChildFile base n) ch
/-- Every regular file at or below the entries of directory `base`. -/
def filesBelowList (base : File) : List FsNode → List File
  | [] => []
  | n :: ns => filesBelow base n ++ filesBelowList base ns
end

/-- The call `dir.findChildFiles (File::findFiles, true, "*" + suffix)`: the regular
files at any depth below the directory, hidden directories included, whose name
matches the wildcard. -/
def findFilesRecursive (h : Host) (fs : List FsNode) (dir : File) (suffix : String) :
    List File :=
  (filesBelowList dir (entriesOf fs dir)).filter
    (fun f => matchesWildcardSuffix h (getFileName f) suffix)

/-! ## The directory scanner (`PresetManager.h`) -/

/-- The struct `FlatPresetItem`. -/
structure FlatPresetItem where
  displayName : String
  file : File
  isFolder : Bool
  depth : Int
deriving DecidableEq, Repr

/-- The function `PresetManager::getPresetExtension`. -/
def getPresetExtension : String := ".dx10"

/-- The function `PresetManager::scanDirectoryFlat`.  The vector the source appends
to is passed in and returned; both loops run over the sorted children. -/
def scanDirectoryFlat (h : Host) (fs : List FsNode) (dir : File)
    (items : List FlatPresetItem) (depth maxDepth : Int) : List FlatPresetItem :=
  if _hd : depth > maxDepth then items
  else
    let children := sortFiles h (findChildFiles fs dir)
    let items1 := children.foldl
      (fun acc child =>
        if isDirectory fs child && !startsWithChar (getFileName child) '.' then
          let folderPresets := findFilesRecursive h fs child getPresetExtension
          if folderPresets.length > 0 then
            scanDirectoryFlat h fs child
              (acc ++ [FlatPresetItem.mk (getFileName child) child true depth])
              (depth + 1) maxDepth
          else acc
        else acc)
      items
    children.foldl
      (fun acc child =>
        if hasFileExtension child getPresetExtension then
          acc ++ [FlatPresetItem.mk (getFileNameWithoutExtension child) child false depth]
        else acc)
      items1
termination_by (maxDepth + 1 - depth).toNat
decreasing_by omega

/-- The function `PresetManager::getFlatPresetList`. -/
def getFlatPresetList (h : Host) (fs : List FsNode) (presetDirectory : File)
    (maxDepth : Int) : List FlatPresetItem :=
  scanDirectoryFlat h fs presetDirectory [] 0 maxDepth

/-! ## Writing to the file system -/

/-- The entries with the first entry of a given name replaced. -/
def replaceEntry : List FsNode → String → FsNode → List FsNode
  | [], _, _ => []
  | x :: xs, name, new =>
    if x.name == name then new :: xs else x :: replaceEntry xs name new

/-- The entries after every missing directory along a path has been made; `none`
when a regular file is in the way. -/
def createDirectoryIn : List FsNode → File → Option (List FsNode)
  | nodes, [] => some nodes
  | nodes, n :: rest =>
    match findEntry nodes n with
    | none =>
      match createDirectoryIn [] rest with
      | some ch => some (nodes ++ [FsNode.dir n ch])
      | none => none
    | some (FsNode.dir a ch) =>
      match createDirectoryIn ch rest with
      | some ch2 => some (replaceEntry nodes n (FsNode.dir a ch2))
      | none => none
    | some (FsNode.file _ _) => none

/-- The function `File::createDirectory`, parents included; the source never looks
at its result, and a failed call leaves the file system as it was. -/
def createDirectory (fs : List FsNode) (f : File) : List FsNode :=
  (createDirectoryIn fs f).getD fs

/-- The entries after a regular file has been written at a path; `none` when the
directory of the file does not exist or the name is taken by a directory. -/
def writeFileIn : List FsNode → File → Option XmlElement → Option (List FsNode)
  | _, [], _ => none
  | nodes, [n], c =>
    match findEntry nodes n with
    | some (FsNode.dir _ _) => none
    | some (FsNode.file a _) => some (replaceEntry nodes n (FsNode.file a c))
    | none => some (nodes ++ [FsNode.file n c])
  | nodes, n :: m :: rest, c =>
    match findEntry nodes n with
    | some (FsNode.dir a ch) =>
      match writeFileIn ch (m :: rest) c with
      | some ch2 => some (replaceEntry nodes n (FsNode.dir a ch2))
      | none => none
    | _ => none

/-- The function `XmlElement::writeTo (const File&)`: success and the file system
after the call.  What is written parses back to the same document. -/
def writeTo (x : XmlElement) (fs : List FsNode) (file : File) : Bool × List FsNode :=
  match writeFileIn fs file (some x) with
  | some fs2 => (true, fs2)
  | none => (false, fs)

/-- Components of a path text, cut at the separators. -/
def splitComponents : List Char → List (List Char)
  | [] => [[]]
  | c :: cs =>
    match splitComponents cs with
    | [] => [[c]]
    | w :: ws => if c == '/' then [] :: w :: ws else (c :: w) :: ws

/-- The constructor `juce::File (const String&)` for an absolute path. -/
def fileFromPath (s : String) : File :=
  ((splitComponents s.data).filter (fun w => !w.isEmpty)).map String.mk

/-! ## The preset manager (`PresetManager.h`) -/

/-- The data members of `PresetManager`; the reference to the parameter store is
kept in `World`. -/
structure PresetManager where
  presetDirectory : File
  customPresetDirectory : File
  lastLoadedPreset : String

/-- What the editor and its preset manager act upon: the file system, the state of
the parameter store (`apvts.state`), and the programs the processor was asked to
activate through `setCurrentProgram`, oldest first. -/
structure World where
  fs : List FsNode
  state : ValueTree
  programCalls : List Int

/-- The function `PresetManager::getDefaultPresetDirectory`. -/
def getDefaultPresetDirectory (h : Host) : File :=
  getChildFile h.userDocumentsDirectory "DX10 Presets"

/-- The function `PresetManager::getSettingsFile`. -/
def getSettingsFile (h : Host) : File :=
  getChildFile (getChildFile h.userApplicationDataDirectory "DX10") "settings.xml"

/-- The function `PresetManager::saveSettings`: the file system after the call. -/
def PresetManager.saveSettings (h : Host) (pm : PresetManager) (fs : List FsNode) :
    List FsNode :=
  let settingsFile := getSettingsFile h
  let fs1 := createDirectory fs (getParentDirectory settingsFile)
  let xml0 := XmlElement.mk "DX10Settings" [] []
  let xml1 :=
    if isDirectory fs1 pm.customPresetDirectory then
      xml0.setAttribute "customPresetDirectory" (getFullPathName pm.customPresetDirectory)
    else xml0
  let xml2 :=
    if pm.lastLoadedPreset != "" then xml1.setAttribute "lastLoadedPreset" pm.lastLoadedPreset
    else xml1
  (writeTo xml2 fs1 settingsFile).2

/-- The function `PresetManager::loadSettings`. -/
def PresetManager.loadSettings (h : Host) (pm : PresetManager) (fs : List FsNode) :
    PresetManager :=
  let settingsFile := getSettingsFile h
  if existsAsFile fs settingsFile then
    match parseXml fs settingsFile with
    | some xml =>
      if xml.hasTagName "DX10Settings" then
        let customDir := xml.getStringAttribute "customPresetDirectory"
        let pm1 :=
          if customDir != "" then { pm with customPresetDirectory := fileFromPath customDir }
          else pm
        { pm1 with lastLoadedPreset := xml.getStringAttribute "lastLoadedPreset" }
      else pm
    | none => pm
  else pm

/-- The function `PresetManager::setPresetDirectory`. -/
def PresetManager.setPresetDirectory (h : Host) (pm : PresetManager) (fs : List FsNode)
    (newDirectory : File) : PresetManager × List FsNode :=
  if isDirectory fs newDirectory then
    let pm1 := { pm with presetDirectory := newDirectory,
                         customPresetDirectory := newDirectory }
    (pm1, pm1.saveSettings h fs)
  else (pm, fs)

/-- The function `PresetManager::resetToDefaultDirectory`. -/
def PresetManager.resetToDefaultDirectory (h : Host) (pm : PresetManager)
    (fs : List FsNode) : PresetManager × List FsNode :=
  let pm1 := { pm with presetDirectory := getDefaultPresetDirectory h,
                       customPresetDirectory := [] }
  let fs1 := if !fileExists fs pm1.presetDirectory then createDirectory fs pm1.presetDirectory
             else fs
  (pm1, pm1.saveSettings h fs1)

/-- The function `PresetManager::setLastLoadedPreset`. -/
def PresetManager.setLastLoadedPreset (h : Host) (pm : PresetManager) (fs : List FsNode)
    (presetPath : String) : PresetManager × List FsNode :=
  let pm1 := { pm with lastLoadedPreset := presetPath }
  (pm1, pm1.saveSettings h fs)

/-- The function `PresetManager::savePresetToFile`: its result and the world after
the call. -/
def PresetManager.savePresetToFile (w : World) (file : File) : Bool × World :=
  let state := w.state
  match state.createXml with
  | none => (false, w)
  | some xml =>
    let xml1 := xml.setAttribute "presetName" (getFileNameWithoutExtension file)
    let xml2 := xml1.setAttribute "pluginVersion" "1.0"
    let fs1 := createDirectory w.fs (getParentDirectory file)
    let r := writeTo xml2 fs1 file
    (r.1, { w with fs := r.2 })

/-- The function `PresetManager::loadPresetFromFile`: its result, the manager and
the world after the call. -/
def PresetManager.loadPresetFromFile (h : Host) (pm : PresetManager) (w : World)
    (file : File) : Bool × PresetManager × World :=
  if !existsAsFile w.fs file then (false, pm, w)
  else
    match parseXml w.fs file with
    | none => (false, pm, w)
    | some xml =>
      if !xml.hasTagName w.state.getType then (false, pm, w)
      else
        let newState := fromXml xml
        let w1 := { w with state := newState }
        let r := pm.setLastLoadedPreset h w1.fs (getFullPathName file)
        (true, r.1, { w1 with fs := r.2 })

/-- The function `PresetManager::loadLastPreset`. -/
def PresetManager.loadLastPreset (h : Host) (pm : PresetManager) (w : World) :
    Bool × PresetManager × World :=
  if pm.lastLoadedPreset != "" then
    let file := fileFromPath pm.lastLoadedPreset
    if existsAsFile w.fs file then pm.loadPresetFromFile h w file
    else (false, pm, w)
  else (false, pm, w)

/-- The constructor of `PresetManager`. -/
def PresetManager.create (h : Host) (fs : List FsNode) : PresetManager × List FsNode :=
  let pm0 := (PresetManager.mk [] [] "").loadSettings h fs
  let pm1 :=
    if isDirectory fs pm0.customPresetDirectory then
      { pm0 with presetDirectory := pm0.customPresetDirectory }
    else { pm0 with presetDirectory := getDefaultPresetDirectory h }
  let fs1 := if !fileExists fs pm1.presetDirectory then createDirectory fs pm1.presetDirectory
             else fs
  (pm1, fs1)

/-! ## The selector (`juce::ComboBox`) -/

/-- One `PopupMenu::Item` of the menu of the selector. -/
structure MenuItem where
  itemID : Int
  text : String
  isEnabled : Bool
  isSeparator : Bool
  isSectionHeader : Bool
deriving DecidableEq, Repr

/-- The type `juce::NotificationType`, for the two values the source uses:
`dontSendNotification`, and `sendNotificationAsync`, the default argument. -/
inductive NotificationType where
  | dontSendNotification
  | sendNotificationAsync
deriving DecidableEq, Repr

/-- The state of a `juce::ComboBox`: its menu, the selected id, the text of its
label, and whether a change notification waits on the message queue. -/
structure ComboBox where
  items : List MenuItem
  currentId : Int
  labelText : String
  changePending : Bool
deriving DecidableEq, Repr

/-- The function `PopupMenu::addSeparator`: nothing is added to an empty menu or
behind a separator. -/
def ComboBox.addSeparator (c : ComboBox) : ComboBox :=
  match c.items.getLast? with
  | some last =>
    if !last.isSeparator then
      { c with items := c.items ++ [MenuItem.mk 0 "" true true false] }
    else c
  | none => c

/-- The function `ComboBox::addItem`: an enabled item is appended; nothing is added
for an empty text or for the id zero. -/
def ComboBox.addItem (c : ComboBox) (newItemText : String) (newItemId : Int) : ComboBox :=
  if newItemText != "" && newItemId != 0 then
    { c with items := c.items ++ [MenuItem.mk newItemId newItemText true false false] }
  else c

/-- The function `ComboBox::addSectionHeading`: an item without id. -/
def ComboBox.addSectionHeading (c : ComboBox) (headingName : String) : ComboBox :=
  if headingName != "" then
    { c with items := c.items ++ [MenuItem.mk 0 headingName true false true] }
  else c

/-- The items a `ComboBox` counts and indexes: those with a non-zero id.  Headers
and separators are left out. -/
def ComboBox.indexedItems (c : ComboBox) : List MenuItem :=
  c.items.filter (fun item => item.itemID != 0)

/-- The function `ComboBox::getNumItems`. -/
def ComboBox.getNumItems (c : ComboBox) : Int :=
  c.indexedItems.length

/-- The function `ComboBox::getItemForIndex`. -/
def ComboBox.getItemForIndex (c : ComboBox) (index : Int) : Option MenuItem :=
  if index < 0 then none else c.indexedItems.get? index.toNat

/-- The function `ComboBox::getItemId`: zero for an index out of range. -/
def ComboBox.getItemId (c : ComboBox) (index : Int) : Int :=
  match c.getItemForIndex index with
  | some item => item.itemID
  | none => 0

/-- The function `ComboBox::getItemForId`: no item for the id zero. -/
def ComboBox.getItemForId (c : ComboBox) (itemId : Int) : Option MenuItem :=
  if itemId != 0 then c.items.find? (fun item => item.itemID == itemId) else none

/-- The function `ComboBox::isItemEnabled (int itemId)`: its argument is an item id. -/
def ComboBox.isItemEnabled (c : ComboBox) (itemId : Int) : Bool :=
  match c.getItemForId itemId with
  | some item => item.isEnabled
  | none => false

/-- The function `ComboBox::getSelectedId`: zero when nothing is selected. -/
def ComboBox.getSelectedId (c : ComboBox) : Int :=
  match c.getItemForId c.currentId with
  | some item => if c.labelText == item.text then item.itemID else 0
  | none => 0

/-- The function `ComboBox::setSelectedId`. -/
def ComboBox.setSelectedId (c : ComboBox) (newItemId : Int)
    (notification : NotificationType) : ComboBox :=
  let newItemText :=
    match c.getItemForId newItemId with
    | some item => item.text
    | none => ""
  if c.currentId != newItemId || c.labelText != newItemText then
    { c with
      labelText := newItemText
      currentId := newItemId
      changePending :=
        c.changePending || notification == NotificationType.sendNotificationAsync }
  else c

/-- The function `ComboBox::clear`: the menu is emptied and nothing is selected. -/
def ComboBox.clear (c : ComboBox) (notification : NotificationType) : ComboBox :=
  ComboBox.setSelectedId { c with items := [] } 0 notification

/-! ## The editor (`PluginEditor.cpp`) -/

/-- The part of `DX10AudioProcessor` the editor calls; the processor is not part of
the preset subsystem. -/
structure Processor where
  getNumPresets : Int
  getPresetName : Int → String
  setCurrentProgram : Int → ValueTree → ValueTree

/-- The call `audioProcessor.setCurrentProgram (index)`, recorded in the world. -/
def World.setCurrentProgram (p : Processor) (w : World) (index : Int) : World :=
  { w with state := p.setCurrentProgram index w.state
           programCalls := w.programCalls ++ [index] }

/-- The member `presetIdToFile`, a `std::map<int, juce::File>`, kept as the list of
its pairs in ascending key order: the call `find`. -/
def mapFind (m : List (Int × File)) (k : Int) : Option File :=
  match m.find? (fun pair => pair.1 == k) with
  | some pair => some pair.2
  | none => none

/-- The assignment `presetIdToFile[k] = v`. -/
def mapAssign : List (Int × File) → Int → File → List (Int × File)
  | [], k, v => [(k, v)]
  | (k0, v0) :: rest, k, v =>
    if k < k0 then (k, v) :: (k0, v0) :: rest
    else if k = k0 then (k, v) :: rest
    else (k0, v0) :: mapAssign rest k v

/-- The data members of the editor the preset code reads and writes. -/
structure Editor where
  presetManager : PresetManager
  presetSelector : ComboBox
  presetIdToFile : List (Int × File)
  numFactoryPresets : Int
  userPresets : List FlatPresetItem
  isUpdatingPresetSelector : Bool
  isDragOver : Bool

/-- The indentation loop of `rebuildPresetList`: four blanks per level. -/
def indent (depth : Int) : String :=
  String.join (List.replicate depth.toNat "    ")

/-- The body of the loop over `userPresets` in `rebuildPresetList`, on the selector,
the map and `nextId`. -/
def addUserPreset (acc : ComboBox × List (Int × File) × Int) (item : FlatPresetItem) :
    ComboBox × List (Int × File) × Int :=
  let displayName := indent item.depth
  if item.isFolder then
    (acc.1.addSectionHeading (displayName ++ "[" ++ item.displayName ++ "]"),
      acc.2.1, acc.2.2)
  else
    (acc.1.addItem (displayName ++ item.displayName) acc.2.2,
      mapAssign acc.2.1 acc.2.2 item.file, acc.2.2 + 1)

/-- The loop of `rebuildPresetList` that adds the factory presets: item `i + 1` for
every index `i` below the number of presets. -/
def addFactoryPresets (p : Processor) (numFactoryPresets : Int) (selector : ComboBox) :
    ComboBox :=
  (List.range numFactoryPresets.toNat).foldl
    (fun sel (i : Nat) => sel.addItem (p.getPresetName i) (i + 1)) selector

/-- The body of `DX10AudioProcessorEditor::rebuildPresetList`, given the list that
`presetManager->getFlatPresetList()` returns. -/
def rebuildPresetListFrom (p : Processor) (scanned : List FlatPresetItem) (e : Editor) :
    Editor :=
  let selector0 := e.presetSelector.clear NotificationType.dontSendNotification
  let map0 : List (Int × File) := []
  let numFactoryPresets := p.getNumPresets
  let selector1 := addFactoryPresets p numFactoryPresets selector0
  let userPresets := scanned
  if userPresets.length > 0 then
    let selector2 := selector1.addSeparator
    let r := userPresets.foldl addUserPreset (selector2, map0, 1001)
    { e with
      presetSelector := r.1
      presetIdToFile := r.2.1
      numFactoryPresets := numFactoryPresets
      userPresets := userPresets }
  else
    { e with
      presetSelector := selector1
      presetIdToFile := map0
      numFactoryPresets := numFactoryPresets
      userPresets := userPresets }

/-- The function `DX10AudioProcessorEditor::rebuildPresetList`: the preset directory
is scanned at the default depth of three. -/
def rebuildPresetList (h : Host) (p : Processor) (fs : List FsNode) (e : Editor) : Editor :=
  rebuildPresetListFrom p (getFlatPresetList h fs e.presetManager.presetDirectory 3) e

/-- The handler `presetSelector.onChange`. -/
def presetSelectorOnChange (h : Host) (p : Processor) (e : Editor) (w : World) :
    Editor × World :=
  if e.isUpdatingPresetSelector then (e, w)
  else
    let selectedId := e.presetSelector.getSelectedId
    if selectedId > 0 && selectedId ≤ e.numFactoryPresets then
      (e, w.setCurrentProgram p (selectedId - 1))
    else if selectedId > 1000 then
      match mapFind e.presetIdToFile selectedId with
      | some file =>
        if existsAsFile w.fs file then
          let r := e.presetManager.loadPresetFromFile h w file
          ({ e with presetManager := r.2.1 }, r.2.2)
        else (e, w)
      | none => (e, w)
    else (e, w)

/-- The first loop of `goToPreviousPreset` and `goToNextPreset`: the index of the
first item whose id is the current one, `-1` when there is none. -/
def findCurrentIndex (c : ComboBox) (currentId : Int) : Int :=
  match (List.range (c.getNumItems).toNat).find?
      (fun i => c.getItemId i == currentId) with
  | some i => i
  | none => -1

/-- The function `DX10AudioProcessorEditor::goToPreviousPreset`.  The source hands
the loop index to `isItemEnabled`. -/
def goToPreviousPreset (e : Editor) : Editor :=
  let currentId := e.presetSelector.getSelectedId
  let currentIndex := findCurrentIndex e.presetSelector currentId
  if currentIndex > 0 then
    match ((List.range currentIndex.toNat).reverse).find?
        (fun i => e.presetSelector.getItemId i > 0 && e.presetSelector.isItemEnabled i) with
    | some i =>
      let itemId := e.presetSelector.getItemId i
      let selector := e.presetSelector.setSelectedId itemId
        NotificationType.sendNotificationAsync
      { e with presetSelector := selector }
    | none => e
  else e

/-- The function `DX10AudioProcessorEditor::goToNextPreset`.  The source hands the
loop index to `isItemEnabled`. -/
def goToNextPreset (e : Editor) : Editor :=
  let currentId := e.presetSelector.getSelectedId
  let totalItems := e.presetSelector.getNumItems
  let currentIndex := findCurrentIndex e.presetSelector currentId
  if currentIndex ≥ 0 && currentIndex < totalItems - 1 then
    match (List.range' (currentIndex + 1).toNat (totalItems - (currentIndex + 1)).toNat).find?
        (fun i => e.presetSelector.getItemId i > 0 && e.presetSelector.isItemEnabled i) with
    | some i =>
      let itemId := e.presetSelector.getItemId i
      let selector := e.presetSelector.setSelectedId itemId
        NotificationType.sendNotificationAsync
      { e with presetSelector := selector }
    | none => e
  else e

/-- The loop after a rebuild in the save and load handlers: the first pair of the
map whose file equals the given one is selected, under the guard flag and without
notification. -/
def selectFileInList (h : Host) (e : Editor) (file : File) : Editor :=
  match e.presetIdToFile.find? (fun pair => fileEquals h pair.2 file) with
  | some pair =>
    let e1 := { e with isUpdatingPresetSelector := true }
    let selector := e1.presetSelector.setSelectedId pair.1
      NotificationType.dontSendNotification
    let e2 := { e1 with presetSelector := selector }
    { e2 with isUpdatingPresetSelector := false }
  | none => e

/-- The completion handler of `DX10AudioProcessorEditor::loadPresetFromFile`, given
the result of the file chooser (`juce::File()` when the user cancelled). -/
def loadPresetChosen (h : Host) (p : Processor) (e : Editor) (w : World) (file : File) :
    Editor × World :=
  if existsAsFile w.fs file then
    let r := e.presetManager.loadPresetFromFile h w file
    let e1 := { e with presetManager := r.2.1 }
    if r.1 then
      let e2 := rebuildPresetList h p r.2.2.fs e1
      (selectFileInList h e2 file, r.2.2)
    else (e1, r.2.2)
  else (e, w)

/-- The loop of `DX10AudioProcessorEditor::filesDropped` over the dropped paths. -/
def filesDroppedLoop (h : Host) (p : Processor) :
    List String → Editor → World → Editor × World
  | [], e, w => (e, w)
  | filePath :: rest, e, w =>
    let file := fileFromPath filePath
    if hasFileExtension file getPresetExtension then
      let r := e.presetManager.loadPresetFromFile h w file
      let e1 := { e with presetManager := r.2.1 }
      if r.1 then (rebuildPresetList h p r.2.2.fs e1, r.2.2)
      else filesDroppedLoop h p rest e1 r.2.2
    else filesDroppedLoop h p rest e w

/-- The function `DX10AudioProcessorEditor::filesDropped`. -/
def filesDropped (h : Host) (p : Processor) (e : Editor) (w : World)
    (files : List String) : Editor × World :=
  filesDroppedLoop h p files { e with isDragOver := false } w

/-! ## Words of the descriptions

Predicates and functions in which the properties below are stated. -/

mutual
/-- Whether an entry is, or transitively holds, a preset file: a regular file whose
name matches the wildcard made from the preset extension. -/
def holdsPreset (h : Host) : FsNode → Bool
  | FsNode.file n _ => matchesWildcardSuffix h n getPresetExtension
  | FsNode.dir _ ch => holdsPresetAny h ch
/-- Whether some entry of a list is, or transitively holds, a preset file. -/
def holdsPresetAny (h : Host) : List FsNode → Bool
  | [] => false
  | n :: ns => holdsPreset h n || holdsPresetAny h ns
end

/-- A child the scanner lists as a folder: a directory whose name does not start
with a dot and which transitively contains a preset file. -/
def isListedFolder (h : Host) (fs : List FsNode) (child : File) : Bool :=
  isDirectory fs child && !startsWithChar (getFileName child) '.' &&
    holdsPresetAny h (entriesOf fs child)

/-- The folder entry of a child at a depth. -/
def folderEntry (child : File) (depth : Int) : FlatPresetItem :=
  FlatPresetItem.mk (getFileName child) child true depth

/-- The file entry of a child at a depth. -/
def fileEntry (child : File) (depth : Int) : FlatPresetItem :=
  FlatPresetItem.mk (getFileNameWithoutExtension child) child false depth

/-- The files of the entries of a scan that are not folders, in scan order. -/
def scannedFiles (scanned : List FlatPresetItem) : List File :=
  (scanned.filter (fun item => !item.isFolder)).map (fun item => item.file)

/-- Consecutive ids from a first one, paired with files in order. -/
def numberFrom (first : Int) : List File → List (Int × File)
  | [] => []
  | f :: fs => (first, f) :: numberFrom (first + 1) fs

/-- The function `ValueTree::setProperty` on the root of a tree. -/
def ValueTree.setProperty (v : ValueTree) (name value : String) : ValueTree :=
  match v with
  | ValueTree.mk t p c => ValueTree.mk t (setNamed name value p) c

mutual
/-- Whether at every node of a tree the property names are pairwise distinct, as
they are in every `NamedValueSet`. -/
def ValueTree.distinctNames : ValueTree → Bool
  | ValueTree.mk _ p c => decide ((p.map Prod.fst).Nodup) && distinctNamesList c
/-- Whether every tree of a list has pairwise distinct property names. -/
def distinctNamesList : List ValueTree → Bool
  | [] => true
  | v :: vs => v.distinctNames && distinctNamesList vs
end

/-! ## Example inputs -/

/-- The tree of the ordering example: `A/a1.dx10`, an empty `B/` and `top.dx10`. -/
def orderingExample (c1 c2 : Option XmlElement) : List FsNode :=
  [FsNode.dir "A" [FsNode.file "a1.dx10" c1], FsNode.dir "B" [], FsNode.file "top.dx10" c2]

/-- A host with case-sensitive file names. -/
def linuxHost : Host :=
  Host.mk true ["home", "user", "Documents"] ["home", "user", ".config"]

/-- A preset directory `Presets` holding one empty subdirectory named `x.dx10` and
nothing else. -/
def emptyFolderTree : List FsNode :=
  [FsNode.dir "Presets" [FsNode.dir "x.dx10" []]]

/-- A preset directory `Presets` holding one dotted folder `.hidden` with a preset
file inside. -/
def hiddenFolderTree : List FsNode :=
  [FsNode.dir "Presets" [FsNode.dir ".hidden" [FsNode.file "a.dx10" none]]]

/-- An editor before its first rebuild, its preset directory being `Presets`. -/
def blankEditor : Editor :=
  Editor.mk (PresetManager.mk ["Presets"] [] "") (ComboBox.mk [] 0 "" false) [] 0 [] false
    false

/-- A processor with two factory presets. -/
def smallProcessor : Processor :=
  Processor.mk 2 (fun i => if i = 0 then "Bright" else "Bell") (fun _ v => v)

/-- A processor with 1001 factory presets. -/
def largeProcessor : Processor :=
  Processor.mk 1001 (fun _ => "Factory") (fun _ v => v)

/-- A file system whose preset directory `Presets` holds the ordering example. -/
def exampleFs : List FsNode :=
  [FsNode.dir "Presets" (orderingExample none none)]

/-- A parameter state with one parameter and no metadata at its root. -/
def exampleState : ValueTree :=
  ValueTree.mk "Parameters" []
    [ValueTree.mk "PARAM" [("id", "Attack"), ("value", "0.5")] []]

/-- A world made of the example file system and the example state. -/
def exampleWorld : World :=
  World.mk exampleFs exampleState []

/-- A file system whose preset directory holds one well-formed preset `top.dx10`. -/
def loadableFs : List FsNode :=
  [FsNode.dir "Presets" [FsNode.file "top.dx10" (some (XmlElement.mk "Parameters" [] []))]]

/-- An editor with 1001 factory presets whose map holds the key 1001 and whose
selector has the id 1001 selected; of the factory items only the last is kept. -/
def overlapEditor : Editor :=
  Editor.mk (PresetManager.mk ["Presets"] [] "")
    (ComboBox.mk
      [MenuItem.mk 1001 "Factory" true false false, MenuItem.mk 0 "" true true false,
       MenuItem.mk 1001 "top" true false false]
      1001 "Factory" false)
    [(1001, ["Presets", "top.dx10"])] 1001
    [FlatPresetItem.mk "top" ["Presets", "top.dx10"] false 0] false false

/-- The editor rebuilt with two factory presets and no user preset, the second
factory preset being selected. -/
def secondFactorySelected : Editor :=
  let e := rebuildPresetListFrom smallProcessor [] blankEditor
  let selector := e.presetSelector.setSelectedId 2 NotificationType.dontSendNotification
  { e with presetSelector := selector }

/-- The editor rebuilt with two factory presets and two user presets, the first
user preset being selected. -/
def firstUserSelected : Editor :=
  let e := rebuildPresetListFrom smallProcessor
    [FlatPresetItem.mk "a1" ["Presets", "a1.dx10"] false 0,
     FlatPresetItem.mk "top" ["Presets", "top.dx10"] false 0] blankEditor
  let selector := e.presetSelector.setSelectedId 1001 NotificationType.dontSendNotification
  { e with presetSelector := selector }

/-- A dropped path that the loop of `filesDropped` tries and that loads: its
extension is the preset extension and the load of the preset manager, called in
the given world, returns true. -/
def dropLoads (h : Host) (e : Editor) (w : World) (filePath : String) : Bool :=
  hasFileExtension (fileFromPath filePath) getPresetExtension &&
    (e.presetManager.loadPresetFromFile h w (fileFromPath filePath)).1

/-- A file system whose preset directory holds a well-formed preset `b.dx10` and a
well-formed document `a.txt`. -/
def dropFs : List FsNode :=
  [FsNode.dir "Presets"
    [FsNode.file "a.txt" (some (XmlElement.mk "Parameters" [] [])),
     FsNode.file "b.dx10" (some (XmlElement.mk "Parameters" [("volume", "1")] []))]]

/-- The completion handler of `DX10AudioProcessorEditor::selectPresetFolder`, given
the result of the file chooser (`juce::File()` when the user cancelled). -/
def selectPresetFolderChosen (h : Host) (p : Processor) (e : Editor) (w : World)
    (folder : File) : Editor × World :=
  if isDirectory w.fs folder then
    let r := e.presetManager.setPresetDirectory h w.fs folder
    let e1 := { e with presetManager := r.1 }
    let w1 := { w with fs := r.2 }
    (rebuildPresetList h p w1.fs e1, w1)
  else (e, w)

/-- The file the save handler writes to: the chosen file, given the preset
extension when `hasFileExtension` does not find it there. -/
def saveTarget (file : File) : File :=
  if !hasFileExtension file getPresetExtension then
    withFileExtension file getPresetExtension
  else file

/-- The completion handler of `DX10AudioProcessorEditor::savePresetToFile`, given
the result of the file chooser (`juce::File()` when the user cancelled). -/
def savePresetChosen (h : Host) (p : Processor) (e : Editor) (w : World) (chosen : File) :
    Editor × World :=
  if !fileEquals h chosen [] then
    let file := saveTarget chosen
    let r := PresetManager.savePresetToFile w file
    if r.1 then
      let e1 := rebuildPresetList h p r.2.fs e
      (selectFileInList h e1 file, r.2)
    else (e, r.2)
  else (e, w)

/-- The function `DX10AudioProcessorEditor::updatePresetSelectorFromParameter` up to
its last statement, the guard flag still set.  The index is the integer the source
computes from the raw value of the parameter `PresetIndex`; it is `none` when the
parameter store has no such parameter. -/
def updateSelecting (e : Editor) (index : Option Int) : Editor :=
  let e1 := { e with isUpdatingPresetSelector := true }
  match index with
  | some index =>
    if index ≥ 0 && index < e1.numFactoryPresets then
      let selector := e1.presetSelector.setSelectedId (index + 1)
        NotificationType.dontSendNotification
      { e1 with presetSelector := selector }
    else e1
  | none => e1

/-- The function `DX10AudioProcessorEditor::updatePresetSelectorFromParameter`. -/
def updatePresetSelectorFromParameter (e : Editor) (index : Option Int) : Editor :=
  { updateSelecting e index with isUpdatingPresetSelector := false }

/-- Whether the settings file can be written: once the directory of the file has
been asked for, a write to the path of the file succeeds. -/
def settingsWritable (h : Host) (fs : List FsNode) : Bool :=
  (writeFileIn (createDirectory fs (getParentDirectory (getSettingsFile h)))
    (getSettingsFile h) none).isSome

/-- The attributes of the document that `saveSettings` writes, from the file system
as it is when the record is written. -/
def settingsAttributes (pm : PresetManager) (fs1 : List FsNode) : List (String × String) :=
  (if isDirectory fs1 pm.customPresetDirectory then
      [("customPresetDirectory", getFullPathName pm.customPresetDirectory)]
    else []) ++
  (if pm.lastLoadedPreset != "" then [("lastLoadedPreset", pm.lastLoadedPreset)] else [])

/-- A path whose components are non-empty and hold no separator. -/
def plainPath (f : File) : Bool :=
  f.all (fun c => !c.data.isEmpty && !c.data.contains '/')

/-- A preset manager as it is before `loadSettings` runs in the constructor. -/
def freshManager : PresetManager :=
  PresetManager.mk [] [] ""

/-- A preset manager with a last-loaded preset recorded and no custom directory. -/
def recordedManager : PresetManager :=
  PresetManager.mk ["Presets"] [] "/Presets/top.dx10"

/-- A file system at start-up on `linuxHost`: the settings file names the custom
directory `/Gone`, which does not exist, and the default preset directory holds one
well-formed preset. -/
def staleSettingsFs : List FsNode :=
  [FsNode.dir "home"
    [FsNode.dir "user"
      [FsNode.dir ".config"
        [FsNode.dir "DX10"
          [FsNode.file "settings.xml"
            (some (XmlElement.mk "DX10Settings" [("customPresetDirectory", "/Gone")] []))]],
       FsNode.dir "Documents"
        [FsNode.dir "DX10 Presets"
          [FsNode.file "top.dx10" (some (XmlElement.mk "Parameters" [] []))]]]]]

/-- A file system whose preset directory holds one preset `top.dx10` with the root
tag `PARAMETERS`, all in capitals. -/
def capitalTagFs : List FsNode :=
  [FsNode.dir "Presets" [FsNode.file "top.dx10" (some (XmlElement.mk "PARAMETERS" [] []))]]

/-! ## Properties -/

/-! ### Lists -/

theorem foldl_append_step {α β : Type} (k : α → List β) (l : List α) (init : List β) :
    l.foldl (fun acc c => acc ++ k c) init = init ++ l.flatMap k := by
  induction l generalizing init with
  | nil => simp
  | cons x xs ih => simp [ih, List.flatMap_cons, List.append_assoc]

theorem flatMap_ite_filter {α β : Type} (p : α → Bool) (k : α → List β) (l : List α) :
    l.flatMap (fun c => if p c then k c else []) = (l.filter p).flatMap k := by
  induction l with
  | nil => simp
  | cons x xs ih =>
    by_cases hx : p x = true
    · simp [List.flatMap_cons, List.filter_cons, hx, ih]
    · simp [List.flatMap_cons, List.filter_cons, hx, ih]

theorem foldl_ite_append {α β : Type} (p : α → Bool) (g : α → β) (l : List α)
    (init : List β) :
    l.foldl (fun acc c => if p c then acc ++ [g c] else acc) init
      = init ++ (l.filter p).map g := by
  induction l generalizing init with
  | nil => simp
  | cons x xs ih =>
    by_cases hx : p x = true
    · simp [List.filter_cons, hx, ih]
    · simp [List.filter_cons, hx, ih]

theorem filter_length_pos_eq_any {α : Type} (p : α → Bool) (l : List α) :
    decide ((l.filter p).length > 0) = l.any p := by
  induction l with
  | nil => simp
  | cons x xs ih =>
    by_cases hx : p x = true
    · simp [List.filter_cons, hx]
    · simp only [Bool.not_eq_true] at hx
      simpa [List.filter_cons, hx] using ih

/-! ### The sort -/

theorem insertSorted_perm (h : Host) (x : File) (l : List File) :
    (insertSorted h x l).Perm (x :: l) := by
  induction l with
  | nil => simp [insertSorted]
  | cons y ys ih =>
    unfold insertSorted
    by_cases hxy : fileLessOrEqual h x y = true
    · simp [hxy]
    · simp only [hxy, if_false]
      exact (List.Perm.cons y ih).trans (List.Perm.swap x y ys)

theorem sortFiles_perm (h : Host) (l : List File) : (sortFiles h l).Perm l := by
  induction l with
  | nil => simp [sortFiles]
  | cons x xs ih =>
    unfold sortFiles
    exact (insertSorted_perm h x _).trans (List.Perm.cons x ih)

theorem mem_sortFiles (h : Host) (l : List File) (f : File) :
    f ∈ sortFiles h l ↔ f ∈ l :=
  (sortFiles_perm h l).mem_iff

/-! ### The probe for preset files -/

theorem getFileName_getChildFile (base : File) (n : String) :
    getFileName (getChildFile base n) = n := by
  simp [getFileName, getChildFile]

mutual
theorem any_filesBelow (h : Host) : ∀ (node : FsNode) (base : File),
    (filesBelow base node).any
      (fun f => matchesWildcardSuffix h (getFileName f) getPresetExtension)
      = holdsPreset h node
  | FsNode.file n _, base => by
    simp [filesBelow, holdsPreset, getFileName_getChildFile]
  | FsNode.dir n ch, base => by
    simp only [filesBelow, holdsPreset]
    exact any_filesBelowList h ch (getChildFile base n)
theorem any_filesBelowList (h : Host) : ∀ (nodes : List FsNode) (base : File),
    (filesBelowList base nodes).any
      (fun f => matchesWildcardSuffix h (getFileName f) getPresetExtension)
      = holdsPresetAny h nodes
  | [], base => by simp [filesBelowList, holdsPresetAny]
  | n :: ns, base => by
    simp only [filesBelowList, holdsPresetAny, List.any_append]
    rw [any_filesBelow h n base, any_filesBelowList h ns base]
end

/-- The recursive search of the first loop finds a file exactly when the directory
transitively holds a preset file. -/
theorem probe_eq (h : Host) (fs : List FsNode) (child : File) :
    decide ((findFilesRecursive h fs child getPresetExtension).length > 0)
      = holdsPresetAny h (entriesOf fs child) := by
  unfold findFilesRecursive
  rw [filter_length_pos_eq_any]
  exact any_filesBelowList h _ _

/-! ### The scanner without its accumulator -/

/-- One unfolding of the scanner within the depth bound. -/
theorem scanDirectoryFlat_unfold (h : Host) (fs : List FsNode) (dir : File)
    (items : List FlatPresetItem) (depth maxDepth : Int) (hd : depth ≤ maxDepth) :
    scanDirectoryFlat h fs dir items depth maxDepth =
      (sortFiles h (findChildFiles fs dir)).foldl
        (fun acc child =>
          if hasFileExtension child getPresetExtension then acc ++ [fileEntry child depth]
          else acc)
        ((sortFiles h (findChildFiles fs dir)).foldl
          (fun acc child =>
            if isListedFolder h fs child then
              scanDirectoryFlat h fs child (acc ++ [folderEntry child depth])
                (depth + 1) maxDepth
            else acc)
          items) := by
  rw [scanDirectoryFlat]
  have hnot : ¬ depth > maxDepth := by omega
  simp only [hnot, dite_false]
  congr 1
  congr 1
  funext acc child
  unfold isListedFolder
  rw [← probe_eq]
  unfold folderEntry
  by_cases h1 : isDirectory fs child = true <;>
    by_cases h2 : startsWithChar (getFileName child) '.' = true <;>
    by_cases h3 : (findFilesRecursive h fs child getPresetExtension).length > 0 <;>
    simp [h1, h2, h3]

/-- Beyond the depth bound the scanner returns at once. -/
theorem scanDirectoryFlat_above (h : Host) (fs : List FsNode) (dir : File)
    (items : List FlatPresetItem) (depth maxDepth : Int) (hd : depth > maxDepth) :
    scanDirectoryFlat h fs dir items depth maxDepth = items := by
  rw [scanDirectoryFlat]
  simp [hd]

/-- The first loop, once every recursive call is known to append. -/
theorem folders_fold (h : Host) (fs : List FsNode) (depth maxDepth : Int)
    (ih : ∀ (dir : File) (items : List FlatPresetItem),
      scanDirectoryFlat h fs dir items (depth + 1) maxDepth =
        items ++ scanDirectoryFlat h fs dir [] (depth + 1) maxDepth)
    (l : List File) (init : List FlatPresetItem) :
    l.foldl
      (fun acc child =>
        if isListedFolder h fs child then
          scanDirectoryFlat h fs child (acc ++ [folderEntry child depth])
            (depth + 1) maxDepth
        else acc) init =
      init ++ (l.filter (isListedFolder h fs)).flatMap
        (fun child => folderEntry child depth ::
          scanDirectoryFlat h fs child [] (depth + 1) maxDepth) := by
  rw [← flatMap_ite_filter, ← foldl_append_step]
  congr 1
  funext acc child
  by_cases hc : isListedFolder h fs child = true
  · simp only [hc, if_true]
    rw [ih child]
    simp
  · simp [hc]

/-- The scanner appends to the vector it is given. -/
theorem scanDirectoryFlat_acc (h : Host) (fs : List FsNode) (maxDepth : Int) :
    ∀ (n : Nat) (depth : Int), (maxDepth + 1 - depth).toNat = n →
      ∀ (dir : File) (items : List FlatPresetItem),
        scanDirectoryFlat h fs dir items depth maxDepth =
          items ++ scanDirectoryFlat h fs dir [] depth maxDepth := by
  intro n
  induction n with
  | zero =>
    intro depth hn dir items
    have hd : depth > maxDepth := by omega
    simp [scanDirectoryFlat_above h fs dir _ depth maxDepth hd]
  | succ k ih =>
    intro depth hn dir items
    have hd : depth ≤ maxDepth := by omega
    have hk : (maxDepth + 1 - (depth + 1)).toNat = k := by omega
    rw [scanDirectoryFlat_unfold h fs dir items depth maxDepth hd,
      scanDirectoryFlat_unfold h fs dir [] depth maxDepth hd]
    rw [folders_fold h fs depth maxDepth (ih (depth + 1) hk) _ items,
      folders_fold h fs depth maxDepth (ih (depth + 1) hk) _ [],
      foldl_ite_append, foldl_ite_append]
    simp [List.append_assoc]

/-- The listing of a directory within the depth bound: the listed folders, each
followed by its own listing one level down, then the files of this level. -/
theorem scanDirectoryFlat_eq (h : Host) (fs : List FsNode) (dir : File)
    (depth maxDepth : Int) (hd : depth ≤ maxDepth) :
    scanDirectoryFlat h fs dir [] depth maxDepth =
      ((sortFiles h (findChildFiles fs dir)).filter (isListedFolder h fs)).flatMap
        (fun child => folderEntry child depth ::
          scanDirectoryFlat h fs child [] (depth + 1) maxDepth)
      ++ ((sortFiles h (findChildFiles fs dir)).filter
          (fun child => hasFileExtension child getPresetExtension)).map
        (fun child => fileEntry child depth) := by
  rw [scanDirectoryFlat_unfold h fs dir [] depth maxDepth hd,
    folders_fold h fs depth maxDepth
      (fun d i => scanDirectoryFlat_acc h fs maxDepth _ (depth + 1) rfl d i) _ [],
    foldl_ite_append]
  simp

/-! ### Order of the sorted children -/

theorem compareChars_self : ∀ (a : List Char), compareChars a a = Ordering.eq
  | [] => rfl
  | x :: xs => by
    simp only [compareChars, lt_self_iff_false, if_false]
    exact compareChars_self xs

theorem equalsIgnoreCase_self (a : String) : equalsIgnoreCase a a = true := by
  unfold equalsIgnoreCase compareIgnoreCase
  rw [compareChars_self]
  rfl

theorem compareChars_swap : ∀ (a b : List Char),
    compareChars a b = Ordering.gt → compareChars b a ≠ Ordering.gt
  | [], [] => by simp [compareChars]
  | [], _ :: _ => by simp [compareChars]
  | _ :: _, [] => by simp [compareChars]
  | x :: xs, y :: ys => by
    intro h
    simp only [compareChars] at h ⊢
    by_cases h1 : x.toNat < y.toNat
    · simp [h1] at h
    · by_cases h2 : y.toNat < x.toNat
      · simp [h2]
      · simp only [h1, h2, if_false] at h ⊢
        exact compareChars_swap xs ys h

theorem compareChars_trans : ∀ (a b c : List Char),
    compareChars a b ≠ Ordering.gt → compareChars b c ≠ Ordering.gt →
      compareChars a c ≠ Ordering.gt
  | [], _, [] => by simp [compareChars]
  | [], _, _ :: _ => by simp [compareChars]
  | _ :: _, [], _ => by simp [compareChars]
  | _ :: _, _ :: _, [] => by simp [compareChars]
  | x :: xs, y :: ys, z :: zs => by
    intro h1 h2
    simp only [compareChars] at h1 h2 ⊢
    by_cases hxy : x.toNat < y.toNat
    · by_cases hyz : y.toNat < z.toNat
      · have : x.toNat < z.toNat := by omega
        simp [this]
      · by_cases hzy : z.toNat < y.toNat
        · simp [hyz, hzy] at h2
        · have : x.toNat < z.toNat := by omega
          simp [this]
    · by_cases hyx : y.toNat < x.toNat
      · simp [hxy, hyx] at h1
      · simp only [hxy, hyx, if_false] at h1
        by_cases hyz : y.toNat < z.toNat
        · have : x.toNat < z.toNat := by omega
          simp [this]
        · by_cases hzy : z.toNat < y.toNat
          · simp [hyz, hzy] at h2
          · simp only [hyz, hzy, if_false] at h2
            have e1 : ¬ x.toNat < z.toNat := by omega
            have e2 : ¬ z.toNat < x.toNat := by omega
            simp only [e1, e2, if_false]
            exact compareChars_trans xs ys zs h1 h2

theorem bne_gt_true (o : Ordering) : (o != Ordering.gt) = true ↔ o ≠ Ordering.gt := by
  cases o <;> decide

theorem bne_gt_false (o : Ordering) : (o != Ordering.gt) = false ↔ o = Ordering.gt := by
  cases o <;> decide

theorem fileLessOrEqual_total (h : Host) (a b : File) :
    fileLessOrEqual h a b = false → fileLessOrEqual h b a = true := by
  unfold fileLessOrEqual compareFilenames
  cases h.namesAreCaseSensitive <;>
  · intro hab
    simp only [if_true, if_false, Bool.false_eq_true, bne_gt_false, bne_gt_true] at hab ⊢
    exact compareChars_swap _ _ hab

theorem fileLessOrEqual_trans (h : Host) (a b c : File) :
    fileLessOrEqual h a b = true → fileLessOrEqual h b c = true →
      fileLessOrEqual h a c = true := by
  unfold fileLessOrEqual compareFilenames
  cases h.namesAreCaseSensitive <;>
  · intro hab hbc
    simp only [if_true, if_false, Bool.false_eq_true, bne_gt_true] at hab hbc ⊢
    exact compareChars_trans _ _ _ hab hbc

theorem insertSorted_sorted (h : Host) (x : File) (l : List File)
    (hl : l.Pairwise (fun a b => fileLessOrEqual h a b = true)) :
    (insertSorted h x l).Pairwise (fun a b => fileLessOrEqual h a b = true) := by
  induction l with
  | nil => simp [insertSorted]
  | cons y ys ih =>
    rw [List.pairwise_cons] at hl
    unfold insertSorted
    by_cases hxy : fileLessOrEqual h x y = true
    · rw [if_pos hxy, List.pairwise_cons]
      refine ⟨?_, List.pairwise_cons.mpr hl⟩
      intro z hz
      rcases List.mem_cons.mp hz with rfl | hz2
      · exact hxy
      · exact fileLessOrEqual_trans h x y z hxy (hl.1 z hz2)
    · rw [if_neg hxy, List.pairwise_cons]
      refine ⟨?_, ih hl.2⟩
      intro z hz
      rcases List.mem_cons.mp ((insertSorted_perm h x ys).mem_iff.mp hz) with rfl | hz2
      · exact fileLessOrEqual_total h _ _ (by simpa using hxy)
      · exact hl.1 z hz2

/-- The sorted array is in ascending order of `File::operator<`. -/
theorem sortFiles_sorted (h : Host) (l : List File) :
    (sortFiles h l).Pairwise (fun a b => fileLessOrEqual h a b = true) := by
  induction l with
  | nil => simp [sortFiles]
  | cons x xs ih =>
    unfold sortFiles
    exact insertSorted_sorted h x _ ih


/-! ### Paths below a directory -/

theorem lookup_cons_cons_dir (fs : List FsNode) (n m a : String) (rest : File)
    (ch : List FsNode) (hf : findEntry fs n = some (FsNode.dir a ch)) :
    lookup fs (n :: m :: rest) = lookup ch (m :: rest) := by
  rw [lookup, hf]

theorem lookup_cons_cons_file (fs : List FsNode) (n m a : String) (rest : File)
    (c : Option XmlElement) (hf : findEntry fs n = some (FsNode.file a c)) :
    lookup fs (n :: m :: rest) = none := by
  rw [lookup, hf]

theorem lookup_cons_cons_none (fs : List FsNode) (n m : String) (rest : File)
    (hf : findEntry fs n = none) :
    lookup fs (n :: m :: rest) = none := by
  rw [lookup, hf]

/-- Below a directory, a path is looked up among the entries of that directory. -/
theorem lookup_append (root : File) : ∀ (fs : List FsNode) (nm : String)
    (entries : List FsNode) (p : File),
    lookup fs root = some (FsNode.dir nm entries) → p ≠ [] →
      lookup fs (root ++ p) = lookup entries p := by
  induction root with
  | nil => intro fs nm entries p h; simp [lookup] at h
  | cons n rest ih =>
    intro fs nm entries p h hp
    cases rest with
    | nil =>
      cases p with
      | nil => exact absurd rfl hp
      | cons m q =>
        simp only [lookup] at h
        simpa using lookup_cons_cons_dir fs n m nm q entries h
    | cons m rest2 =>
      cases hf : findEntry fs n with
      | none => rw [lookup_cons_cons_none fs n m rest2 hf] at h; simp at h
      | some node =>
        cases node with
        | file a b => rw [lookup_cons_cons_file fs n m a rest2 b hf] at h; simp at h
        | dir a ch =>
          rw [lookup_cons_cons_dir fs n m a rest2 ch hf] at h
          have h2 := ih ch nm entries p h hp
          cases hrp : rest2 ++ p with
          | nil => simp at hrp; exact absurd hrp.2 hp
          | cons x xs =>
            simp only [List.cons_append] at h2 ⊢
            rw [lookup_cons_cons_dir fs n m a (rest2 ++ p) ch hf]
            exact h2

theorem suffix_of_suffix_append_cons {α : Type} (s x n : List α) (c : α)
    (hc : c ∉ s) (h : s <:+ x ++ c :: n) : s <:+ n := by
  obtain ⟨t, ht⟩ := h
  rcases List.append_eq_append_iff.mp ht with ⟨a, hx, hs⟩ | ⟨b, ht2, hs⟩
  · exact absurd (by rw [hs]; simp) hc
  · cases b with
    | nil =>
      simp at hs
      exact absurd (by rw [← hs]; simp) hc
    | cons b0 bs =>
      simp at hs
      exact ⟨bs, hs.2.symm⟩

theorem getFullPathName_child (base : File) (n : String) :
    (getFullPathName (getChildFile base n)).data =
      (getFullPathName base).data ++ '/' :: n.data := by
  simp [getFullPathName, getChildFile, List.flatMap_append]

/-- The extension test of a child looks at the child name only. -/
theorem hasFileExtension_child (base : File) (n s : String)
    (hs : '/' ∉ s.data.map Char.toLower) :
    hasFileExtension (getChildFile base n) s = endsWithIgnoreCase n s := by
  unfold hasFileExtension endsWithIgnoreCase
  rw [getFullPathName_child, List.map_append, List.map_cons]
  have hslash : Char.toLower '/' = '/' := by decide
  rw [hslash]
  apply Bool.eq_iff_iff.mpr
  rw [List.isSuffixOf_iff_suffix, List.isSuffixOf_iff_suffix]
  constructor
  · exact suffix_of_suffix_append_cons _ _ _ _ hs
  · intro h
    exact h.trans ((List.suffix_cons _ _).trans (List.suffix_append _ _))


theorem findEntry_mem (l : List FsNode) (n : String) (node : FsNode)
    (h : findEntry l n = some node) : node ∈ l ∧ node.name = n := by
  unfold findEntry at h
  refine ⟨List.mem_of_find?_eq_some h, ?_⟩
  have := List.find?_some h
  simpa using this

theorem findEntry_of_mem_nodup (l : List FsNode) (node : FsNode)
    (hn : (l.map FsNode.name).Nodup) (hm : node ∈ l) :
    findEntry l node.name = some node := by
  induction l with
  | nil => simp at hm
  | cons x xs ih =>
    simp only [List.map_cons, List.nodup_cons] at hn
    unfold findEntry
    rcases List.mem_cons.mp hm with rfl | hm2
    · simp [List.find?_cons]
    · have hne : x.name ≠ node.name := by
        intro he
        apply hn.1
        rw [he]
        exact List.mem_map_of_mem _ hm2
      have hb : (x.name == node.name) = false := by simpa using hne
      rw [List.find?_cons, hb]
      exact ih hn.2 hm2

theorem findEntry_eq_none (l : List FsNode) (n : String)
    (h : ∀ node ∈ l, node.name ≠ n) : findEntry l n = none := by
  unfold findEntry
  rw [List.find?_eq_none]
  intro x hx
  simpa using h x hx

/-- The entry found under a name does not depend on the order of a directory whose
names are distinct. -/
theorem findEntry_perm (l1 l2 : List FsNode) (n : String) (hp : l1.Perm l2)
    (hn : (l2.map FsNode.name).Nodup) : findEntry l1 n = findEntry l2 n := by
  have hn1 : (l1.map FsNode.name).Nodup := ((hp.map FsNode.name).nodup_iff).mpr hn
  cases h2 : findEntry l2 n with
  | none =>
    apply findEntry_eq_none
    intro node hmem hname
    have hm2 : node ∈ l2 := hp.mem_iff.mp hmem
    have := findEntry_of_mem_nodup l2 node hn hm2
    rw [hname, h2] at this
    exact absurd this (by simp)
  | some node =>
    obtain ⟨hm, hname⟩ := findEntry_mem l2 n node h2
    have := findEntry_of_mem_nodup l1 node hn1 (hp.mem_iff.mpr hm)
    rw [hname] at this
    exact this

theorem lookup_child (fs : List FsNode) (root : File) (nm : String)
    (entries : List FsNode) (n : String)
    (hroot : lookup fs root = some (FsNode.dir nm entries)) :
    lookup fs (getChildFile root n) = findEntry entries n := by
  unfold getChildFile
  rw [lookup_append root fs nm entries [n] hroot (by simp)]
  simp [lookup]

theorem getFileNameWithoutExtension_child (base : File) (n : String) :
    getFileNameWithoutExtension (getChildFile base n) = getFileNameWithoutExtension [n] := by
  simp [getFileNameWithoutExtension, getFileName, getChildFile]

theorem perm_singleton_filter {α : Type} (p : α → Bool) (l l0 : List α) (x : α)
    (hp : l.Perm l0) (h0 : l0.filter p = [x]) : l.filter p = [x] := by
  have := hp.filter p
  rw [h0] at this
  exact List.perm_singleton.mp this


theorem matches_of_lower (h : Host) (n s : String)
    (h1 : endsWith n s = true) (h2 : endsWithIgnoreCase n s = true) :
    matchesWildcardSuffix h n s = true := by
  unfold matchesWildcardSuffix
  split <;> assumption

theorem orderingExample_scan (h : Host) (fs : List FsNode) (root : File) (nm : String)
    (entries : List FsNode) (c1 c2 : Option XmlElement) (maxDepth : Int)
    (hroot : lookup fs root = some (FsNode.dir nm entries))
    (hperm : entries.Perm (orderingExample c1 c2))
    (hm : 1 ≤ maxDepth) :
    getFlatPresetList h fs root maxDepth =
      [FlatPresetItem.mk "A" (root ++ ["A"]) true 0,
       FlatPresetItem.mk "a1" (root ++ ["A", "a1.dx10"]) false 1,
       FlatPresetItem.mk "top" (root ++ ["top.dx10"]) false 0] := by
  have hnd : ((orderingExample c1 c2).map FsNode.name).Nodup := by
    simp [orderingExample, FsNode.name]
  have hfind : ∀ n, findEntry entries n = findEntry (orderingExample c1 c2) n :=
    fun n => findEntry_perm _ _ n hperm hnd
  have hlook : ∀ n, lookup fs (getChildFile root n) = findEntry (orderingExample c1 c2) n :=
    fun n => (lookup_child fs root nm entries n hroot).trans (hfind n)
  have hA : lookup fs (getChildFile root "A")
      = some (FsNode.dir "A" [FsNode.file "a1.dx10" c1]) := by
    rw [hlook]; simp [orderingExample, findEntry, FsNode.name]
  have hB : lookup fs (getChildFile root "B") = some (FsNode.dir "B" []) := by
    rw [hlook]; simp [orderingExample, findEntry, FsNode.name]
  have hT : lookup fs (getChildFile root "top.dx10") = some (FsNode.file "top.dx10" c2) := by
    rw [hlook]; simp [orderingExample, findEntry, FsNode.name]
  have ha1 : lookup fs (getChildFile (getChildFile root "A") "a1.dx10")
      = some (FsNode.file "a1.dx10" c1) := by
    rw [lookup_child fs _ "A" _ "a1.dx10" hA]; simp [findEntry, FsNode.name]
  have hslash : '/' ∉ getPresetExtension.data.map Char.toLower := by decide
  -- the children of the root, up to order
  have hchildren : (sortFiles h (findChildFiles fs root)).Perm
      [getChildFile root "A", getChildFile root "B", getChildFile root "top.dx10"] := by
    refine (sortFiles_perm h _).trans ?_
    unfold findChildFiles entriesOf
    rw [hroot]
    exact hperm.map _
  -- the folders of the root
  have hfolders : (sortFiles h (findChildFiles fs root)).filter (isListedFolder h fs)
      = [getChildFile root "A"] := by
    apply perm_singleton_filter _ _ _ _ hchildren
    have e1 : isListedFolder h fs (getChildFile root "A") = true := by
      simp only [isListedFolder, isDirectory, entriesOf, hA, getFileName_getChildFile,
        holdsPresetAny, holdsPreset]
      rw [matches_of_lower h _ _ (by decide) (by decide)]
      decide
    have e2 : isListedFolder h fs (getChildFile root "B") = false := by
      simp [isListedFolder, isDirectory, entriesOf, hB, holdsPresetAny]
    have e3 : isListedFolder h fs (getChildFile root "top.dx10") = false := by
      simp [isListedFolder, isDirectory, hT]
    simp [List.filter_cons, e1, e2, e3]
  -- the files of the root
  have hfiles : (sortFiles h (findChildFiles fs root)).filter
      (fun child => hasFileExtension child getPresetExtension)
      = [getChildFile root "top.dx10"] := by
    apply perm_singleton_filter _ _ _ _ hchildren
    have e1 : hasFileExtension (getChildFile root "A") getPresetExtension = false := by
      rw [hasFileExtension_child _ _ _ hslash]; decide
    have e2 : hasFileExtension (getChildFile root "B") getPresetExtension = false := by
      rw [hasFileExtension_child _ _ _ hslash]; decide
    have e3 : hasFileExtension (getChildFile root "top.dx10") getPresetExtension = true := by
      rw [hasFileExtension_child _ _ _ hslash]; decide
    simp [List.filter_cons, e1, e2, e3]
  -- the listing of folder A
  have hsub : scanDirectoryFlat h fs (getChildFile root "A") [] (0 + 1) maxDepth
      = [fileEntry (getChildFile (getChildFile root "A") "a1.dx10") 1] := by
    rw [scanDirectoryFlat_eq h fs _ (0 + 1) maxDepth (by omega)]
    have hc : findChildFiles fs (getChildFile root "A")
        = [getChildFile (getChildFile root "A") "a1.dx10"] := by
      simp [findChildFiles, entriesOf, hA, FsNode.name]
    have e1 : isListedFolder h fs (getChildFile (getChildFile root "A") "a1.dx10") = false := by
      simp [isListedFolder, isDirectory, ha1]
    have e2 : hasFileExtension (getChildFile (getChildFile root "A") "a1.dx10")
        getPresetExtension = true := by
      rw [hasFileExtension_child _ _ _ hslash]; decide
    rw [hc]
    simp [sortFiles, insertSorted, List.filter_cons, e1, e2]
  unfold getFlatPresetList
  rw [scanDirectoryFlat_eq h fs root 0 maxDepth (by omega), hfolders, hfiles]
  simp only [List.flatMap_cons, List.flatMap_nil, List.map_cons, List.map_nil, hsub]
  have n1 : getFileNameWithoutExtension ["a1.dx10"] = "a1" := by decide
  have n2 : getFileNameWithoutExtension ["top.dx10"] = "top" := by decide
  simp only [folderEntry, fileEntry, getFileName_getChildFile,
    getFileNameWithoutExtension_child, n1, n2]
  simp [getChildFile]

/-! ### C1: the listing of a directory -/

theorem compareChars_append_left : ∀ (p a b : List Char),
    compareChars (p ++ a) (p ++ b) = compareChars a b
  | [], _, _ => rfl
  | x :: xs, a, b => by
    simp only [List.cons_append, compareChars, lt_self_iff_false, if_false]
    exact compareChars_append_left xs a b

/-- Children of one directory are ordered as their names are. -/
theorem compareFilenames_child (h : Host) (dir : File) (a b : String) :
    compareFilenames h (getFullPathName (getChildFile dir a))
        (getFullPathName (getChildFile dir b)) = compareFilenames h a b := by
  unfold compareFilenames compareIgnoreCase toUpperCase
  cases h.namesAreCaseSensitive
  · simp only [Bool.false_eq_true, if_false, getFullPathName_child, List.map_append,
      List.map_cons]
    rw [compareChars_append_left]
    simp only [compareChars, lt_self_iff_false, if_false]
  · simp only [if_true, getFullPathName_child]
    rw [compareChars_append_left]
    simp only [compareChars, lt_self_iff_false, if_false]

theorem fileLessOrEqual_child (h : Host) (dir : File) (a b : String) :
    fileLessOrEqual h (getChildFile dir a) (getChildFile dir b)
      = (compareFilenames h a b != Ordering.gt) := by
  unfold fileLessOrEqual
  rw [compareFilenames_child]

/-- C1 (as stated, refuted). The claim gives the listing of the ordering example for
every `maxDepth`.  Scanned with `maxDepth` 0 the example yields the folder entry `A`
and the file entry `top` only: the listing of `A` lies one level beyond the bound,
so `a1` is missing from the result. -/
theorem listing_example_depth_zero_refuted :
    getFlatPresetList linuxHost exampleFs ["Presets"] 0 =
      [FlatPresetItem.mk "A" ["Presets", "A"] true 0,
       FlatPresetItem.mk "top" ["Presets", "top.dx10"] false 0] ∧
    getFlatPresetList linuxHost exampleFs ["Presets"] 0 ≠
      [FlatPresetItem.mk "A" ["Presets", "A"] true 0,
       FlatPresetItem.mk "a1" ["Presets", "A", "a1.dx10"] false 1,
       FlatPresetItem.mk "top" ["Presets", "top.dx10"] false 0] := by
  have h1 : getFlatPresetList linuxHost exampleFs ["Presets"] 0 =
      [FlatPresetItem.mk "A" ["Presets", "A"] true 0,
       FlatPresetItem.mk "top" ["Presets", "top.dx10"] false 0] := by
    unfold getFlatPresetList
    rw [scanDirectoryFlat_eq linuxHost exampleFs ["Presets"] 0 0 (by decide)]
    have hF : (sortFiles linuxHost (findChildFiles exampleFs ["Presets"])).filter
        (isListedFolder linuxHost exampleFs) = [["Presets", "A"]] := by decide
    have hG : (sortFiles linuxHost (findChildFiles exampleFs ["Presets"])).filter
        (fun child => hasFileExtension child getPresetExtension)
        = [["Presets", "top.dx10"]] := by decide
    rw [hF, hG]
    simp only [List.flatMap_cons, List.flatMap_nil, List.map_cons, List.map_nil,
      List.append_nil]
    rw [scanDirectoryFlat_above linuxHost exampleFs _ _ (0 + 1) 0 (by decide)]
    decide
  refine ⟨h1, ?_⟩
  rw [h1]
  decide

/-- C1 (amended). Within the depth bound the listing of a directory is exactly: for
every child that is a directory whose name does not start with a dot and that
transitively holds a preset file, in the order of the sorted children, a folder
entry at this depth followed at once by the listing of that child one level down;
and after all of those one file entry at this depth for every child with the preset
extension, again in the order of the sorted children.  The sorted children are the
children of the directory in ascending order of their names, as `compareFilenames`
orders them: by character code, the names upper-cased first where the host ignores
letter case.  For a root holding `A/a1.dx10`, an empty `B/` and `top.dx10`, in any
directory order, the result with a `maxDepth` of at least 1 is `A` (folder, depth
0), `a1` (file, depth 1), `top` (file, depth 0). -/
theorem scanDirectoryFlat_listing :
    (∀ (h : Host) (fs : List FsNode) (dir : File) (depth maxDepth : Int),
      depth ≤ maxDepth →
        (sortFiles h (findChildFiles fs dir)).Perm (findChildFiles fs dir) ∧
        (sortFiles h (findChildFiles fs dir)).Pairwise
          (fun a b => fileLessOrEqual h a b = true) ∧
        (∀ (a b : String),
          fileLessOrEqual h (getChildFile dir a) (getChildFile dir b)
            = (compareFilenames h a b != Ordering.gt)) ∧
        scanDirectoryFlat h fs dir [] depth maxDepth =
          ((sortFiles h (findChildFiles fs dir)).filter
              (fun child => isDirectory fs child && !startsWithChar (getFileName child) '.'
                && holdsPresetAny h (entriesOf fs child))).flatMap
            (fun child => FlatPresetItem.mk (getFileName child) child true depth ::
              scanDirectoryFlat h fs child [] (depth + 1) maxDepth)
          ++ ((sortFiles h (findChildFiles fs dir)).filter
              (fun child => hasFileExtension child getPresetExtension)).map
            (fun child =>
              FlatPresetItem.mk (getFileNameWithoutExtension child) child false depth)) ∧
    (∀ (h : Host) (fs : List FsNode) (root : File) (nm : String) (entries : List FsNode)
      (c1 c2 : Option XmlElement) (maxDepth : Int),
      lookup fs root = some (FsNode.dir nm entries) →
      entries.Perm (orderingExample c1 c2) →
      1 ≤ maxDepth →
        getFlatPresetList h fs root maxDepth =
          [FlatPresetItem.mk "A" (root ++ ["A"]) true 0,
           FlatPresetItem.mk "a1" (root ++ ["A", "a1.dx10"]) false 1,
           FlatPresetItem.mk "top" (root ++ ["top.dx10"]) false 0]) := by
  refine ⟨?_, ?_⟩
  · intro h fs dir depth maxDepth hd
    exact ⟨sortFiles_perm h _, sortFiles_sorted h _, fileLessOrEqual_child h dir,
      scanDirectoryFlat_eq h fs dir depth maxDepth hd⟩
  · intro h fs root nm entries c1 c2 maxDepth hroot hperm hm
    exact orderingExample_scan h fs root nm entries c1 c2 maxDepth hroot hperm hm

/-- The listing theorem at the default depth of three, on the tree of the example
kept in a directory `Presets`. -/
theorem scanDirectoryFlat_listing_witness :
    (0 : Int) ≤ 3 ∧
    getFlatPresetList linuxHost [FsNode.dir "Presets" (orderingExample none none)]
        ["Presets"] 3 =
      [FlatPresetItem.mk "A" ["Presets", "A"] true 0,
       FlatPresetItem.mk "a1" ["Presets", "A", "a1.dx10"] false 1,
       FlatPresetItem.mk "top" ["Presets", "top.dx10"] false 0] ∧
    scanDirectoryFlat linuxHost [FsNode.dir "Presets" (orderingExample none none)]
        ["Presets"] [] 0 3 =
      ((sortFiles linuxHost
          (findChildFiles [FsNode.dir "Presets" (orderingExample none none)]
            ["Presets"])).filter
          (fun child =>
            isDirectory [FsNode.dir "Presets" (orderingExample none none)] child
              && !startsWithChar (getFileName child) '.'
              && holdsPresetAny linuxHost
                (entriesOf [FsNode.dir "Presets" (orderingExample none none)] child))).flatMap
        (fun child => FlatPresetItem.mk (getFileName child) child true 0 ::
          scanDirectoryFlat linuxHost [FsNode.dir "Presets" (orderingExample none none)]
            child [] (0 + 1) 3)
      ++ ((sortFiles linuxHost
          (findChildFiles [FsNode.dir "Presets" (orderingExample none none)]
            ["Presets"])).filter
          (fun child => hasFileExtension child getPresetExtension)).map
        (fun child =>
          FlatPresetItem.mk (getFileNameWithoutExtension child) child false 0) :=
  ⟨by decide,
   scanDirectoryFlat_listing.2 linuxHost _ ["Presets"] "Presets"
     (orderingExample none none) none none 3 rfl (List.Perm.refl _) (by decide),
   (scanDirectoryFlat_listing.1 linuxHost _ ["Presets"] 0 3 (by decide)).2.2.2⟩

/-! ### C2: a tree without preset files -/

/-- C2 (the code at the failing input). The tree `emptyFolderTree` holds no regular
file at all, hence no preset file at any depth, yet on every host the scan of
`Presets` returns one file entry, for the empty directory `x.dx10`: the second loop
tests the extension of the path and never whether the child is a file. -/
theorem getFlatPresetList_lists_empty_directory (h : Host) :
    filesBelowList [] emptyFolderTree = [] ∧
    holdsPresetAny h emptyFolderTree = false ∧
    isDirectory emptyFolderTree ["Presets", "x.dx10"] = true ∧
    entriesOf emptyFolderTree ["Presets", "x.dx10"] = [] ∧
    getFlatPresetList h emptyFolderTree ["Presets"] 3 =
      [FlatPresetItem.mk "x" ["Presets", "x.dx10"] false 0] := by
  refine ⟨by decide, by simp [emptyFolderTree, holdsPresetAny, holdsPreset], by decide,
    rfl, ?_⟩
  have hc : findChildFiles emptyFolderTree ["Presets"] = [["Presets", "x.dx10"]] := by
    decide
  have e1 : isListedFolder h emptyFolderTree ["Presets", "x.dx10"] = false := by
    have : entriesOf emptyFolderTree ["Presets", "x.dx10"] = [] := rfl
    simp [isListedFolder, this, holdsPresetAny]
  have e2 : hasFileExtension ["Presets", "x.dx10"] getPresetExtension = true := by decide
  have e3 : getFileNameWithoutExtension ["Presets", "x.dx10"] = "x" := by decide
  unfold getFlatPresetList
  rw [scanDirectoryFlat_eq h _ _ 0 3 (by decide), hc]
  simp [sortFiles, insertSorted, List.filter_cons, e1, e2, e3, fileEntry]

/-! ### Folders below the scan root -/

theorem lookup_nil_entries (p : File) : lookup [] p = none := by
  cases p with
  | nil => rfl
  | cons n rest =>
    cases rest with
    | nil => simp [lookup, findEntry]
    | cons m r => exact lookup_cons_cons_none [] n m r (by simp [findEntry])

/-- Below any non-empty path, a path is looked up among the entries found there. -/
theorem lookup_append_entries (root : File) : ∀ (fs : List FsNode) (p : File),
    root ≠ [] → p ≠ [] → lookup fs (root ++ p) = lookup (entriesOf fs root) p := by
  induction root with
  | nil => intro fs p h; exact absurd rfl h
  | cons n rest ih =>
    intro fs p _ hp
    cases rest with
    | nil =>
      cases p with
      | nil => exact absurd rfl hp
      | cons m q =>
        cases hf : findEntry fs n with
        | none =>
          have : entriesOf fs [n] = [] := by simp [entriesOf, lookup, hf]
          rw [this, lookup_nil_entries]
          exact lookup_cons_cons_none fs n m q hf
        | some node =>
          cases node with
          | file a b =>
            have : entriesOf fs [n] = [] := by simp [entriesOf, lookup, hf]
            rw [this, lookup_nil_entries]
            exact lookup_cons_cons_file fs n m a q b hf
          | dir a ch =>
            have : entriesOf fs [n] = ch := by simp [entriesOf, lookup, hf]
            rw [this]
            exact lookup_cons_cons_dir fs n m a q ch hf
    | cons m rest2 =>
      have hne : (m :: rest2) ≠ [] := by simp
      cases hf : findEntry fs n with
      | none =>
        have e1 : entriesOf fs (n :: m :: rest2) = [] := by
          simp [entriesOf, lookup_cons_cons_none fs n m rest2 hf]
        rw [e1, lookup_nil_entries]
        exact lookup_cons_cons_none fs n m (rest2 ++ p) hf
      | some node =>
        cases node with
        | file a b =>
          have e1 : entriesOf fs (n :: m :: rest2) = [] := by
            simp [entriesOf, lookup_cons_cons_file fs n m a rest2 b hf]
          rw [e1, lookup_nil_entries]
          exact lookup_cons_cons_file fs n m a (rest2 ++ p) b hf
        | dir a ch =>
          have e1 : entriesOf fs (n :: m :: rest2) = entriesOf ch (m :: rest2) := by
            simp [entriesOf, lookup_cons_cons_dir fs n m a rest2 ch hf]
          rw [e1, ← ih ch p hne hp]
          exact lookup_cons_cons_dir fs n m a (rest2 ++ p) ch hf

theorem lookup_child_entries (fs : List FsNode) (dir : File) (c : String) (hd : dir ≠ []) :
    lookup fs (getChildFile dir c) = findEntry (entriesOf fs dir) c := by
  unfold getChildFile
  rw [lookup_append_entries dir fs [c] hd (by simp)]
  simp [lookup]

theorem holdsPresetAny_of_mem (h : Host) (l : List FsNode) (node : FsNode)
    (hm : node ∈ l) (hp : holdsPreset h node = true) : holdsPresetAny h l = true := by
  induction l with
  | nil => simp at hm
  | cons x xs ih =>
    rcases List.mem_cons.mp hm with rfl | hm2
    · simp [holdsPresetAny, hp]
    · simp [holdsPresetAny, ih hm2]

/-- A directory that holds a preset file makes its parent hold one. -/
theorem holdsPresetAny_parent (h : Host) (fs : List FsNode) (dir : File) (c : String)
    (hd : dir ≠ [])
    (hp : holdsPresetAny h (entriesOf fs (getChildFile dir c)) = true) :
    holdsPresetAny h (entriesOf fs dir) = true := by
  unfold entriesOf at hp
  rw [lookup_child_entries fs dir c hd] at hp
  cases hf : findEntry (entriesOf fs dir) c with
  | none => simp [hf, holdsPresetAny] at hp
  | some node =>
    cases node with
    | file a b => simp [hf, holdsPresetAny] at hp
    | dir a ch =>
      simp only [hf] at hp
      exact holdsPresetAny_of_mem h _ _ (findEntry_mem _ _ _ hf).1 (by simpa [holdsPreset] using hp)

theorem holdsPresetAny_ancestor (h : Host) (fs : List FsNode) (dir : File) (hd : dir ≠ []) :
    ∀ (q : File), holdsPresetAny h (entriesOf fs (dir ++ q)) = true →
      holdsPresetAny h (entriesOf fs dir) = true := by
  intro q
  induction q using List.reverseRecOn with
  | nil => simp
  | append_singleton q c ih =>
    intro hp
    apply ih
    have hne : dir ++ q ≠ [] := by simp [hd]
    have := holdsPresetAny_parent h fs (dir ++ q) c hne
      (by simpa [getChildFile, List.append_assoc] using hp)
    exact this

theorem isDirectory_of_holdsPresetAny (h : Host) (fs : List FsNode) (f : File)
    (hp : holdsPresetAny h (entriesOf fs f) = true) : isDirectory fs f = true := by
  unfold entriesOf at hp
  unfold isDirectory
  cases hl : lookup fs f with
  | none => simp [hl, holdsPresetAny] at hp
  | some node =>
    cases node with
    | file a b => simp [hl, holdsPresetAny] at hp
    | dir a ch => rfl

theorem mem_findChildFiles_of_isDirectory (fs : List FsNode) (dir : File) (c : String)
    (hd : dir ≠ []) (hc : isDirectory fs (getChildFile dir c) = true) :
    getChildFile dir c ∈ findChildFiles fs dir := by
  unfold isDirectory at hc
  rw [lookup_child_entries fs dir c hd] at hc
  cases hf : findEntry (entriesOf fs dir) c with
  | none => simp [hf] at hc
  | some node =>
    obtain ⟨hm, hn⟩ := findEntry_mem _ _ _ hf
    unfold findChildFiles
    rw [← hn]
    exact List.mem_map_of_mem _ hm

theorem mem_findChildFiles (fs : List FsNode) (dir child : File)
    (hc : child ∈ findChildFiles fs dir) : ∃ c, child = getChildFile dir c := by
  unfold findChildFiles at hc
  obtain ⟨node, _, hn⟩ := List.mem_map.mp hc
  exact ⟨node.name, hn.symm⟩


/-- Folder entries of a listing: the folders below the directory that hold a preset
file, have no dotted name on the way and lie within the depth bound. -/
theorem folder_entry_mem_scan (h : Host) (fs : List FsNode) (maxDepth : Int) :
    ∀ (n : Nat) (depth : Int), (maxDepth + 1 - depth).toNat = n →
      ∀ (dir : File), dir ≠ [] → ∀ (file : File),
        (∃ item ∈ scanDirectoryFlat h fs dir [] depth maxDepth,
            item.isFolder = true ∧ item.file = file) ↔
        (∃ rel : File, rel ≠ [] ∧ file = dir ++ rel ∧
            holdsPresetAny h (entriesOf fs file) = true ∧
            (∀ c ∈ rel, startsWithChar c '.' = false) ∧
            (rel.length : Int) ≤ maxDepth + 1 - depth) := by
  intro n
  induction n with
  | zero =>
    intro depth hn dir _ file
    have hd : depth > maxDepth := by omega
    rw [scanDirectoryFlat_above h fs dir _ depth maxDepth hd]
    constructor
    · rintro ⟨item, hm, _⟩
      simp at hm
    · rintro ⟨rel, hne, _, _, _, hlen⟩
      have : 0 < rel.length := List.length_pos.mpr hne
      omega
  | succ k ih =>
    intro depth hn dir hdir file
    have hd : depth ≤ maxDepth := by omega
    have hk : (maxDepth + 1 - (depth + 1)).toNat = k := by omega
    rw [scanDirectoryFlat_eq h fs dir depth maxDepth hd]
    constructor
    · rintro ⟨item, hm, hfolder, hfile⟩
      rcases List.mem_append.mp hm with hm1 | hm2
      · obtain ⟨child, hchild, hitem⟩ := List.mem_flatMap.mp hm1
        obtain ⟨hcs, hlisted⟩ := List.mem_filter.mp hchild
        obtain ⟨c, hc⟩ := mem_findChildFiles fs dir child ((mem_sortFiles h _ _).mp hcs)
        have hl := hlisted
        simp only [isListedFolder, Bool.and_eq_true, Bool.not_eq_true'] at hl
        have hdot : startsWithChar c '.' = false := by
          have := hl.1.2
          rw [hc, getFileName_getChildFile] at this
          exact this
        rcases List.mem_cons.mp hitem with hfe | hsub
        · refine ⟨[c], by simp, ?_, ?_, ?_, ?_⟩
          · rw [← hfile, hfe]; simpa [folderEntry, getChildFile] using hc
          · rw [← hfile, hfe]; exact hl.2
          · intro x hx
            rw [List.mem_singleton.mp hx]; exact hdot
          · simp; omega
        · have hcne : child ≠ [] := by rw [hc]; simp [getChildFile]
          obtain ⟨rel, hne, hf, hp, hdots, hlen⟩ :=
            (ih (depth + 1) hk child hcne file).mp ⟨item, hsub, hfolder, hfile⟩
          refine ⟨c :: rel, by simp, ?_, hp, ?_, ?_⟩
          · rw [hf, hc]; simp [getChildFile]
          · intro x hx
            rcases List.mem_cons.mp hx with rfl | hx2
            · exact hdot
            · exact hdots x hx2
          · simp only [List.length_cons, Nat.cast_add, Nat.cast_one]
            omega
      · obtain ⟨child, _, hitem⟩ := List.mem_map.mp hm2
        rw [← hitem] at hfolder
        simp [fileEntry] at hfolder
    · rintro ⟨rel, hne, hf, hp, hdots, hlen⟩
      cases rel with
      | nil => exact absurd rfl hne
      | cons c rest =>
        have hchild_eq : dir ++ c :: rest = getChildFile dir c ++ rest := by
          simp [getChildFile]
        have hcne : getChildFile dir c ≠ [] := by simp [getChildFile]
        have hpc : holdsPresetAny h (entriesOf fs (getChildFile dir c)) = true := by
          apply holdsPresetAny_ancestor h fs _ hcne rest
          rw [← hchild_eq, ← hf]; exact hp
        have hisdir := isDirectory_of_holdsPresetAny h fs _ hpc
        have hlisted : isListedFolder h fs (getChildFile dir c) = true := by
          simp only [isListedFolder, Bool.and_eq_true, Bool.not_eq_true']
          refine ⟨⟨hisdir, ?_⟩, hpc⟩
          rw [getFileName_getChildFile]
          exact hdots c (by simp)
        have hmem : getChildFile dir c ∈
            (sortFiles h (findChildFiles fs dir)).filter (isListedFolder h fs) := by
          apply List.mem_filter.mpr
          exact ⟨(mem_sortFiles h _ _).mpr
            (mem_findChildFiles_of_isDirectory fs dir c hdir hisdir), hlisted⟩
        cases rest with
        | nil =>
          refine ⟨folderEntry (getChildFile dir c) depth, ?_, rfl, ?_⟩
          · apply List.mem_append_left
            exact List.mem_flatMap.mpr ⟨_, hmem, by simp⟩
          · rw [hf]; simp [folderEntry, getChildFile]
        | cons c2 rest2 =>
          have hlen2 : (((c2 :: rest2).length : Nat) : Int) ≤ maxDepth + 1 - (depth + 1) := by
            simp only [List.length_cons, Nat.cast_add, Nat.cast_one] at hlen ⊢
            omega
          obtain ⟨item, hitem, hfolder, hfile⟩ :=
            (ih (depth + 1) hk (getChildFile dir c) hcne file).mpr
              ⟨c2 :: rest2, by simp, by rw [hf, hchild_eq], hp, fun x hx =>
                hdots x (List.mem_cons_of_mem _ hx), hlen2⟩
          refine ⟨item, ?_, hfolder, hfile⟩
          apply List.mem_append_left
          exact List.mem_flatMap.mpr ⟨_, hmem, List.mem_cons_of_mem _ hitem⟩

/-! ### C3: which folders have a folder entry -/

/-- C3 (as stated, refuted). In `hiddenFolderTree` the folder `Presets/.hidden` lies
under the scan root and holds the preset file `a.dx10`, yet the flat sequence has no
folder entry for it: the statement that every folder under the root has a folder
entry exactly when it transitively holds a preset file is false there. -/
theorem folder_entry_iff_holds_preset_refuted :
    ¬ (∀ rel : File, rel ≠ [] →
        isDirectory hiddenFolderTree (["Presets"] ++ rel) = true →
        ((∃ item ∈ getFlatPresetList linuxHost hiddenFolderTree ["Presets"] 3,
            item.isFolder = true ∧ item.file = ["Presets"] ++ rel) ↔
          holdsPresetAny linuxHost (entriesOf hiddenFolderTree (["Presets"] ++ rel))
            = true)) := by
  intro hall
  have hiff := hall [".hidden"] (by simp) (by decide)
  have hentry := hiff.mpr (by decide)
  unfold getFlatPresetList at hentry
  obtain ⟨rel, _, hfile, _, hdots, _⟩ :=
    (folder_entry_mem_scan linuxHost hiddenFolderTree 3 _ 0 rfl ["Presets"] (by simp)
      (["Presets"] ++ [".hidden"])).mp hentry
  have hrel : rel = [".hidden"] := (List.append_cancel_left hfile).symm
  have := hdots ".hidden" (by rw [hrel]; simp)
  exact absurd this (by decide)

/-- C3 (amended). For a scan root that is not the empty file and any path below it,
the flat sequence has a folder entry for that path exactly when the path is a folder
that transitively holds a preset file, no name on the way from the root to the
folder starts with a dot, and the folder lies at most `maxDepth + 1` levels below
the root. -/
theorem folder_entry_iff (h : Host) (fs : List FsNode) (root rel : File)
    (maxDepth : Int) (hroot : root ≠ []) (hrel : rel ≠ []) :
    (∃ item ∈ getFlatPresetList h fs root maxDepth,
        item.isFolder = true ∧ item.file = root ++ rel) ↔
      (isDirectory fs (root ++ rel) = true ∧
        holdsPresetAny h (entriesOf fs (root ++ rel)) = true ∧
        (∀ c ∈ rel, startsWithChar c '.' = false) ∧
        (rel.length : Int) ≤ maxDepth + 1) := by
  unfold getFlatPresetList
  rw [folder_entry_mem_scan h fs maxDepth _ 0 rfl root hroot (root ++ rel)]
  constructor
  · rintro ⟨rel2, _, hfile, hp, hdots, hlen⟩
    have hrel2 : rel2 = rel := (List.append_cancel_left hfile).symm
    rw [hrel2] at hdots hlen
    exact ⟨isDirectory_of_holdsPresetAny h fs _ hp, hp, hdots, by omega⟩
  · rintro ⟨_, hp, hdots, hlen⟩
    exact ⟨rel, hrel, rfl, hp, hdots, by omega⟩

/-- The amended folder invariant at work: folder `A` of the ordering example has its
folder entry. -/
theorem folder_entry_iff_witness :
    ∃ item ∈ getFlatPresetList linuxHost
        [FsNode.dir "Presets" (orderingExample none none)] ["Presets"] 3,
      item.isFolder = true ∧ item.file = ["Presets"] ++ ["A"] :=
  (folder_entry_iff linuxHost [FsNode.dir "Presets" (orderingExample none none)]
    ["Presets"] ["A"] 3 (by simp) (by simp)).mpr
    ⟨by decide, by decide, by decide, by decide⟩

/-! ### The rebuilt map -/

theorem mapAssign_append (m : List (Int × File)) (k : Int) (v : File)
    (hk : ∀ pair ∈ m, pair.1 < k) : mapAssign m k v = m ++ [(k, v)] := by
  induction m with
  | nil => simp [mapAssign]
  | cons x xs ih =>
    obtain ⟨k0, v0⟩ := x
    have h0 : k0 < k := hk (k0, v0) (by simp)
    have h1 : ¬ k < k0 := by omega
    have h2 : ¬ k = k0 := by omega
    simp only [mapAssign, h1, h2, if_false, List.cons_append]
    rw [ih (fun pair hp => hk pair (List.mem_cons_of_mem _ hp))]

theorem numberFrom_keys_lt (first : Int) (files : List File) :
    ∀ pair ∈ numberFrom first files, pair.1 < first + files.length := by
  induction files generalizing first with
  | nil => simp [numberFrom]
  | cons f fs ih =>
    intro pair hp
    simp only [numberFrom, List.mem_cons] at hp
    simp only [List.length_cons, Nat.cast_add, Nat.cast_one]
    rcases hp with rfl | hp
    · simp
    · have := ih (first + 1) pair hp
      omega

theorem numberFrom_append (first : Int) (files : List File) (f : File) :
    numberFrom first (files ++ [f]) = numberFrom first files ++ [(first + files.length, f)] := by
  induction files generalizing first with
  | nil => simp [numberFrom]
  | cons g gs ih =>
    show (first, g) :: numberFrom (first + 1) (gs ++ [f]) =
      (first, g) :: numberFrom (first + 1) gs ++ [(first + ((g :: gs).length : Nat), f)]
    rw [ih (first + 1)]
    have : first + 1 + (gs.length : Int) = first + ((g :: gs).length : Nat) := by
      simp only [List.length_cons, Nat.cast_add, Nat.cast_one]; omega
    rw [this]
    rfl

/-- The loop over the scanned entries numbers the files consecutively, in order. -/
theorem foldl_addUserPreset_map (scanned : List FlatPresetItem) :
    ∀ (sel : ComboBox) (done : List File) (first : Int),
      (scanned.foldl addUserPreset
          (sel, numberFrom first done, first + done.length)).2 =
        (numberFrom first (done ++ scannedFiles scanned),
          first + (done ++ scannedFiles scanned).length) := by
  induction scanned with
  | nil => intro sel done first; simp [scannedFiles]
  | cons item rest ih =>
    intro sel done first
    rw [List.foldl_cons]
    by_cases hf : item.isFolder = true
    · have hstep : addUserPreset (sel, numberFrom first done, first + done.length) item =
          (sel.addSectionHeading (indent item.depth ++ "[" ++ item.displayName ++ "]"),
            numberFrom first done, first + done.length) := by
        simp [addUserPreset, hf]
      rw [hstep, ih]
      simp [scannedFiles, List.filter_cons, hf]
    · have hstep : addUserPreset (sel, numberFrom first done, first + done.length) item =
          (sel.addItem (indent item.depth ++ item.displayName) (first + done.length),
            numberFrom first (done ++ [item.file]),
            first + ((done ++ [item.file]).length : Nat)) := by
        simp only [addUserPreset, hf, Bool.false_eq_true, if_false]
        rw [mapAssign_append _ _ _ (numberFrom_keys_lt first done), numberFrom_append]
        simp [Int.add_assoc]
      rw [hstep, ih]
      simp [scannedFiles, List.filter_cons, hf]

theorem rebuildPresetListFrom_map (p : Processor) (scanned : List FlatPresetItem)
    (e : Editor) :
    (rebuildPresetListFrom p scanned e).presetIdToFile
      = numberFrom 1001 (scannedFiles scanned) := by
  unfold rebuildPresetListFrom
  by_cases hlen : scanned.length > 0
  · simp only [hlen, if_true]
    have := foldl_addUserPreset_map scanned
      ((addFactoryPresets p p.getNumPresets
        (e.presetSelector.clear NotificationType.dontSendNotification)).addSeparator) [] 1001
    simp only [numberFrom, List.length_nil, Nat.cast_zero, add_zero, List.nil_append] at this
    rw [this]
  · have : scanned = [] := by
      cases scanned with
      | nil => rfl
      | cons x xs => simp at hlen
    simp [this, scannedFiles, numberFrom]

theorem numberFrom_keys (first : Int) (files : List File) :
    (numberFrom first files).map Prod.fst
      = (List.range files.length).map (fun (i : Nat) => first + (i : Int)) := by
  induction files generalizing first with
  | nil => simp [numberFrom]
  | cons f fs ih =>
    simp only [numberFrom, List.map_cons, List.length_cons, List.range_succ_eq_map,
      List.map_map, ih (first + 1)]
    refine congrArg₂ _ (by simp) ?_
    apply List.map_congr_left
    intro i _
    simp only [Function.comp, Nat.cast_succ]
    omega

theorem numberFrom_values (first : Int) (files : List File) :
    (numberFrom first files).map Prod.snd = files := by
  induction files generalizing first with
  | nil => simp [numberFrom]
  | cons f fs ih => simp [numberFrom, ih (first + 1)]

theorem mapFind_numberFrom (files : List File) : ∀ (first id : Int),
    mapFind (numberFrom first files) id =
      if first ≤ id ∧ id < first + files.length then files.get? (id - first).toNat
      else none := by
  induction files with
  | nil =>
    intro first id
    have : ¬ (first ≤ id ∧ id < first + 0) := by omega
    simp [numberFrom, mapFind]
  | cons f fs ih =>
    intro first id
    by_cases hid : first = id
    · subst hid
      have : first ≤ first ∧ first < first + ((f :: fs).length : Nat) := by
        simp only [List.length_cons, Nat.cast_add, Nat.cast_one]; omega
      simp [numberFrom, mapFind, this]
    · have hb : ((first == id) = false) := by simpa using hid
      have hstep : mapFind (numberFrom first (f :: fs)) id
          = mapFind (numberFrom (first + 1) fs) id := by
        simp [numberFrom, mapFind, List.find?_cons, hb]
      rw [hstep, ih (first + 1) id]
      by_cases hr : first + 1 ≤ id ∧ id < first + 1 + fs.length
      · have hr2 : first ≤ id ∧ id < first + ((f :: fs).length : Nat) := by
          simp only [List.length_cons, Nat.cast_add, Nat.cast_one]; omega
        have hn : (id - first).toNat = (id - (first + 1)).toNat + 1 := by omega
        rw [if_pos hr, if_pos hr2, hn]
        simp
      · have hr2 : ¬ (first ≤ id ∧ id < first + ((f :: fs).length : Nat)) := by
          simp only [List.length_cons, Nat.cast_add, Nat.cast_one]; omega
        rw [if_neg hr, if_neg hr2]


/-! ### The selector while the list is rebuilt -/

theorem clear_eq (c : ComboBox) :
    c.clear NotificationType.dontSendNotification
      = ComboBox.mk [] 0 "" c.changePending := by
  obtain ⟨items, cur, label, pend⟩ := c
  unfold ComboBox.clear ComboBox.setSelectedId ComboBox.getItemForId
  by_cases h1 : cur = 0
  · by_cases h2 : label = ""
    · subst h1; subst h2; simp
    · subst h1; simp [h2]
  · simp [h1]

theorem addSeparator_fields (c : ComboBox) :
    (c.addSeparator).currentId = c.currentId ∧ (c.addSeparator).labelText = c.labelText ∧
    (c.addSeparator).changePending = c.changePending ∧
    (c.addSeparator).items.filter (fun item => item.isSectionHeader)
      = c.items.filter (fun item => item.isSectionHeader) := by
  unfold ComboBox.addSeparator
  cases c.items.getLast? with
  | none => simp
  | some last =>
    by_cases hl : last.isSeparator = true
    · simp [hl]
    · simp [hl, List.filter_append]

theorem addItem_fields (c : ComboBox) (t : String) (i : Int) :
    (c.addItem t i).currentId = c.currentId ∧ (c.addItem t i).labelText = c.labelText ∧
    (c.addItem t i).changePending = c.changePending ∧
    (c.addItem t i).items.filter (fun item => item.isSectionHeader)
      = c.items.filter (fun item => item.isSectionHeader) := by
  unfold ComboBox.addItem
  by_cases ht : (t != "" && i != 0) = true
  · simp only [ht, if_true]
    simp [List.filter_append]
  · simp only [ht, if_false]
    simp

theorem heading_ne_empty (a b : String) : ((a ++ "[" ++ b ++ "]") != "") = true := by
  have : (a ++ "[" ++ b ++ "]").data ≠ "".data := by
    simp [String.data_append]
  simp only [bne_iff_ne, ne_eq]
  intro he
  exact this (by rw [he])

theorem addSectionHeading_fields (c : ComboBox) (a b : String) :
    (c.addSectionHeading (a ++ "[" ++ b ++ "]")).currentId = c.currentId ∧
    (c.addSectionHeading (a ++ "[" ++ b ++ "]")).labelText = c.labelText ∧
    (c.addSectionHeading (a ++ "[" ++ b ++ "]")).changePending = c.changePending ∧
    (c.addSectionHeading (a ++ "[" ++ b ++ "]")).items.filter
        (fun item => item.isSectionHeader)
      = c.items.filter (fun item => item.isSectionHeader)
        ++ [MenuItem.mk 0 (a ++ "[" ++ b ++ "]") true false true] := by
  unfold ComboBox.addSectionHeading
  simp [heading_ne_empty, List.filter_append]

theorem addFactoryPresets_fields (p : Processor) (n : Int) (c : ComboBox) :
    (addFactoryPresets p n c).currentId = c.currentId ∧
    (addFactoryPresets p n c).labelText = c.labelText ∧
    (addFactoryPresets p n c).changePending = c.changePending ∧
    (addFactoryPresets p n c).items.filter (fun item => item.isSectionHeader)
      = c.items.filter (fun item => item.isSectionHeader) := by
  unfold addFactoryPresets
  generalize List.range n.toNat = l
  induction l generalizing c with
  | nil => simp
  | cons x xs ih =>
    rw [List.foldl_cons]
    obtain ⟨a1, a2, a3, a4⟩ := addItem_fields c (p.getPresetName x) (x + 1)
    obtain ⟨b1, b2, b3, b4⟩ := ih (c.addItem (p.getPresetName x) (x + 1))
    exact ⟨b1.trans a1, b2.trans a2, b3.trans a3, b4.trans a4⟩

/-- The heading the loop adds for a folder entry. -/
theorem foldl_addUserPreset_fields (scanned : List FlatPresetItem) :
    ∀ (acc : ComboBox × List (Int × File) × Int),
      (scanned.foldl addUserPreset acc).1.currentId = acc.1.currentId ∧
      (scanned.foldl addUserPreset acc).1.labelText = acc.1.labelText ∧
      (scanned.foldl addUserPreset acc).1.changePending = acc.1.changePending ∧
      (scanned.foldl addUserPreset acc).1.items.filter (fun item => item.isSectionHeader)
        = acc.1.items.filter (fun item => item.isSectionHeader)
          ++ (scanned.filter (fun item => item.isFolder)).map
            (fun item => MenuItem.mk 0
              (indent item.depth ++ "[" ++ item.displayName ++ "]") true false true) := by
  induction scanned with
  | nil => intro acc; simp
  | cons item rest ih =>
    intro acc
    rw [List.foldl_cons]
    obtain ⟨b1, b2, b3, b4⟩ := ih (addUserPreset acc item)
    by_cases hf : item.isFolder = true
    · have hstep : (addUserPreset acc item).1 =
          acc.1.addSectionHeading (indent item.depth ++ "[" ++ item.displayName ++ "]") := by
        simp [addUserPreset, hf]
      obtain ⟨a1, a2, a3, a4⟩ :=
        addSectionHeading_fields acc.1 (indent item.depth) item.displayName
      rw [hstep] at b1 b2 b3 b4
      refine ⟨b1.trans a1, b2.trans a2, b3.trans a3, ?_⟩
      rw [b4, a4]
      simp [List.filter_cons, hf]
    · have hstep : (addUserPreset acc item).1 =
          acc.1.addItem (indent item.depth ++ item.displayName) acc.2.2 := by
        simp [addUserPreset, hf]
      obtain ⟨a1, a2, a3, a4⟩ :=
        addItem_fields acc.1 (indent item.depth ++ item.displayName) acc.2.2
      rw [hstep] at b1 b2 b3 b4
      refine ⟨b1.trans a1, b2.trans a2, b3.trans a3, ?_⟩
      rw [b4, a4]
      simp [List.filter_cons, hf]

/-- After a rebuild nothing is selected, and the section headings of the selector
are the headings of the folder entries. -/
theorem rebuildPresetListFrom_selector (p : Processor) (scanned : List FlatPresetItem)
    (e : Editor) :
    (rebuildPresetListFrom p scanned e).presetSelector.currentId = 0 ∧
    (rebuildPresetListFrom p scanned e).presetSelector.labelText = "" ∧
    (rebuildPresetListFrom p scanned e).presetSelector.changePending
      = e.presetSelector.changePending ∧
    (rebuildPresetListFrom p scanned e).presetSelector.items.filter
        (fun item => item.isSectionHeader)
      = (scanned.filter (fun item => item.isFolder)).map
          (fun item => MenuItem.mk 0
            (indent item.depth ++ "[" ++ item.displayName ++ "]") true false true) := by
  unfold rebuildPresetListFrom
  rw [clear_eq]
  obtain ⟨a1, a2, a3, a4⟩ := addFactoryPresets_fields p p.getNumPresets
    (ComboBox.mk [] 0 "" e.presetSelector.changePending)
  by_cases hlen : scanned.length > 0
  · simp only [hlen, if_true]
    obtain ⟨s1, s2, s3, s4⟩ := addSeparator_fields
      (addFactoryPresets p p.getNumPresets
        (ComboBox.mk [] 0 "" e.presetSelector.changePending))
    obtain ⟨b1, b2, b3, b4⟩ := foldl_addUserPreset_fields scanned
      ((addFactoryPresets p p.getNumPresets
        (ComboBox.mk [] 0 "" e.presetSelector.changePending)).addSeparator, [], 1001)
    refine ⟨b1.trans (s1.trans a1), b2.trans (s2.trans a2), b3.trans (s3.trans a3), ?_⟩
    rw [b4]
    simp only at s4 a4 ⊢
    rw [s4, a4]
    simp
  · have : scanned = [] := by
      cases scanned with
      | nil => rfl
      | cons x xs => simp at hlen
    subst this
    simp only [List.length_nil, gt_iff_lt, lt_self_iff_false, if_false]
    refine ⟨a1, a2, a3, ?_⟩
    rw [a4]
    simp

/-- A rebuild uses its editor only through the cleared selector and the members it
leaves alone. -/
theorem rebuildPresetListFrom_congr (p : Processor) (scanned : List FlatPresetItem)
    (e1 e2 : Editor)
    (hc : e1.presetSelector.clear NotificationType.dontSendNotification
      = e2.presetSelector.clear NotificationType.dontSendNotification)
    (h1 : e1.presetManager = e2.presetManager)
    (h2 : e1.isUpdatingPresetSelector = e2.isUpdatingPresetSelector)
    (h3 : e1.isDragOver = e2.isDragOver) :
    rebuildPresetListFrom p scanned e1 = rebuildPresetListFrom p scanned e2 := by
  obtain ⟨pm1, sel1, map1, num1, usr1, upd1, drag1⟩ := e1
  obtain ⟨pm2, sel2, map2, num2, usr2, upd2, drag2⟩ := e2
  simp only at hc h1 h2 h3
  unfold rebuildPresetListFrom
  simp only [hc, h1, h2, h3]

theorem rebuildPresetListFrom_frame (p : Processor) (scanned : List FlatPresetItem)
    (e : Editor) :
    (rebuildPresetListFrom p scanned e).presetManager = e.presetManager ∧
    (rebuildPresetListFrom p scanned e).isUpdatingPresetSelector
      = e.isUpdatingPresetSelector ∧
    (rebuildPresetListFrom p scanned e).isDragOver = e.isDragOver ∧
    (rebuildPresetListFrom p scanned e).numFactoryPresets = p.getNumPresets ∧
    (rebuildPresetListFrom p scanned e).userPresets = scanned := by
  unfold rebuildPresetListFrom
  by_cases hlen : scanned.length > 0 <;> simp [hlen]

/-- A second rebuild over the same scan changes nothing. -/
theorem rebuildPresetListFrom_idem (p : Processor) (scanned : List FlatPresetItem)
    (e : Editor) :
    rebuildPresetListFrom p scanned (rebuildPresetListFrom p scanned e)
      = rebuildPresetListFrom p scanned e := by
  obtain ⟨_, _, h3, _⟩ := rebuildPresetListFrom_selector p scanned e
  obtain ⟨f1, f2, f3, _, _⟩ := rebuildPresetListFrom_frame p scanned e
  apply rebuildPresetListFrom_congr p scanned _ _ _ f1 f2 f3
  rw [clear_eq, clear_eq, h3]

/-! ### C4: the ids of the rebuilt list -/

/-- C4. After a rebuild over any scan result the keys of the id-to-file map are
1001, 1002, ... up to 1000 plus the number of entries that are not folders, in this
order; the files behind them are the files of those entries in scan order; `find`
on the map returns the file number `id - 1001` for an id in that range and nothing
for any other id; and the section headings of the selector are exactly one heading
without id per folder entry, in scan order.  The list the source rebuilds from is
the flat preset list of the preset directory. -/
theorem rebuildPresetList_assigns_ids (h : Host) (p : Processor) (fs : List FsNode)
    (scanned : List FlatPresetItem) (e : Editor) :
    rebuildPresetList h p fs e
      = rebuildPresetListFrom p
          (getFlatPresetList h fs e.presetManager.presetDirectory 3) e ∧
    (rebuildPresetListFrom p scanned e).presetIdToFile.map Prod.fst
      = (List.range (scannedFiles scanned).length).map (fun (i : Nat) => (1001 : Int) + i) ∧
    (rebuildPresetListFrom p scanned e).presetIdToFile.map Prod.snd
      = (scanned.filter (fun item => !item.isFolder)).map (fun item => item.file) ∧
    (∀ id : Int, mapFind (rebuildPresetListFrom p scanned e).presetIdToFile id =
      if 1001 ≤ id ∧ id ≤ 1000 + (scannedFiles scanned).length then
        (scannedFiles scanned).get? (id - 1001).toNat
      else none) ∧
    (rebuildPresetListFrom p scanned e).presetSelector.items.filter
        (fun item => item.isSectionHeader)
      = (scanned.filter (fun item => item.isFolder)).map
          (fun item => MenuItem.mk 0
            (indent item.depth ++ "[" ++ item.displayName ++ "]") true false true) := by
  refine ⟨rfl, ?_, ?_, ?_, (rebuildPresetListFrom_selector p scanned e).2.2.2⟩
  · rw [rebuildPresetListFrom_map, numberFrom_keys]
  · rw [rebuildPresetListFrom_map, numberFrom_values]
    rfl
  · intro id
    rw [rebuildPresetListFrom_map, mapFind_numberFrom]
    by_cases hr : 1001 ≤ id ∧ id < 1001 + (scannedFiles scanned).length
    · have hr2 : 1001 ≤ id ∧ id ≤ 1000 + (scannedFiles scanned).length := by omega
      rw [if_pos hr, if_pos hr2]
    · have hr2 : ¬ (1001 ≤ id ∧ id ≤ 1000 + (scannedFiles scanned).length) := by omega
      rw [if_neg hr, if_neg hr2]

/-! ### C5: the ids of the factory presets -/

theorem exampleFs_scan (h : Host) :
    getFlatPresetList h exampleFs ["Presets"] 3 =
      [FlatPresetItem.mk "A" ["Presets", "A"] true 0,
       FlatPresetItem.mk "a1" ["Presets", "A", "a1.dx10"] false 1,
       FlatPresetItem.mk "top" ["Presets", "top.dx10"] false 0] :=
  orderingExample_scan h exampleFs ["Presets"] "Presets" (orderingExample none none)
    none none 3 rfl (List.Perm.refl _) (by decide)

/-- C5 (as stated, refuted). With 1001 factory presets and the ordering example in
the preset directory, the rebuilt map has the key 1001, an id within
`1..numFactoryPresets`, and it points to a file. -/
theorem factory_ids_reserved_refuted :
    ¬ (∀ id : Int, 1 ≤ id → id ≤ largeProcessor.getNumPresets →
        mapFind (rebuildPresetList linuxHost largeProcessor exampleFs
          blankEditor).presetIdToFile id = none) := by
  intro hall
  have h1001 := hall 1001 (by decide) (by decide)
  unfold rebuildPresetList at h1001
  rw [rebuildPresetListFrom_map] at h1001
  have hscan : getFlatPresetList linuxHost exampleFs blankEditor.presetManager.presetDirectory 3
      = [FlatPresetItem.mk "A" ["Presets", "A"] true 0,
         FlatPresetItem.mk "a1" ["Presets", "A", "a1.dx10"] false 1,
         FlatPresetItem.mk "top" ["Presets", "top.dx10"] false 0] := exampleFs_scan linuxHost
  rw [hscan] at h1001
  exact absurd h1001 (by decide)

theorem onChange_factory (h : Host) (p : Processor) (e : Editor) (w : World)
    (h1 : 1 ≤ e.presetSelector.getSelectedId)
    (h2 : e.presetSelector.getSelectedId ≤ e.numFactoryPresets) :
    presetSelectorOnChange h p e w =
      if e.isUpdatingPresetSelector then (e, w)
      else (e, w.setCurrentProgram p (e.presetSelector.getSelectedId - 1)) := by
  unfold presetSelectorOnChange
  by_cases hg : e.isUpdatingPresetSelector = true
  · simp [hg]
  · have hpos : e.presetSelector.getSelectedId > 0 := by omega
    simp [hg, hpos, h2]

/-- C5 (amended). With at most 1000 factory presets, after a rebuild over any scan
result no id in `1..numFactoryPresets` is a key of the id-to-file map; and for any
number of factory presets the change handler, on a selected id in
`1..numFactoryPresets`, does nothing under the guard and otherwise only asks the
processor for program `id - 1`: the preset manager and the file system stay as they
were, so no preset file is loaded. -/
theorem factory_ids_reserved (h : Host) (p : Processor) (scanned : List FlatPresetItem)
    (e : Editor) (w : World) :
    (p.getNumPresets ≤ 1000 → ∀ id : Int, 1 ≤ id → id ≤ p.getNumPresets →
      mapFind (rebuildPresetListFrom p scanned e).presetIdToFile id = none) ∧
    (1 ≤ e.presetSelector.getSelectedId →
      e.presetSelector.getSelectedId ≤ e.numFactoryPresets →
        presetSelectorOnChange h p e w =
          (if e.isUpdatingPresetSelector then (e, w)
           else (e, w.setCurrentProgram p (e.presetSelector.getSelectedId - 1))) ∧
        (presetSelectorOnChange h p e w).1 = e ∧
        (presetSelectorOnChange h p e w).2.fs = w.fs) := by
  constructor
  · intro hN id h1 h2
    rw [rebuildPresetListFrom_map, mapFind_numberFrom]
    have : ¬ (1001 ≤ id ∧ id < 1001 + (scannedFiles scanned).length) := by omega
    rw [if_neg this]
  · intro h1 h2
    have hstep := onChange_factory h p e w h1 h2
    refine ⟨hstep, ?_, ?_⟩
    · rw [hstep]; split <;> rfl
    · rw [hstep]; split <;> rfl

/-- The amended reservation with two factory presets: id 2 is no key of the map
rebuilt over the ordering example. -/
theorem factory_ids_reserved_witness :
    mapFind (rebuildPresetListFrom smallProcessor
      [FlatPresetItem.mk "A" ["Presets", "A"] true 0,
       FlatPresetItem.mk "a1" ["Presets", "A", "a1.dx10"] false 1,
       FlatPresetItem.mk "top" ["Presets", "top.dx10"] false 0]
      blankEditor).presetIdToFile 2 = none :=
  (factory_ids_reserved linuxHost smallProcessor _ blankEditor
    (World.mk exampleFs (ValueTree.mk "Parameters" [] []) [])).1
    (by decide) 2 (by decide) (by decide)

/-! ### C6: the map is a function of the snapshot -/

/-- C6. The id-to-file map after a rebuild is the consecutive numbering of the files
of the current scan and nothing else, whatever the editor held before: two editors
with the same preset directory get the same map from a rebuild over the same file
system, and a second rebuild over the same file system leaves the whole editor as
the first one made it. -/
theorem rebuildPresetList_function_of_snapshot (h : Host) (p : Processor)
    (fs : List FsNode) (e1 e2 : Editor)
    (hdir : e1.presetManager.presetDirectory = e2.presetManager.presetDirectory) :
    (rebuildPresetList h p fs e1).presetIdToFile
      = numberFrom 1001
          (scannedFiles (getFlatPresetList h fs e1.presetManager.presetDirectory 3)) ∧
    (rebuildPresetList h p fs e1).presetIdToFile
      = (rebuildPresetList h p fs e2).presetIdToFile ∧
    rebuildPresetList h p fs (rebuildPresetList h p fs e1) = rebuildPresetList h p fs e1 := by
  refine ⟨?_, ?_, ?_⟩
  · unfold rebuildPresetList
    rw [rebuildPresetListFrom_map]
  · unfold rebuildPresetList
    rw [rebuildPresetListFrom_map, rebuildPresetListFrom_map, hdir]
  · unfold rebuildPresetList
    rw [(rebuildPresetListFrom_frame p _ e1).1]
    exact rebuildPresetListFrom_idem p _ e1

/-- Two editors with different old maps, rebuilt over the example file system. -/
theorem rebuildPresetList_function_of_snapshot_witness :
    (rebuildPresetList linuxHost smallProcessor exampleFs blankEditor).presetIdToFile
      = (rebuildPresetList linuxHost smallProcessor exampleFs
          { blankEditor with presetIdToFile := [(1001, ["Presets", "gone.dx10"])] }).presetIdToFile :=
  (rebuildPresetList_function_of_snapshot linuxHost smallProcessor exampleFs blankEditor
    { blankEditor with presetIdToFile := [(1001, ["Presets", "gone.dx10"])] } rfl).2.1

/-! ### Files written and read back -/

theorem findEntry_replaceEntry (nodes : List FsNode) (n : String) (old new : FsNode)
    (hf : findEntry nodes n = some old) (hn : new.name = n) :
    findEntry (replaceEntry nodes n new) n = some new := by
  induction nodes with
  | nil => simp [findEntry] at hf
  | cons x xs ih =>
    unfold findEntry at hf ih ⊢
    by_cases hx : x.name = n
    · simp [replaceEntry, hx, hn, List.find?_cons]
    · have hb : (x.name == n) = false := by simpa using hx
      rw [List.find?_cons, hb] at hf
      simp only [replaceEntry, hb, Bool.false_eq_true, if_false, List.find?_cons]
      exact ih hf

theorem findEntry_append_new (nodes : List FsNode) (n : String) (new : FsNode)
    (hf : findEntry nodes n = none) (hn : new.name = n) :
    findEntry (nodes ++ [new]) n = some new := by
  unfold findEntry at hf ⊢
  rw [List.find?_append, hf]
  simp [List.find?_cons, hn]

theorem writeFileIn_single (fs : List FsNode) (n : String) (c : Option XmlElement)
    (fs2 : List FsNode) (hw : writeFileIn fs [n] c = some fs2) :
    ∃ a, findEntry fs2 n = some (FsNode.file a c) := by
  simp only [writeFileIn] at hw
  cases hf : findEntry fs n with
  | none =>
    simp only [hf, Option.some.injEq] at hw
    exact ⟨n, by rw [← hw]; exact findEntry_append_new fs n _ hf rfl⟩
  | some node =>
    cases node with
    | dir a ch => simp [hf] at hw
    | file a b =>
      simp only [hf, Option.some.injEq] at hw
      have hname : a = n := (findEntry_mem fs n _ hf).2
      exact ⟨a, by rw [← hw]; exact findEntry_replaceEntry fs n _ _ hf hname⟩

theorem writeFileIn_cons_cons (fs : List FsNode) (n m : String) (rest : File)
    (c : Option XmlElement) (fs2 : List FsNode)
    (hw : writeFileIn fs (n :: m :: rest) c = some fs2) :
    ∃ a ch ch2, findEntry fs n = some (FsNode.dir a ch) ∧
      writeFileIn ch (m :: rest) c = some ch2 ∧
      fs2 = replaceEntry fs n (FsNode.dir a ch2) := by
  rw [writeFileIn] at hw
  cases hf : findEntry fs n with
  | none => simp [hf] at hw
  | some node =>
    cases node with
    | file a b => simp [hf] at hw
    | dir a ch =>
      simp only [hf] at hw
      cases hw2 : writeFileIn ch (m :: rest) c with
      | none => simp [hw2] at hw
      | some ch2 =>
        simp only [hw2, Option.some.injEq] at hw
        exact ⟨a, ch, ch2, rfl, hw2, hw.symm⟩

/-- A written file is found again, with the content written. -/
theorem lookup_writeFileIn (p : File) : ∀ (fs fs2 : List FsNode) (c : Option XmlElement),
    writeFileIn fs p c = some fs2 → ∃ a, lookup fs2 p = some (FsNode.file a c) := by
  induction p with
  | nil => intro fs fs2 c hw; simp [writeFileIn] at hw
  | cons n rest ih =>
    intro fs fs2 c hw
    cases rest with
    | nil =>
      obtain ⟨a, ha⟩ := writeFileIn_single fs n c fs2 hw
      exact ⟨a, by simpa [lookup] using ha⟩
    | cons m rest2 =>
      obtain ⟨a, ch, ch2, hf, hw2, hfs2⟩ := writeFileIn_cons_cons fs n m rest2 c fs2 hw
      obtain ⟨b, hb⟩ := ih ch ch2 c hw2
      have hname : a = n := (findEntry_mem fs n _ hf).2
      have hf2 : findEntry fs2 n = some (FsNode.dir a ch2) := by
        rw [hfs2]; exact findEntry_replaceEntry fs n _ _ hf hname
      exact ⟨b, by rw [lookup_cons_cons_dir fs2 n m a rest2 ch2 hf2]; exact hb⟩

theorem writeTo_ok (x : XmlElement) (fs : List FsNode) (file : File)
    (hw : (writeTo x fs file).1 = true) :
    existsAsFile (writeTo x fs file).2 file = true ∧
    parseXml (writeTo x fs file).2 file = some x := by
  unfold writeTo at hw ⊢
  cases hwf : writeFileIn fs file (some x) with
  | none => simp [hwf] at hw
  | some fs2 =>
    obtain ⟨a, ha⟩ := lookup_writeFileIn file fs fs2 (some x) hwf
    simp [existsAsFile, fileExists, isDirectory, parseXml, ha]


/-! ### Documents and trees -/

theorem setNamed_new (name value : String) (l : List (String × String))
    (hn : name ∉ l.map Prod.fst) : setNamed name value l = l ++ [(name, value)] := by
  induction l with
  | nil => simp [setNamed]
  | cons x xs ih =>
    obtain ⟨n, v⟩ := x
    simp only [List.map_cons, List.mem_cons, not_or] at hn
    have hb : (n == name) = false := by
      simpa using fun he => hn.1 he.symm
    simp only [setNamed, hb, Bool.false_eq_true, if_false, List.cons_append]
    rw [ih hn.2]

theorem setNamed_names (name value : String) (l : List (String × String)) :
    (setNamed name value l).map Prod.fst =
      if name ∈ l.map Prod.fst then l.map Prod.fst else l.map Prod.fst ++ [name] := by
  induction l with
  | nil => simp [setNamed]
  | cons x xs ih =>
    obtain ⟨n, v⟩ := x
    by_cases hx : n = name
    · subst hx; simp [setNamed]
    · have hb : (n == name) = false := by simpa using hx
      have hne : ¬ name = n := fun he => hx he.symm
      simp only [setNamed, hb, Bool.false_eq_true, if_false, List.map_cons, ih,
        List.mem_cons, hne, false_or]
      split <;> simp

theorem setNamed_nodup (name value : String) (l : List (String × String))
    (hl : (l.map Prod.fst).Nodup) : ((setNamed name value l).map Prod.fst).Nodup := by
  rw [setNamed_names]
  split
  · exact hl
  · rename_i hn
    rw [List.nodup_append]
    refine ⟨hl, by simp, ?_⟩
    intro a ha hb
    simp only [List.mem_singleton] at hb
    exact hn (hb ▸ ha)

/-- Named values with distinct names are copied one by one without change. -/
theorem foldl_setNamed (l acc : List (String × String))
    (hn : ((acc ++ l).map Prod.fst).Nodup) :
    l.foldl (fun attrs p => setNamed p.1 p.2 attrs) acc = acc ++ l := by
  induction l generalizing acc with
  | nil => simp
  | cons x xs ih =>
    rw [List.foldl_cons]
    have hx : x.1 ∉ acc.map Prod.fst := by
      intro hmem
      rw [List.map_append, List.nodup_append] at hn
      exact hn.2.2 hmem (by simp)
    rw [setNamed_new _ _ _ hx]
    have : acc ++ [(x.1, x.2)] ++ xs = acc ++ x :: xs := by simp
    rw [ih (acc ++ [(x.1, x.2)]) (by rw [this]; exact hn), this]

theorem copyToXmlAttributes_eq (props : List (String × String))
    (hn : (props.map Prod.fst).Nodup) : copyToXmlAttributes props = props := by
  unfold copyToXmlAttributes
  rw [foldl_setNamed props [] (by simpa using hn)]
  simp

theorem setFromXmlAttributes_eq (attrs : List (String × String))
    (hn : (attrs.map Prod.fst).Nodup) : setFromXmlAttributes attrs = attrs := by
  unfold setFromXmlAttributes
  rw [foldl_setNamed attrs [] (by simpa using hn)]
  simp

mutual
theorem fromXml_createXml : ∀ (v : ValueTree), v.distinctNames = true →
    fromXml (createXmlObject v) = v
  | ValueTree.mk t p c => by
    intro hv
    simp only [ValueTree.distinctNames, Bool.and_eq_true, decide_eq_true_eq] at hv
    simp only [createXmlObject, fromXml]
    rw [copyToXmlAttributes_eq p hv.1, setFromXmlAttributes_eq p hv.1,
      fromXmlList_createXmlList c hv.2]
theorem fromXmlList_createXmlList : ∀ (vs : List ValueTree), distinctNamesList vs = true →
    fromXmlList (createXmlList vs) = vs
  | [] => by intro _; simp [createXmlList, fromXmlList]
  | v :: vs => by
    intro hv
    simp only [distinctNamesList, Bool.and_eq_true] at hv
    simp only [createXmlList, fromXmlList]
    rw [fromXml_createXml v hv.1, fromXmlList_createXmlList vs hv.2]
end

/-- The document of a save, read back as a tree: the saved tree with the two
metadata properties set at its root. -/
theorem fromXml_saved (v : ValueTree) (name : String) (hv : v.distinctNames = true) :
    fromXml (((createXmlObject v).setAttribute "presetName" name).setAttribute
        "pluginVersion" "1.0")
      = (v.setProperty "presetName" name).setProperty "pluginVersion" "1.0" := by
  obtain ⟨t, p, c⟩ := v
  simp only [ValueTree.distinctNames, Bool.and_eq_true, decide_eq_true_eq] at hv
  simp only [createXmlObject, XmlElement.setAttribute, fromXml, ValueTree.setProperty]
  rw [copyToXmlAttributes_eq p hv.1,
    setFromXmlAttributes_eq _ (setNamed_nodup _ _ _ (setNamed_nodup _ _ _ hv.1)),
    fromXmlList_createXmlList c hv.2]

theorem saved_tag (v : ValueTree) (name : String) :
    (((createXmlObject v).setAttribute "presetName" name).setAttribute
        "pluginVersion" "1.0").hasTagName v.getType = true := by
  obtain ⟨t, p, c⟩ := v
  simp [createXmlObject, XmlElement.setAttribute, XmlElement.hasTagName, XmlElement.tag,
    ValueTree.getType, equalsIgnoreCase_self]


/-! ### Saving and loading a preset -/

theorem savePresetToFile_ok (w : World) (file : File)
    (hw : (PresetManager.savePresetToFile w file).1 = true) :
    existsAsFile (PresetManager.savePresetToFile w file).2.fs file = true ∧
    parseXml (PresetManager.savePresetToFile w file).2.fs file =
      some (((createXmlObject w.state).setAttribute "presetName"
        (getFileNameWithoutExtension file)).setAttribute "pluginVersion" "1.0") ∧
    (PresetManager.savePresetToFile w file).2.state = w.state ∧
    (PresetManager.savePresetToFile w file).2.programCalls = w.programCalls := by
  unfold PresetManager.savePresetToFile ValueTree.createXml at hw ⊢
  simp only at hw ⊢
  obtain ⟨h1, h2⟩ := writeTo_ok _ _ _ hw
  exact ⟨h1, h2, trivial, trivial⟩

/-- A load of a file that exists, parses and carries the tag of the state. -/
theorem loadPresetFromFile_ok (h : Host) (pm : PresetManager) (w : World) (file : File)
    (xml : XmlElement) (h1 : existsAsFile w.fs file = true)
    (h2 : parseXml w.fs file = some xml)
    (h3 : xml.hasTagName w.state.getType = true) :
    pm.loadPresetFromFile h w file =
      (true, { pm with lastLoadedPreset := getFullPathName file },
        { w with state := fromXml xml
                 fs := PresetManager.saveSettings h
                   { pm with lastLoadedPreset := getFullPathName file } w.fs }) := by
  unfold PresetManager.loadPresetFromFile PresetManager.setLastLoadedPreset
  simp [h1, h2, h3]

/-- What makes a load fail, and that a failed load changes nothing. -/
theorem loadPresetFromFile_false (h : Host) (pm : PresetManager) (w : World) (file : File) :
    ((pm.loadPresetFromFile h w file).1 = false ↔
      (existsAsFile w.fs file = false ∨ parseXml w.fs file = none ∨
        ∃ xml, parseXml w.fs file = some xml ∧ xml.hasTagName w.state.getType = false)) ∧
    ((pm.loadPresetFromFile h w file).1 = false →
      (pm.loadPresetFromFile h w file).2.1 = pm ∧
      (pm.loadPresetFromFile h w file).2.2 = w) := by
  unfold PresetManager.loadPresetFromFile
  by_cases h1 : existsAsFile w.fs file = true
  · cases h2 : parseXml w.fs file with
    | none => simp [h1]
    | some xml =>
      by_cases h3 : xml.hasTagName w.state.getType = true
      · simp [h1, h3]
      · simp [h1, h3]
  · simp [h1]

theorem save_then_load (h : Host) (pm : PresetManager) (w : World) (file : File)
    (hS : w.state.distinctNames = true)
    (hw : (PresetManager.savePresetToFile w file).1 = true) :
    (pm.loadPresetFromFile h (PresetManager.savePresetToFile w file).2 file).1 = true ∧
    (pm.loadPresetFromFile h (PresetManager.savePresetToFile w file).2 file).2.2.state =
      (w.state.setProperty "presetName" (getFileNameWithoutExtension file)).setProperty
        "pluginVersion" "1.0" := by
  obtain ⟨h1, h2, h3, _⟩ := savePresetToFile_ok w file hw
  have htag := saved_tag w.state (getFileNameWithoutExtension file)
  rw [← h3] at htag
  rw [loadPresetFromFile_ok h pm _ file _ h1 h2 htag]
  exact ⟨rfl, fromXml_saved w.state _ hS⟩


/-! ### C7: save, then load -/

/-- C7 (as stated, refuted). In the example world the state has no property at its
root.  Saving it to `Presets/lead.dx10` succeeds, so the path is writable, and the
load that follows succeeds as well, but the state it leaves is not the state that
was saved: the root now carries `presetName` and `pluginVersion`. -/
theorem save_load_identity_refuted :
    (PresetManager.savePresetToFile exampleWorld ["Presets", "lead.dx10"]).1 = true ∧
    ¬ ((blankEditor.presetManager.loadPresetFromFile linuxHost
          (PresetManager.savePresetToFile exampleWorld ["Presets", "lead.dx10"]).2
          ["Presets", "lead.dx10"]).1 = true ∧
        (blankEditor.presetManager.loadPresetFromFile linuxHost
          (PresetManager.savePresetToFile exampleWorld ["Presets", "lead.dx10"]).2
          ["Presets", "lead.dx10"]).2.2.state = exampleWorld.state) := by
  have hw : (PresetManager.savePresetToFile exampleWorld ["Presets", "lead.dx10"]).1
      = true := by decide
  refine ⟨hw, ?_⟩
  rintro ⟨_, hstate⟩
  rw [(save_then_load linuxHost blankEditor.presetManager exampleWorld
    ["Presets", "lead.dx10"] (by decide) hw).2] at hstate
  have hp := congrArg ValueTree.properties hstate
  simp [exampleWorld, exampleState, ValueTree.setProperty, ValueTree.properties,
    setNamed] at hp

/-- C7 (amended). For every parameter state, every preset manager and every path to
which the save succeeds, the load that follows at once succeeds, and it leaves the
parameter state equal to the saved state with two properties set at its root:
`presetName`, the file name without its extension, and `pluginVersion`, `1.0`.
Type and children, hence every parameter value, are those of the saved state, and
the path is recorded as the last loaded preset. -/
theorem save_load_round_trip (h : Host) (pm : PresetManager) (w : World) (file : File)
    (hS : w.state.distinctNames = true)
    (hw : (PresetManager.savePresetToFile w file).1 = true) :
    (pm.loadPresetFromFile h (PresetManager.savePresetToFile w file).2 file).1 = true ∧
    (pm.loadPresetFromFile h (PresetManager.savePresetToFile w file).2 file).2.2.state =
      (w.state.setProperty "presetName" (getFileNameWithoutExtension file)).setProperty
        "pluginVersion" "1.0" ∧
    (pm.loadPresetFromFile h (PresetManager.savePresetToFile w file).2
      file).2.2.state.getType = w.state.getType ∧
    (pm.loadPresetFromFile h (PresetManager.savePresetToFile w file).2
      file).2.2.state.children = w.state.children ∧
    (pm.loadPresetFromFile h (PresetManager.savePresetToFile w file).2
      file).2.1.lastLoadedPreset = getFullPathName file := by
  obtain ⟨h1, h2⟩ := save_then_load h pm w file hS hw
  refine ⟨h1, h2, ?_, ?_, ?_⟩
  · rw [h2]
    cases w.state with
    | mk t p c => rfl
  · rw [h2]
    cases w.state with
    | mk t p c => rfl
  · obtain ⟨e1, e2, e3, _⟩ := savePresetToFile_ok w file hw
    have htag := saved_tag w.state (getFileNameWithoutExtension file)
    rw [← e3] at htag
    rw [loadPresetFromFile_ok h pm _ file _ e1 e2 htag]

/-- The amended round trip on the example world. -/
theorem save_load_round_trip_witness :
    (blankEditor.presetManager.loadPresetFromFile linuxHost
      (PresetManager.savePresetToFile exampleWorld ["Presets", "lead.dx10"]).2
      ["Presets", "lead.dx10"]).2.2.state.children = exampleState.children :=
  (save_load_round_trip linuxHost blankEditor.presetManager exampleWorld
    ["Presets", "lead.dx10"] (by decide) (by decide)).2.2.2.1

/-! ### C8: a failed load -/

theorem loadPresetChosen_failed (h : Host) (p : Processor) (e : Editor) (w : World)
    (file : File) (hf : (e.presetManager.loadPresetFromFile h w file).1 = false) :
    loadPresetChosen h p e w file = (e, w) := by
  obtain ⟨hpm, hw⟩ := (loadPresetFromFile_false h e.presetManager w file).2 hf
  unfold loadPresetChosen
  by_cases hex : existsAsFile w.fs file = true
  · simp only [hex, if_true, hf, Bool.false_eq_true, if_false, hpm, hw]
  · simp [hex]

theorem filesDroppedLoop_failed (h : Host) (p : Processor) (w : World) :
    ∀ (files : List String) (e : Editor),
      (∀ path ∈ files, hasFileExtension (fileFromPath path) getPresetExtension = true →
        (e.presetManager.loadPresetFromFile h w (fileFromPath path)).1 = false) →
      filesDroppedLoop h p files e w = (e, w) := by
  intro files
  induction files with
  | nil => intro e _; rfl
  | cons path rest ih =>
    intro e hall
    have hrest := ih e (fun q hq => hall q (List.mem_cons_of_mem _ hq))
    unfold filesDroppedLoop
    by_cases hext : hasFileExtension (fileFromPath path) getPresetExtension = true
    · have hf := hall path (by simp) hext
      obtain ⟨hpm, hw⟩ := (loadPresetFromFile_false h e.presetManager w
        (fileFromPath path)).2 hf
      simp only [hext, if_true, hf, Bool.false_eq_true, if_false, hpm, hw]
      exact hrest
    · simp only [hext, Bool.false_eq_true, if_false]
      exact hrest

theorem compareChars_eq_iff : ∀ (a b : List Char), compareChars a b = Ordering.eq ↔ a = b
  | [], [] => by simp [compareChars]
  | [], _ :: _ => by simp [compareChars]
  | _ :: _, [] => by simp [compareChars]
  | x :: xs, y :: ys => by
    simp only [compareChars, List.cons.injEq]
    by_cases h1 : x.toNat < y.toNat
    · simp only [h1, if_true]
      constructor
      · intro h; exact absurd h (by decide)
      · intro h; rw [h.1] at h1; omega
    · by_cases h2 : y.toNat < x.toNat
      · simp only [h1, h2, if_true, if_false]
        constructor
        · intro h; exact absurd h (by decide)
        · intro h; rw [h.1] at h2; omega
      · simp only [h1, h2, if_false]
        have hxy : x = y := by
          apply Char.ext
          apply UInt32.ext
          have : x.toNat = y.toNat := by omega
          exact this
        rw [compareChars_eq_iff xs ys]
        constructor
        · intro h; exact ⟨hxy, h⟩
        · intro h; exact h.2

theorem equalsIgnoreCase_iff (a b : String) :
    equalsIgnoreCase a b = true ↔ toUpperCase a = toUpperCase b := by
  unfold equalsIgnoreCase compareIgnoreCase
  have hb : ∀ o : Ordering, (o == Ordering.eq) = true ↔ o = Ordering.eq := by
    intro o; cases o <;> decide
  rw [hb, compareChars_eq_iff]
  constructor
  · intro h; exact String.ext h
  · intro h; rw [h]

theorem hasTagName_false_iff (xml : XmlElement) (t : String) :
    xml.hasTagName t = false ↔ toUpperCase xml.tag ≠ toUpperCase t := by
  unfold XmlElement.hasTagName
  rw [Ne, ← equalsIgnoreCase_iff]
  simp

/-- C8 (as stated, refuted). The preset `Presets/top.dx10` of `capitalTagFs` exists
and parses to a document whose root tag is `PARAMETERS`, while the type of the
parameter state is `Parameters`: the two differ.  The load nevertheless returns
true and replaces the state, whose type is `PARAMETERS` afterwards, because the tag
test ignores letter case.  So a load does not fail whenever the root tag differs
from the type of the state. -/
theorem load_tag_differs_refuted :
    existsAsFile capitalTagFs ["Presets", "top.dx10"] = true ∧
    (parseXml capitalTagFs ["Presets", "top.dx10"]).map XmlElement.tag
      = some "PARAMETERS" ∧
    exampleState.getType = "Parameters" ∧
    (freshManager.loadPresetFromFile linuxHost (World.mk capitalTagFs exampleState [])
      ["Presets", "top.dx10"]).1 = true ∧
    (freshManager.loadPresetFromFile linuxHost (World.mk capitalTagFs exampleState [])
      ["Presets", "top.dx10"]).2.2.state.getType = "PARAMETERS" ∧
    ¬ ((freshManager.loadPresetFromFile linuxHost (World.mk capitalTagFs exampleState [])
        ["Presets", "top.dx10"]).1 = false ↔
      (existsAsFile capitalTagFs ["Presets", "top.dx10"] = false ∨
       parseXml capitalTagFs ["Presets", "top.dx10"] = none ∨
       ∃ xml, parseXml capitalTagFs ["Presets", "top.dx10"] = some xml ∧
         xml.tag ≠ exampleState.getType)) := by
  have hload : (freshManager.loadPresetFromFile linuxHost
      (World.mk capitalTagFs exampleState []) ["Presets", "top.dx10"]).1 = true := by
    decide
  refine ⟨by decide, by decide, by decide, hload, by decide, ?_⟩
  intro hiff
  have hfalse := hiff.mpr
    (Or.inr (Or.inr ⟨XmlElement.mk "PARAMETERS" [] [], rfl, by decide⟩))
  rw [hload] at hfalse
  exact absurd hfalse (by decide)

/-- C8 (amended). The load of the preset manager returns false exactly when the path
is not an existing file, or the file does not parse to a document, or the root tag
of the document differs from the type of the parameter state by more than letter
case, that is their upper-case forms differ (a tag that differs from the type in
letter case only is accepted).  When it returns false the manager (with the
last-loaded path) and the world (parameter state, file system) are unchanged.  The
load handler of the editor then leaves the editor and the world as they were; and
when every dropped path with the preset extension fails to load, the drop handler
changes nothing but the drag flag, so the selected id and the id-to-file map are
untouched. -/
theorem loadPresetFromFile_failure (h : Host) (p : Processor) (e : Editor) (w : World)
    (file : File) (files : List String) :
    ((e.presetManager.loadPresetFromFile h w file).1 = false ↔
      (existsAsFile w.fs file = false ∨ parseXml w.fs file = none ∨
        ∃ xml, parseXml w.fs file = some xml ∧
          toUpperCase xml.tag ≠ toUpperCase w.state.getType)) ∧
    ((e.presetManager.loadPresetFromFile h w file).1 = false →
      (e.presetManager.loadPresetFromFile h w file).2.1 = e.presetManager ∧
      (e.presetManager.loadPresetFromFile h w file).2.2 = w ∧
      loadPresetChosen h p e w file = (e, w)) ∧
    ((∀ path ∈ files, hasFileExtension (fileFromPath path) getPresetExtension = true →
        (e.presetManager.loadPresetFromFile h w (fileFromPath path)).1 = false) →
      filesDropped h p e w files = ({ e with isDragOver := false }, w) ∧
      (filesDropped h p e w files).1.presetSelector.getSelectedId
        = e.presetSelector.getSelectedId ∧
      (filesDropped h p e w files).1.presetIdToFile = e.presetIdToFile ∧
      (filesDropped h p e w files).2 = w) := by
  refine ⟨?_, ?_, ?_⟩
  · rw [(loadPresetFromFile_false h e.presetManager w file).1]
    constructor
    · rintro (h1 | h2 | ⟨xml, hx, ht⟩)
      · exact Or.inl h1
      · exact Or.inr (Or.inl h2)
      · exact Or.inr (Or.inr ⟨xml, hx, (hasTagName_false_iff xml _).mp ht⟩)
    · rintro (h1 | h2 | ⟨xml, hx, ht⟩)
      · exact Or.inl h1
      · exact Or.inr (Or.inl h2)
      · exact Or.inr (Or.inr ⟨xml, hx, (hasTagName_false_iff xml _).mpr ht⟩)
  · intro hf
    obtain ⟨h1, h2⟩ := (loadPresetFromFile_false h e.presetManager w file).2 hf
    exact ⟨h1, h2, loadPresetChosen_failed h p e w file hf⟩
  · intro hall
    have hd : filesDropped h p e w files = ({ e with isDragOver := false }, w) := by
      unfold filesDropped
      exact filesDroppedLoop_failed h p w files { e with isDragOver := false } hall
    refine ⟨hd, ?_, ?_, ?_⟩ <;> rw [hd]

/-- A load of a path that does not exist, from the chooser and from a drop. -/
theorem loadPresetFromFile_failure_witness :
    loadPresetChosen linuxHost smallProcessor blankEditor exampleWorld
        ["Presets", "missing.dx10"] = (blankEditor, exampleWorld) ∧
    (filesDropped linuxHost smallProcessor blankEditor exampleWorld
        ["/Presets/missing.dx10"]).1.presetIdToFile = blankEditor.presetIdToFile :=
  ⟨((loadPresetFromFile_failure linuxHost smallProcessor blankEditor exampleWorld
      ["Presets", "missing.dx10"] ["/Presets/missing.dx10"]).2.1 (by decide)).2.2,
   ((loadPresetFromFile_failure linuxHost smallProcessor blankEditor exampleWorld
      ["Presets", "missing.dx10"] ["/Presets/missing.dx10"]).2.2
      (by decide)).2.2.1⟩

/-! ### C9: the change handler of the selector -/

/-- C9 (as stated, refuted). In `overlapEditor` the guard is clear, the selected id
1001 is greater than 1000, it is a key of the map and its file exists; the handler
nevertheless does not load the file: it asks the processor for program 1000 and
leaves the preset manager, the parameter state and the file system alone, because
1001 also lies within `1..numFactoryPresets`. -/
theorem onChange_loads_mapped_file_refuted :
    overlapEditor.isUpdatingPresetSelector = false ∧
    overlapEditor.presetSelector.getSelectedId = 1001 ∧
    mapFind overlapEditor.presetIdToFile 1001 = some ["Presets", "top.dx10"] ∧
    existsAsFile loadableFs ["Presets", "top.dx10"] = true ∧
    (overlapEditor.presetManager.loadPresetFromFile linuxHost
      (World.mk loadableFs exampleState []) ["Presets", "top.dx10"]).1 = true ∧
    ¬ (presetSelectorOnChange linuxHost largeProcessor overlapEditor
        (World.mk loadableFs exampleState []) =
      ({ overlapEditor with presetManager :=
          (overlapEditor.presetManager.loadPresetFromFile linuxHost
            (World.mk loadableFs exampleState []) ["Presets", "top.dx10"]).2.1 },
        (overlapEditor.presetManager.loadPresetFromFile linuxHost
          (World.mk loadableFs exampleState []) ["Presets", "top.dx10"]).2.2)) := by
  refine ⟨rfl, by decide, by decide, by decide, by decide, ?_⟩
  intro heq
  have hc := congrArg (fun r => r.2.programCalls) heq
  have h1 : (presetSelectorOnChange linuxHost largeProcessor overlapEditor
      (World.mk loadableFs exampleState [])).2.programCalls = [1000] := by decide
  have h2 : (overlapEditor.presetManager.loadPresetFromFile linuxHost
      (World.mk loadableFs exampleState []) ["Presets", "top.dx10"]).2.2.programCalls
      = [] := by decide
  simp only [h1, h2] at hc
  exact absurd hc (by decide)

/-- C9 (amended). While the guard is clear the handler does one of three things with
the selected id.  If `1 <= id <= numFactoryPresets`, it asks the processor for
program `id - 1` and nothing else.  Otherwise, if `id > 1000`, the id is a key of
the map and the mapped file exists, it hands that file to the load of the preset
manager.  Otherwise (an id of zero or less, an id above the factory presets and at
most 1000, an id that is no key, a file that is gone) it leaves the editor and the
world as they are.  In no case does the id-to-file map change. -/
theorem onChange_cases (h : Host) (p : Processor) (e : Editor) (w : World)
    (hg : e.isUpdatingPresetSelector = false) :
    ((1 ≤ e.presetSelector.getSelectedId ∧
        e.presetSelector.getSelectedId ≤ e.numFactoryPresets) →
      presetSelectorOnChange h p e w
        = (e, w.setCurrentProgram p (e.presetSelector.getSelectedId - 1)) ∧
      (presetSelectorOnChange h p e w).2.fs = w.fs) ∧
    (¬ (1 ≤ e.presetSelector.getSelectedId ∧
        e.presetSelector.getSelectedId ≤ e.numFactoryPresets) →
      e.presetSelector.getSelectedId > 1000 →
      ∀ file, mapFind e.presetIdToFile e.presetSelector.getSelectedId = some file →
        existsAsFile w.fs file = true →
        presetSelectorOnChange h p e w =
          ({ e with presetManager := (e.presetManager.loadPresetFromFile h w file).2.1 },
            (e.presetManager.loadPresetFromFile h w file).2.2)) ∧
    (¬ (1 ≤ e.presetSelector.getSelectedId ∧
        e.presetSelector.getSelectedId ≤ e.numFactoryPresets) →
      (e.presetSelector.getSelectedId ≤ 1000 ∨
        mapFind e.presetIdToFile e.presetSelector.getSelectedId = none ∨
        ∃ file, mapFind e.presetIdToFile e.presetSelector.getSelectedId = some file ∧
          existsAsFile w.fs file = false) →
      presetSelectorOnChange h p e w = (e, w)) ∧
    (presetSelectorOnChange h p e w).1.presetIdToFile = e.presetIdToFile := by
  have hfac := onChange_factory h p e w
  refine ⟨?_, ?_, ?_, ?_⟩
  · rintro ⟨h1, h2⟩
    have := hfac h1 h2
    simp only [hg, Bool.false_eq_true, if_false] at this
    exact ⟨this, by rw [this]; rfl⟩
  · intro hn hbig file hfind hex
    unfold presetSelectorOnChange
    have hn2 : ¬ (e.presetSelector.getSelectedId > 0 ∧
        e.presetSelector.getSelectedId ≤ e.numFactoryPresets) := by
      intro hc; exact hn ⟨by omega, hc.2⟩
    simp [hg, hn2, hbig, hfind, hex]
  · intro hn hcase
    unfold presetSelectorOnChange
    have hn2 : ¬ (e.presetSelector.getSelectedId > 0 ∧
        e.presetSelector.getSelectedId ≤ e.numFactoryPresets) := by
      intro hc; exact hn ⟨by omega, hc.2⟩
    by_cases hbig : e.presetSelector.getSelectedId > 1000
    · rcases hcase with hle | hnone | ⟨file, hfind, hex⟩
      · omega
      · simp [hg, hn2, hbig, hnone]
      · simp [hg, hn2, hbig, hfind, hex]
    · simp [hg, hn2, hbig]
  · unfold presetSelectorOnChange
    simp only [hg, Bool.false_eq_true, if_false]
    split
    · rfl
    · split
      · split
        · split <;> rfl
        · rfl
      · rfl

/-- The handler on the second factory preset: program 1 is asked for. -/
theorem onChange_cases_witness :
    presetSelectorOnChange linuxHost smallProcessor secondFactorySelected exampleWorld
      = (secondFactorySelected, exampleWorld.setCurrentProgram smallProcessor
          (secondFactorySelected.presetSelector.getSelectedId - 1)) :=
  ((onChange_cases linuxHost smallProcessor secondFactorySelected exampleWorld rfl).1
    (by decide)).1

/-! ### C10: stepping through the list -/

/-- C10 (the code at two failing inputs). With the factory presets 1 and 2 listed
and 2 selected, the entry at index 0 has the non-zero id 1 and is enabled, yet
`goToPreviousPreset` leaves 2 selected.  With the ids 1, 2, 1001, 1002 listed and
1001 selected, the entry at index 3 has the id 1002 and is enabled, yet
`goToNextPreset` leaves 1001 selected.  In both the source asks `isItemEnabled`
about the loop index, and no item has that index as its id. -/
theorem goTo_skips_enabled_entries :
    (secondFactorySelected.presetSelector.getSelectedId = 2 ∧
      secondFactorySelected.presetSelector.getItemId 0 = 1 ∧
      secondFactorySelected.presetSelector.isItemEnabled
        (secondFactorySelected.presetSelector.getItemId 0) = true ∧
      secondFactorySelected.presetSelector.isItemEnabled 0 = false ∧
      (goToPreviousPreset secondFactorySelected).presetSelector
        = secondFactorySelected.presetSelector ∧
      (goToPreviousPreset secondFactorySelected).presetSelector.getSelectedId = 2) ∧
    (firstUserSelected.presetSelector.getSelectedId = 1001 ∧
      firstUserSelected.presetSelector.getItemId 2 = 1001 ∧
      firstUserSelected.presetSelector.getItemId 3 = 1002 ∧
      firstUserSelected.presetSelector.isItemEnabled
        (firstUserSelected.presetSelector.getItemId 3) = true ∧
      firstUserSelected.presetSelector.isItemEnabled 3 = false ∧
      (goToNextPreset firstUserSelected).presetSelector
        = firstUserSelected.presetSelector ∧
      (goToNextPreset firstUserSelected).presetSelector.getSelectedId = 1001) := by
  decide

/-! ### C11: dropped files -/

/-- The loop over the dropped paths stops at the first path that has the preset
extension and loads; a path that fails leaves the world as it was. -/
theorem filesDroppedLoop_spec (h : Host) (p : Processor) (w : World) :
    ∀ (files : List String) (e : Editor),
      filesDroppedLoop h p files e w =
        match files.find? (dropLoads h e w) with
        | some filePath =>
          (rebuildPresetList h p
              (e.presetManager.loadPresetFromFile h w (fileFromPath filePath)).2.2.fs
              { e with presetManager :=
                  (e.presetManager.loadPresetFromFile h w (fileFromPath filePath)).2.1 },
            (e.presetManager.loadPresetFromFile h w (fileFromPath filePath)).2.2)
        | none => (e, w) := by
  intro files
  induction files with
  | nil => intro e; rfl
  | cons path rest ih =>
    intro e
    unfold filesDroppedLoop
    by_cases hext : hasFileExtension (fileFromPath path) getPresetExtension = true
    · by_cases hl : (e.presetManager.loadPresetFromFile h w (fileFromPath path)).1 = true
      · have hd : dropLoads h e w path = true := by simp [dropLoads, hext, hl]
        simp only [hext, if_true, hl, List.find?_cons, hd]
      · have hf : (e.presetManager.loadPresetFromFile h w (fileFromPath path)).1 = false := by
          simpa using hl
        obtain ⟨hpm, hw⟩ := (loadPresetFromFile_false h e.presetManager w
          (fileFromPath path)).2 hf
        have hd : dropLoads h e w path = false := by simp [dropLoads, hf]
        simp only [hext, if_true, hf, Bool.false_eq_true, if_false, hpm, hw,
          List.find?_cons, hd]
        exact ih e
    · have hd : dropLoads h e w path = false := by simp [dropLoads, hext]
      simp only [hext, Bool.false_eq_true, if_false, List.find?_cons, hd]
      exact ih e

theorem find_dropLoads_filter (h : Host) (e : Editor) (w : World) (files : List String) :
    (files.filter (fun q => hasFileExtension (fileFromPath q) getPresetExtension)).find?
        (dropLoads h e w)
      = files.find? (dropLoads h e w) := by
  induction files with
  | nil => rfl
  | cons q rest ih =>
    by_cases hext : hasFileExtension (fileFromPath q) getPresetExtension = true
    · simp only [List.filter_cons, hext, if_true, List.find?_cons, ih]
    · have hd : dropLoads h e w q = false := by simp [dropLoads, hext]
      simp only [List.filter_cons, hext, Bool.false_eq_true, if_false, List.find?_cons, hd, ih]

/-- C11. Let the first dropped path, in list order, that has the preset extension
and whose load succeeds be given.  Then `filesDropped` loads exactly that path and
rebuilds the list once: every path before it either lacks the extension or fails
to load, and the outcome is the outcome of dropping that path alone, whatever
follows it.  When there is no such path nothing is loaded and nothing is rebuilt:
only the drag flag is cleared.  Paths without the preset extension never matter:
dropping a list and dropping its paths with the preset extension give the same
outcome. -/
theorem filesDropped_first_loadable (h : Host) (p : Processor) (e : Editor) (w : World)
    (files : List String) :
    (∀ filePath, files.find? (dropLoads h e w) = some filePath →
      filesDropped h p e w files =
        (rebuildPresetList h p
            (e.presetManager.loadPresetFromFile h w (fileFromPath filePath)).2.2.fs
            { e with
              isDragOver := false
              presetManager :=
                (e.presetManager.loadPresetFromFile h w (fileFromPath filePath)).2.1 },
          (e.presetManager.loadPresetFromFile h w (fileFromPath filePath)).2.2) ∧
      (e.presetManager.loadPresetFromFile h w (fileFromPath filePath)).1 = true ∧
      hasFileExtension (fileFromPath filePath) getPresetExtension = true ∧
      (∃ before after, files = before ++ filePath :: after ∧
        ∀ q ∈ before, hasFileExtension (fileFromPath q) getPresetExtension = false ∨
          (e.presetManager.loadPresetFromFile h w (fileFromPath q)).1 = false) ∧
      filesDropped h p e w files = filesDropped h p e w [filePath]) ∧
    (files.find? (dropLoads h e w) = none →
      filesDropped h p e w files = ({ e with isDragOver := false }, w)) ∧
    filesDropped h p e w files =
      filesDropped h p e w
        (files.filter (fun q => hasFileExtension (fileFromPath q) getPresetExtension)) := by
  have hspec : ∀ l : List String, filesDropped h p e w l =
      match l.find? (dropLoads h e w) with
      | some filePath =>
        (rebuildPresetList h p
            (e.presetManager.loadPresetFromFile h w (fileFromPath filePath)).2.2.fs
            { e with
              isDragOver := false
              presetManager :=
                (e.presetManager.loadPresetFromFile h w (fileFromPath filePath)).2.1 },
          (e.presetManager.loadPresetFromFile h w (fileFromPath filePath)).2.2)
      | none => ({ e with isDragOver := false }, w) := by
    intro l
    unfold filesDropped
    rw [filesDroppedLoop_spec h p w l { e with isDragOver := false }]
    rfl
  refine ⟨?_, ?_, ?_⟩
  · intro filePath hfind
    have hd : dropLoads h e w filePath = true := by
      have := List.find?_some hfind
      exact this
    have hd2 := hd
    simp only [dropLoads, Bool.and_eq_true] at hd2
    refine ⟨?_, hd2.2, hd2.1, ?_, ?_⟩
    · rw [hspec files, hfind]
    · obtain ⟨before, after, hsplit, hbefore⟩ := (List.find?_eq_some.mp hfind).2
      refine ⟨before, after, hsplit, ?_⟩
      intro q hq
      have hq2 := hbefore q hq
      simp only [dropLoads, Bool.not_eq_true', Bool.and_eq_false_iff] at hq2
      exact hq2
    · rw [hspec files, hfind, hspec [filePath]]
      simp [List.find?_cons, hd]
  · intro hnone
    rw [hspec files, hnone]
  · rw [hspec files, hspec (files.filter _), find_dropLoads_filter]

/-- Dropping `a.txt` and `b.dx10`, both well-formed documents: the state loaded is
that of `b.dx10`, and `b.dx10` is recorded as the last loaded preset. -/
theorem filesDropped_first_loadable_witness :
    (filesDropped linuxHost smallProcessor blankEditor (World.mk dropFs exampleState [])
        ["/Presets/a.txt", "/Presets/b.dx10"]).2.state.properties = [("volume", "1")] ∧
    (filesDropped linuxHost smallProcessor blankEditor (World.mk dropFs exampleState [])
        ["/Presets/a.txt", "/Presets/b.dx10"]).1.presetManager.lastLoadedPreset
      = "/Presets/b.dx10" := by
  have hfind : ["/Presets/a.txt", "/Presets/b.dx10"].find?
      (dropLoads linuxHost blankEditor (World.mk dropFs exampleState []))
      = some "/Presets/b.dx10" := by decide
  have hw := ((filesDropped_first_loadable linuxHost smallProcessor blankEditor
    (World.mk dropFs exampleState []) ["/Presets/a.txt", "/Presets/b.dx10"]).1
    "/Presets/b.dx10" hfind).1
  rw [hw]
  refine ⟨by decide, ?_⟩
  unfold rebuildPresetList
  rw [(rebuildPresetListFrom_frame _ _ _).1]
  decide

/-! ### C12: the guard of the selector -/

theorem selectFileInList_guard (h : Host) (e : Editor) (file : File)
    (hg : e.isUpdatingPresetSelector = false) :
    (selectFileInList h e file).isUpdatingPresetSelector = false := by
  unfold selectFileInList
  split
  · rfl
  · exact hg

theorem rebuildPresetList_guard (h : Host) (p : Processor) (fs : List FsNode) (e : Editor) :
    (rebuildPresetList h p fs e).isUpdatingPresetSelector = e.isUpdatingPresetSelector := by
  unfold rebuildPresetList
  exact (rebuildPresetListFrom_frame p _ e).2.1

theorem setSelectedId_quiet (c : ComboBox) (id : Int) :
    (c.setSelectedId id NotificationType.dontSendNotification).changePending
      = c.changePending := by
  unfold ComboBox.setSelectedId
  simp only
  split
  · simp
  · rfl

/-- C12. With the guard flag read as the state `Idle` (false) or
`PropagatingFromParameter` (true): the change handler does nothing in the second
state.  While `updatePresetSelectorFromParameter` changes the selection the guard
is set, so the change handler run at that point leaves editor and world as they
are: no program is activated and no preset is loaded.  The update queues no change
notification and returns with the guard clear.  The completion handlers of the save
and of the load dialog, entered with the guard clear, return with the guard clear on
every branch. -/
theorem guard_state_machine (h : Host) (p : Processor) (e : Editor) (w : World)
    (index : Option Int) (file : File) :
    (e.isUpdatingPresetSelector = true → presetSelectorOnChange h p e w = (e, w)) ∧
    (updateSelecting e index).isUpdatingPresetSelector = true ∧
    presetSelectorOnChange h p (updateSelecting e index) w = (updateSelecting e index, w) ∧
    (updatePresetSelectorFromParameter e index).presetSelector.changePending
      = e.presetSelector.changePending ∧
    (updatePresetSelectorFromParameter e index).isUpdatingPresetSelector = false ∧
    (e.isUpdatingPresetSelector = false →
      (savePresetChosen h p e w file).1.isUpdatingPresetSelector = false ∧
      (loadPresetChosen h p e w file).1.isUpdatingPresetSelector = false) := by
  have hset : (updateSelecting e index).isUpdatingPresetSelector = true := by
    unfold updateSelecting
    cases index with
    | none => rfl
    | some i =>
      simp only
      split <;> rfl
  refine ⟨?_, hset, ?_, ?_, rfl, ?_⟩
  · intro hg
    unfold presetSelectorOnChange
    simp [hg]
  · unfold presetSelectorOnChange
    simp [hset]
  · unfold updatePresetSelectorFromParameter updateSelecting
    cases index with
    | none => rfl
    | some i =>
      simp only
      split
      · exact setSelectedId_quiet _ _
      · rfl
  · intro hg
    constructor
    · unfold savePresetChosen
      split
      · simp only
        split
        · apply selectFileInList_guard
          rw [rebuildPresetList_guard]
          exact hg
        · exact hg
      · exact hg
    · unfold loadPresetChosen
      split
      · simp only
        split
        · apply selectFileInList_guard
          rw [rebuildPresetList_guard]
          exact hg
        · exact hg
      · exact hg

/-- The guard after a save and after a load from the chooser, both entered with the
guard clear. -/
theorem guard_state_machine_witness :
    (savePresetChosen linuxHost smallProcessor blankEditor exampleWorld
        ["Presets", "lead.dx10"]).1.isUpdatingPresetSelector = false ∧
    (loadPresetChosen linuxHost smallProcessor blankEditor
        (World.mk loadableFs exampleState []) ["Presets", "top.dx10"]).1.isUpdatingPresetSelector
      = false :=
  ⟨((guard_state_machine linuxHost smallProcessor blankEditor exampleWorld none
      ["Presets", "lead.dx10"]).2.2.2.2.2 rfl).1,
   ((guard_state_machine linuxHost smallProcessor blankEditor
      (World.mk loadableFs exampleState []) none ["Presets", "top.dx10"]).2.2.2.2.2 rfl).2⟩

/-! ### C13: a cancelled file chooser -/

theorem fileEquals_nil (h : Host) : fileEquals h [] [] = true := by
  unfold fileEquals compareFilenames
  cases h.namesAreCaseSensitive <;> decide

/-- C13. When the file chooser yields no path, that is `juce::File()`, each of the
three completion handlers (select preset folder, save preset, load preset) returns
the editor and the world exactly as they were: parameter state, settings, preset
directory, id-to-file map and selection are unchanged and nothing is rebuilt. -/
theorem cancelled_chooser_is_noop (h : Host) (p : Processor) (e : Editor) (w : World) :
    selectPresetFolderChosen h p e w [] = (e, w) ∧
    savePresetChosen h p e w [] = (e, w) ∧
    loadPresetChosen h p e w [] = (e, w) := by
  refine ⟨?_, ?_, ?_⟩
  · unfold selectPresetFolderChosen
    simp [isDirectory, lookup]
  · unfold savePresetChosen
    simp [fileEquals_nil]
  · unfold loadPresetChosen
    simp [existsAsFile, fileExists, lookup]

/-! ### C14: the extension of a saved preset -/

theorem ne_nil_of_not_fileEquals (h : Host) (f : File) (hf : fileEquals h f [] = false) :
    f ≠ [] := by
  intro he
  rw [he, fileEquals_nil] at hf
  exact absurd hf (by decide)

theorem withFileExtension_name (f : File) (ext : String) (hf : f ≠ []) :
    ∃ stem : List Char, withFileExtension f ext = getChildFile f.dropLast (String.mk stem ++ ext) := by
  unfold withFileExtension
  have : f.isEmpty = false := by
    cases f with
    | nil => exact absurd rfl hf
    | cons a b => rfl
  simp only [this, Bool.false_eq_true, if_false, getChildFile]
  exact ⟨_, rfl⟩

theorem endsWith_append (stem : List Char) (ext : String) :
    endsWith (String.mk stem ++ ext) ext = true := by
  unfold endsWith
  rw [List.isSuffixOf_iff_suffix, String.data_append]
  exact List.suffix_append _ _

theorem endsWithIgnoreCase_append (stem : List Char) (ext : String) :
    endsWithIgnoreCase (String.mk stem ++ ext) ext = true := by
  unfold endsWithIgnoreCase
  rw [List.isSuffixOf_iff_suffix, String.data_append, List.map_append]
  exact List.suffix_append _ _

theorem indexOf_none_of_not_mem (c : Char) : ∀ (l : List Char), c ∉ l → l.indexOf? c = none := by
  intro l hl
  unfold List.indexOf?
  rw [List.findIdx?_eq_none_iff]
  intro x hx
  cases hb : x == c with
  | false => rfl
  | true =>
    have : x = c := by simpa using hb
    exact absurd (this ▸ hx) hl

theorem indexOf_append_cons (c : Char) (a b : List Char) (ha : c ∉ a) :
    (a ++ c :: b).indexOf? c = some a.length := by
  unfold List.indexOf?
  induction a with
  | nil => simp [List.findIdx?_cons]
  | cons y ys ih =>
    simp only [List.mem_cons, not_or] at ha
    have hy : (y == c) = false := by simpa using fun he => ha.1 he.symm
    simp only [List.cons_append, List.findIdx?_cons, hy, Bool.false_eq_true, if_false]
    rw [List.findIdx?_succ, ih ha.2]
    simp

theorem lastIndexOfChar_none (c : Char) (l : List Char) (hl : c ∉ l) :
    lastIndexOfChar l c = none := by
  unfold lastIndexOfChar
  rw [indexOf_none_of_not_mem c l.reverse (by simpa using hl)]

theorem lastIndexOfChar_split (c : Char) (s x : List Char) (hx : c ∉ x) :
    lastIndexOfChar (s ++ c :: x) c = some s.length := by
  unfold lastIndexOfChar
  have : (s ++ c :: x).reverse = x.reverse ++ c :: s.reverse := by simp
  rw [this, indexOf_append_cons c x.reverse s.reverse (by simpa using hx)]
  simp only [List.length_reverse, List.length_append, List.length_cons, Option.some.injEq]
  omega

theorem withFileExtension_no_dot (f : File) (ext : String) (hf : f ≠ [])
    (hd : '.' ∉ (getFileName f).data) :
    withFileExtension f ext = getChildFile (getParentDirectory f) (getFileName f ++ ext) := by
  unfold withFileExtension
  have : f.isEmpty = false := by
    cases f with
    | nil => exact absurd rfl hf
    | cons a b => rfl
  simp only [this, Bool.false_eq_true, if_false, getChildFile, getParentDirectory]
  rw [lastIndexOfChar_none '.' _ hd]

theorem withFileExtension_split (f : File) (ext : String) (s x : List Char) (hf : f ≠ [])
    (hn : (getFileName f).data = s ++ '.' :: x) (hx : '.' ∉ x) :
    withFileExtension f ext = getChildFile (getParentDirectory f) (String.mk s ++ ext) := by
  unfold withFileExtension
  have : f.isEmpty = false := by
    cases f with
    | nil => exact absurd rfl hf
    | cons a b => rfl
  simp only [this, Bool.false_eq_true, if_false, getChildFile, getParentDirectory]
  rw [hn, lastIndexOfChar_split '.' s x hx]
  simp

/-- C14 (as stated, refuted). The user types `Lead.DX10` in the save dialog.  The
handler finds the preset extension there, letter case ignored, keeps the name as
typed and writes the preset to `Presets/Lead.DX10`: the name of the written file
does not end in the lower-case `.dx10`, and no file `Presets/Lead.dx10` exists
afterwards. -/
theorem save_extension_lower_case_refuted :
    fileEquals linuxHost ["Presets", "Lead.DX10"] [] = false ∧
    saveTarget ["Presets", "Lead.DX10"] = ["Presets", "Lead.DX10"] ∧
    existsAsFile (savePresetChosen linuxHost smallProcessor blankEditor exampleWorld
      ["Presets", "Lead.DX10"]).2.fs ["Presets", "Lead.DX10"] = true ∧
    existsAsFile (savePresetChosen linuxHost smallProcessor blankEditor exampleWorld
      ["Presets", "Lead.DX10"]).2.fs ["Presets", "Lead.dx10"] = false ∧
    ¬ (endsWith (getFileName (saveTarget ["Presets", "Lead.DX10"])) getPresetExtension
        = true) := by
  decide

/-- C14 (amended). For every non-empty path chosen in the save dialog the handler
saves to `saveTarget` of it, and that file has the preset extension up to letter
case.  A chosen name that already ends in `.dx10`, letter case ignored, is kept as
typed, whatever its case.  Any other chosen name stays in its directory and has its
extension replaced by, or is given, the lower-case `.dx10`: a name without a dot
gets `.dx10` appended, and a name with a dot has the text from its last dot on
replaced by `.dx10`, the text before that dot being kept as typed. -/
theorem save_extension (h : Host) (p : Processor) (e : Editor) (w : World) (chosen : File)
    (hc : fileEquals h chosen [] = false) :
    savePresetChosen h p e w chosen =
      (if (PresetManager.savePresetToFile w (saveTarget chosen)).1 then
        (selectFileInList h
            (rebuildPresetList h p
              (PresetManager.savePresetToFile w (saveTarget chosen)).2.fs e)
            (saveTarget chosen),
          (PresetManager.savePresetToFile w (saveTarget chosen)).2)
      else (e, (PresetManager.savePresetToFile w (saveTarget chosen)).2)) ∧
    ((PresetManager.savePresetToFile w (saveTarget chosen)).1 = true →
      existsAsFile (PresetManager.savePresetToFile w (saveTarget chosen)).2.fs
        (saveTarget chosen) = true) ∧
    hasFileExtension (saveTarget chosen) getPresetExtension = true ∧
    (hasFileExtension chosen getPresetExtension = true → saveTarget chosen = chosen) ∧
    (hasFileExtension chosen getPresetExtension = false →
      endsWith (getFileName (saveTarget chosen)) getPresetExtension = true ∧
      getParentDirectory (saveTarget chosen) = getParentDirectory chosen ∧
      ('.' ∉ (getFileName chosen).data →
        saveTarget chosen =
          getChildFile (getParentDirectory chosen) (getFileName chosen ++ ".dx10")) ∧
      (∀ (stem extension : List Char),
        (getFileName chosen).data = stem ++ '.' :: extension → '.' ∉ extension →
          saveTarget chosen =
            getChildFile (getParentDirectory chosen) (String.mk stem ++ ".dx10"))) := by
  have hne := ne_nil_of_not_fileEquals h chosen hc
  have hslash : '/' ∉ getPresetExtension.data.map Char.toLower := by decide
  obtain ⟨stem, hstem⟩ := withFileExtension_name chosen getPresetExtension hne
  refine ⟨?_, ?_, ?_, ?_, ?_⟩
  · unfold savePresetChosen
    simp [hc]
  · intro hw
    exact (savePresetToFile_ok w _ hw).1
  · unfold saveTarget
    by_cases hx : hasFileExtension chosen getPresetExtension = true
    · simp [hx]
    · simp only [hx, Bool.not_false, if_true, Bool.false_eq_true]
      rw [hstem, hasFileExtension_child _ _ _ hslash]
      exact endsWithIgnoreCase_append stem getPresetExtension
  · intro hx
    unfold saveTarget
    simp [hx]
  · intro hx
    have ht : saveTarget chosen = withFileExtension chosen getPresetExtension := by
      unfold saveTarget
      simp only [hx, Bool.not_false, if_true]
    refine ⟨?_, ?_, ?_, ?_⟩
    · rw [ht, hstem, getFileName_getChildFile]
      exact endsWith_append stem getPresetExtension
    · rw [ht, hstem]
      simp [getParentDirectory, getChildFile]
    · intro hd
      rw [ht]
      exact withFileExtension_no_dot chosen getPresetExtension hne hd
    · intro s x hn hd
      rw [ht]
      exact withFileExtension_split chosen getPresetExtension s x hne hn hd

/-- The amended statement for a name typed without extension and for a name typed
with another extension: both are written as `Lead.dx10`. -/
theorem save_extension_witness :
    saveTarget ["Presets", "Lead"] = ["Presets", "Lead.dx10"] ∧
    saveTarget ["Presets", "Lead.txt"] = ["Presets", "Lead.dx10"] :=
  ⟨((save_extension linuxHost smallProcessor blankEditor exampleWorld ["Presets", "Lead"]
      (by decide)).2.2.2.2 (by decide)).2.2.1 (by decide),
   ((save_extension linuxHost smallProcessor blankEditor exampleWorld ["Presets", "Lead.txt"]
      (by decide)).2.2.2.2 (by decide)).2.2.2 "Lead".data "txt".data (by decide) (by decide)⟩

/-! ### The settings file -/

theorem writeFileIn_isSome (p : File) : ∀ (fs : List FsNode) (c c2 : Option XmlElement),
    (writeFileIn fs p c).isSome = (writeFileIn fs p c2).isSome := by
  induction p with
  | nil => intro fs c c2; simp [writeFileIn]
  | cons n rest ih =>
    intro fs c c2
    cases rest with
    | nil =>
      simp only [writeFileIn]
      cases findEntry fs n with
      | none => rfl
      | some node => cases node <;> rfl
    | cons m rest2 =>
      rw [writeFileIn, writeFileIn]
      cases findEntry fs n with
      | none => rfl
      | some node =>
        cases node with
        | file a b => rfl
        | dir a ch =>
          simp only
          have := ih ch c c2
          cases h1 : writeFileIn ch (m :: rest2) c <;>
            cases h2 : writeFileIn ch (m :: rest2) c2 <;> simp_all

theorem setAttribute_empty (tag name value : String) :
    (XmlElement.mk tag [] []).setAttribute name value = XmlElement.mk tag [(name, value)] [] := by
  simp [XmlElement.setAttribute, setNamed]

/-- The document of `saveSettings` is found in the settings file afterwards. -/
theorem saveSettings_document (h : Host) (pm : PresetManager) (fs : List FsNode)
    (hw : settingsWritable h fs = true) :
    existsAsFile (pm.saveSettings h fs) (getSettingsFile h) = true ∧
    parseXml (pm.saveSettings h fs) (getSettingsFile h) =
      some (XmlElement.mk "DX10Settings"
        (settingsAttributes pm
          (createDirectory fs (getParentDirectory (getSettingsFile h)))) []) := by
  unfold settingsWritable at hw
  have hdoc : ∀ x : XmlElement,
      (writeTo x (createDirectory fs (getParentDirectory (getSettingsFile h)))
        (getSettingsFile h)).1 = true := by
    intro x
    unfold writeTo
    have := writeFileIn_isSome (getSettingsFile h)
      (createDirectory fs (getParentDirectory (getSettingsFile h))) (some x) none
    rw [hw] at this
    cases hx : writeFileIn (createDirectory fs (getParentDirectory (getSettingsFile h)))
        (getSettingsFile h) (some x) with
    | none => simp [hx] at this
    | some fs2 => rfl
  unfold PresetManager.saveSettings settingsAttributes
  simp only
  by_cases hd : isDirectory (createDirectory fs (getParentDirectory (getSettingsFile h)))
      pm.customPresetDirectory = true
  · by_cases hl : (pm.lastLoadedPreset != "") = true
    · simp only [hd, hl, if_true]
      have := writeTo_ok _ _ _ (hdoc (((XmlElement.mk "DX10Settings" [] []).setAttribute
        "customPresetDirectory" (getFullPathName pm.customPresetDirectory)).setAttribute
        "lastLoadedPreset" pm.lastLoadedPreset))
      simpa [XmlElement.setAttribute, setNamed] using this
    · simp only [hd, hl, if_true, if_false]
      have := writeTo_ok _ _ _ (hdoc ((XmlElement.mk "DX10Settings" [] []).setAttribute
        "customPresetDirectory" (getFullPathName pm.customPresetDirectory)))
      simpa [XmlElement.setAttribute, setNamed] using this
  · by_cases hl : (pm.lastLoadedPreset != "") = true
    · simp only [hd, hl, if_true, if_false]
      have := writeTo_ok _ _ _ (hdoc ((XmlElement.mk "DX10Settings" [] []).setAttribute
        "lastLoadedPreset" pm.lastLoadedPreset))
      simpa [XmlElement.setAttribute, setNamed] using this
    · simp only [hd, hl, if_false]
      have := writeTo_ok _ _ _ (hdoc (XmlElement.mk "DX10Settings" [] []))
      simpa using this

theorem getStringAttribute_settings (pm : PresetManager) (fs1 : List FsNode) :
    (XmlElement.mk "DX10Settings" (settingsAttributes pm fs1) []).getStringAttribute
        "customPresetDirectory"
      = (if isDirectory fs1 pm.customPresetDirectory then
          getFullPathName pm.customPresetDirectory else "") ∧
    (XmlElement.mk "DX10Settings" (settingsAttributes pm fs1) []).getStringAttribute
        "lastLoadedPreset" = pm.lastLoadedPreset ∧
    (XmlElement.mk "DX10Settings" (settingsAttributes pm fs1) []).getStringAttribute
        "lastLoadedPresetPath" = "" := by
  unfold settingsAttributes XmlElement.getStringAttribute XmlElement.attributes
  have n1 : ("customPresetDirectory" == "lastLoadedPreset") = false := by decide
  have n2 : ("customPresetDirectory" == "lastLoadedPresetPath") = false := by decide
  have n3 : ("lastLoadedPreset" == "customPresetDirectory") = false := by decide
  have n4 : ("lastLoadedPreset" == "lastLoadedPresetPath") = false := by decide
  by_cases hd : isDirectory fs1 pm.customPresetDirectory = true
  · by_cases hl : pm.lastLoadedPreset = ""
    · simp [hd, hl, List.find?_cons, n1, n2]
    · simp [hd, hl, List.find?_cons, n1, n2, n3, n4]
  · by_cases hl : pm.lastLoadedPreset = ""
    · simp [hd, hl]
    · simp [hd, hl, List.find?_cons, n3, n4]

theorem getFullPathName_ne_empty (f : File) (hf : f ≠ []) : (getFullPathName f != "") = true := by
  cases f with
  | nil => exact absurd rfl hf
  | cons c cs =>
    have : (getFullPathName (c :: cs)).data ≠ "".data := by
      simp [getFullPathName, List.flatMap_cons]
    simp only [bne_iff_ne, ne_eq]
    intro he
    exact this (by rw [he])

theorem isDirectory_ne_nil (fs : List FsNode) (f : File) (hd : isDirectory fs f = true) :
    f ≠ [] := by
  intro he
  rw [he] at hd
  simp [isDirectory, lookup] at hd

/-- What `loadSettings` reads from a settings file that holds a document with the
tag of the settings. -/
theorem loadSettings_of_document (h : Host) (pm0 : PresetManager) (fs : List FsNode)
    (attrs : List (String × String))
    (h1 : existsAsFile fs (getSettingsFile h) = true)
    (h2 : parseXml fs (getSettingsFile h) = some (XmlElement.mk "DX10Settings" attrs [])) :
    pm0.loadSettings h fs =
      PresetManager.mk pm0.presetDirectory
        (if (XmlElement.mk "DX10Settings" attrs []).getStringAttribute
            "customPresetDirectory" != "" then
          fileFromPath ((XmlElement.mk "DX10Settings" attrs []).getStringAttribute
            "customPresetDirectory")
        else pm0.customPresetDirectory)
        ((XmlElement.mk "DX10Settings" attrs []).getStringAttribute "lastLoadedPreset") := by
  unfold PresetManager.loadSettings
  have htag : (XmlElement.mk "DX10Settings" attrs []).hasTagName "DX10Settings" = true := by
    simp [XmlElement.hasTagName, XmlElement.tag, equalsIgnoreCase_self]
  simp only [h1, if_true, h2, htag]
  split <;> rfl

/-- The record read back from the settings file that `saveSettings` has written. -/
theorem loadSettings_saveSettings (h : Host) (pm pm0 : PresetManager) (fs : List FsNode)
    (hw : settingsWritable h fs = true) :
    pm0.loadSettings h (pm.saveSettings h fs) =
      PresetManager.mk pm0.presetDirectory
        (if isDirectory (createDirectory fs (getParentDirectory (getSettingsFile h)))
            pm.customPresetDirectory then
          fileFromPath (getFullPathName pm.customPresetDirectory)
        else pm0.customPresetDirectory)
        pm.lastLoadedPreset := by
  obtain ⟨h1, h2⟩ := saveSettings_document h pm fs hw
  rw [loadSettings_of_document h pm0 _ _ h1 h2]
  obtain ⟨a1, a2, _⟩ := getStringAttribute_settings pm
    (createDirectory fs (getParentDirectory (getSettingsFile h)))
  rw [a1, a2]
  by_cases hd : isDirectory (createDirectory fs (getParentDirectory (getSettingsFile h)))
      pm.customPresetDirectory = true
  · simp only [hd, if_true]
    rw [getFullPathName_ne_empty _ (isDirectory_ne_nil _ _ hd)]
    rfl
  · simp [hd]

/-! ### Path texts -/

theorem splitComponents_ne_nil (l : List Char) : splitComponents l ≠ [] := by
  cases l with
  | nil => simp [splitComponents]
  | cons c cs =>
    simp only [splitComponents]
    split
    · simp
    · split <;> simp

theorem splitComponents_slash (l : List Char) :
    splitComponents ('/' :: l) = [] :: splitComponents l := by
  simp only [splitComponents]
  split
  · rename_i hnil
    exact absurd hnil (splitComponents_ne_nil l)
  · rename_i w ws heq
    simp [heq]

theorem splitComponents_word (w : List Char) (hw : '/' ∉ w) (rest : List Char) :
    ∀ x xs, splitComponents rest = x :: xs →
      splitComponents (w ++ rest) = (w ++ x) :: xs := by
  induction w with
  | nil => intro x xs h; simpa using h
  | cons c cs ih =>
    intro x xs h
    simp only [List.mem_cons, not_or] at hw
    have hc : (c == '/') = false := by
      simpa using fun he => hw.1 he.symm
    have := ih hw.2 x xs h
    show splitComponents (c :: (cs ++ rest)) = (c :: (cs ++ x)) :: xs
    rw [splitComponents, this]
    simp [hc]

theorem splitComponents_path (f : File)
    (hf : ∀ c ∈ f, c.data ≠ [] ∧ '/' ∉ c.data) :
    splitComponents (f.flatMap (fun c => '/' :: c.data)) =
      match f with
      | [] => [[]]
      | _ :: _ => [] :: f.map (fun c => c.data) := by
  induction f with
  | nil => simp [splitComponents]
  | cons c cs ih =>
    have hcs : ∀ d ∈ cs, d.data ≠ [] ∧ '/' ∉ d.data :=
      fun d hd => hf d (List.mem_cons_of_mem _ hd)
    have hc := hf c (by simp)
    have ih2 := ih hcs
    simp only [List.flatMap_cons, List.cons_append, splitComponents_slash]
    cases cs with
    | nil =>
      simp only [List.flatMap_nil, List.append_nil] at ih2 ⊢
      have := splitComponents_word c.data hc.2 [] [] [] (by simp [splitComponents])
      simpa using this
    | cons d ds =>
      simp only at ih2
      have := splitComponents_word c.data hc.2 _ _ _ ih2
      rw [this]
      simp

/-- A plain path is read back from its text. -/
theorem fileFromPath_getFullPathName (f : File) (hf : plainPath f = true) :
    fileFromPath (getFullPathName f) = f := by
  have hall : ∀ c ∈ f, c.data ≠ [] ∧ '/' ∉ c.data := by
    intro c hc
    have := List.all_eq_true.mp hf c hc
    simp only [Bool.and_eq_true, Bool.not_eq_true', List.isEmpty_eq_false,
      List.contains_eq_any_beq, List.any_eq_false, beq_iff_eq] at this
    refine ⟨this.1, ?_⟩
    intro hmem
    exact this.2 '/' hmem rfl
  unfold fileFromPath getFullPathName
  simp only
  rw [splitComponents_path f hall]
  cases f with
  | nil => simp
  | cons c cs =>
    simp only [List.filter_cons, List.isEmpty_nil, Bool.not_true, Bool.false_eq_true, if_false]
    have hfilter : (List.map (fun c => c.data) (c :: cs)).filter (fun w => !w.isEmpty)
        = List.map (fun c => c.data) (c :: cs) := by
      rw [List.filter_eq_self]
      intro w hw
      obtain ⟨d, hd, rfl⟩ := List.mem_map.mp hw
      have := (hall d hd).1
      cases hdd : d.data with
      | nil => exact absurd hdd this
      | cons a b => rfl
    rw [hfilter, List.map_map]
    have : (String.mk ∘ fun (c : String) => c.data) = id := by
      funext s; rfl
    rw [this, List.map_id]

/-! ### Directories that are made -/

theorem findEntry_append_left (nodes extra : List FsNode) (x : String) (node : FsNode)
    (hf : findEntry nodes x = some node) : findEntry (nodes ++ extra) x = some node := by
  unfold findEntry at hf ⊢
  rw [List.find?_append, hf]
  rfl

theorem findEntry_replaceEntry_other (nodes : List FsNode) (n x : String) (new : FsNode)
    (hx : x ≠ n) (hn : new.name = n) :
    findEntry (replaceEntry nodes n new) x = findEntry nodes x := by
  induction nodes with
  | nil => rfl
  | cons y ys ih =>
    unfold findEntry at ih ⊢
    by_cases hy : y.name = n
    · have hb : (y.name == n) = true := by simpa using hy
      have h1 : (new.name == x) = false := by
        simpa [hn] using fun he => hx he.symm
      have h2 : (y.name == x) = false := by
        simpa [hy] using fun he => hx he.symm
      simp only [replaceEntry, hb, if_true, List.find?_cons, h1, h2]
    · have hb : (y.name == n) = false := by simpa using hy
      simp only [replaceEntry, hb, Bool.false_eq_true, if_false, List.find?_cons]
      rw [ih]

/-- The lookup of a path, through the entry its first component leads to. -/
theorem lookup_cons (nodes : List FsNode) (x : String) (tail : File) :
    lookup nodes (x :: tail) =
      match tail with
      | [] => findEntry nodes x
      | m :: r =>
        match findEntry nodes x with
        | some (FsNode.dir _ ch) => lookup ch (m :: r)
        | _ => none := by
  cases tail with
  | nil => simp [lookup]
  | cons m r =>
    cases hf : findEntry nodes x with
    | none => simp [lookup_cons_cons_none nodes x m r hf]
    | some node =>
      cases node with
      | file a b => simp [lookup_cons_cons_file nodes x m a r b hf]
      | dir a ch => simp [lookup_cons_cons_dir nodes x m a r ch hf]

theorem lookup_congr_findEntry (nodes nodes2 : List FsNode) (x : String) (tail : File)
    (hf : findEntry nodes2 x = findEntry nodes x) :
    lookup nodes2 (x :: tail) = lookup nodes (x :: tail) := by
  rw [lookup_cons, lookup_cons, hf]

theorem isDirectory_createDirectoryIn (g : File) : ∀ (nodes nodes2 : List FsNode) (f : File),
    createDirectoryIn nodes g = some nodes2 → isDirectory nodes f = true →
      isDirectory nodes2 f = true := by
  induction g with
  | nil =>
    intro nodes nodes2 f hc hd
    simp only [createDirectoryIn, Option.some.injEq] at hc
    rw [← hc]; exact hd
  | cons n rest ih =>
    intro nodes nodes2 f hc hd
    cases f with
    | nil => simp [isDirectory, lookup] at hd
    | cons x tail =>
      simp only [createDirectoryIn] at hc
      cases hf : findEntry nodes n with
      | none =>
        simp only [hf] at hc
        cases hr : createDirectoryIn [] rest with
        | none => simp [hr] at hc
        | some ch =>
          simp only [hr, Option.some.injEq] at hc
          cases hx : findEntry nodes x with
          | none =>
            have : lookup nodes (x :: tail) = none := by
              rw [lookup_cons, hx]
              cases tail <;> rfl
            simp [isDirectory, this] at hd
          | some node =>
            have h2 : findEntry nodes2 x = findEntry nodes x := by
              rw [← hc, hx]
              exact findEntry_append_left nodes _ x node hx
            unfold isDirectory at hd ⊢
            rw [lookup_congr_findEntry nodes nodes2 x tail h2]
            exact hd
      | some node =>
        cases node with
        | file a b => simp [hf] at hc
        | dir a ch =>
          simp only [hf] at hc
          cases hr : createDirectoryIn ch rest with
          | none => simp [hr] at hc
          | some ch2 =>
            simp only [hr, Option.some.injEq] at hc
            have hname : a = n := (findEntry_mem nodes n _ hf).2
            by_cases hx : x = n
            · subst hx
              have h2 : findEntry nodes2 x = some (FsNode.dir a ch2) := by
                rw [← hc]
                exact findEntry_replaceEntry nodes x _ _ hf hname
              unfold isDirectory at hd ⊢
              rw [lookup_cons] at hd ⊢
              cases tail with
              | nil => simp [h2]
              | cons m r =>
                simp only [hf] at hd
                simp only [h2]
                exact ih ch ch2 (m :: r) hr hd
            · have h2 : findEntry nodes2 x = findEntry nodes x := by
                rw [← hc]
                exact findEntry_replaceEntry_other nodes n x _ hx hname
              unfold isDirectory at hd ⊢
              rw [lookup_congr_findEntry nodes nodes2 x tail h2]
              exact hd

/-- Making a directory leaves every directory a directory. -/
theorem isDirectory_createDirectory (fs : List FsNode) (g f : File)
    (hd : isDirectory fs f = true) : isDirectory (createDirectory fs g) f = true := by
  unfold createDirectory
  cases hc : createDirectoryIn fs g with
  | none => simpa using hd
  | some fs2 =>
    simp only [Option.getD_some]
    exact isDirectory_createDirectoryIn g fs fs2 f hc hd

/-! ### C16: the settings document -/

/-- C16 (as stated, refuted). The manager `recordedManager` has `/Presets/top.dx10`
as its last loaded preset.  The document `saveSettings` writes for it has the single
attribute `lastLoadedPreset`; it has no attribute `lastLoadedPresetPath`, whose
value reads as the empty text. -/
theorem settings_attribute_name_refuted :
    settingsWritable linuxHost exampleFs = true ∧
    (parseXml (recordedManager.saveSettings linuxHost exampleFs)
        (getSettingsFile linuxHost)).map (fun doc => doc.attributes)
      = some [("lastLoadedPreset", "/Presets/top.dx10")] ∧
    (parseXml (recordedManager.saveSettings linuxHost exampleFs)
        (getSettingsFile linuxHost)).map
        (fun doc => doc.getStringAttribute "lastLoadedPresetPath") = some "" ∧
    ¬ ((parseXml (recordedManager.saveSettings linuxHost exampleFs)
        (getSettingsFile linuxHost)).map
        (fun doc => doc.getStringAttribute "lastLoadedPresetPath")
      = some recordedManager.lastLoadedPreset) := by
  decide

/-- C16 (amended). Where the settings file can be written, the document that
`saveSettings` leaves there has the root tag `DX10Settings` and no children; it
carries the attribute `customPresetDirectory` with the full path of the custom
directory exactly when that is an existing directory at the time of the write (so
not when the default directory is in use), and the attribute `lastLoadedPreset` with
the last-loaded path exactly when that path is not empty; it carries nothing else.
`loadSettings` reads the custom directory from `customPresetDirectory`, when that is
not empty, and the last-loaded path from `lastLoadedPreset`. -/
theorem settings_document (h : Host) (pm pm0 : PresetManager) (fs : List FsNode)
    (hw : settingsWritable h fs = true) :
    parseXml (pm.saveSettings h fs) (getSettingsFile h) =
      some (XmlElement.mk "DX10Settings"
        ((if isDirectory (createDirectory fs (getParentDirectory (getSettingsFile h)))
              pm.customPresetDirectory then
            [("customPresetDirectory", getFullPathName pm.customPresetDirectory)]
          else []) ++
         (if pm.lastLoadedPreset != "" then [("lastLoadedPreset", pm.lastLoadedPreset)]
          else [])) []) ∧
    (pm.customPresetDirectory = [] →
      parseXml (pm.saveSettings h fs) (getSettingsFile h) =
        some (XmlElement.mk "DX10Settings"
          (if pm.lastLoadedPreset != "" then [("lastLoadedPreset", pm.lastLoadedPreset)]
           else []) [])) ∧
    (∀ doc, parseXml (pm.saveSettings h fs) (getSettingsFile h) = some doc →
      pm0.loadSettings h (pm.saveSettings h fs) =
        PresetManager.mk pm0.presetDirectory
          (if doc.getStringAttribute "customPresetDirectory" != "" then
            fileFromPath (doc.getStringAttribute "customPresetDirectory")
          else pm0.customPresetDirectory)
          (doc.getStringAttribute "lastLoadedPreset")) := by
  obtain ⟨h1, h2⟩ := saveSettings_document h pm fs hw
  refine ⟨h2, ?_, ?_⟩
  · intro hc
    rw [h2]
    have : isDirectory (createDirectory fs (getParentDirectory (getSettingsFile h)))
        pm.customPresetDirectory = false := by
      rw [hc]; simp [isDirectory, lookup]
    simp [settingsAttributes, this]
  · intro doc hdoc
    rw [h2] at hdoc
    have hd := Option.some.inj hdoc
    rw [← hd]
    exact loadSettings_of_document h pm0 _ _ h1 h2

/-- The amended statement on the example: the record of `recordedManager` is read
back from the attribute `lastLoadedPreset`. -/
theorem settings_document_witness :
    (freshManager.loadSettings linuxHost
      (recordedManager.saveSettings linuxHost exampleFs)).lastLoadedPreset
      = "/Presets/top.dx10" := by
  have hw : settingsWritable linuxHost exampleFs = true := by decide
  have h1 := (settings_document linuxHost recordedManager freshManager exampleFs hw).1
  have h3 := (settings_document linuxHost recordedManager freshManager exampleFs hw).2.2 _ h1
  rw [h3]
  decide

/-! ### C15: the settings are written at once -/

theorem loadPresetFromFile_true (h : Host) (pm : PresetManager) (w : World) (file : File)
    (hl : (pm.loadPresetFromFile h w file).1 = true) :
    (pm.loadPresetFromFile h w file).2.1
      = { pm with lastLoadedPreset := getFullPathName file } ∧
    (pm.loadPresetFromFile h w file).2.2.fs
      = PresetManager.saveSettings h { pm with lastLoadedPreset := getFullPathName file }
          w.fs := by
  unfold PresetManager.loadPresetFromFile PresetManager.setLastLoadedPreset at hl ⊢
  by_cases h1 : existsAsFile w.fs file = true
  · cases h2 : parseXml w.fs file with
    | none => simp [h1, h2] at hl
    | some xml =>
      by_cases h3 : xml.hasTagName w.state.getType = true
      · simp [h1, h3]
      · simp [h1, h2, h3] at hl
  · simp [h1] at hl

/-- C15 (as stated, refuted). At start-up on `staleSettingsFs` the constructor reads
the custom directory `/Gone` from the settings file and keeps it in memory although
it does not exist.  A load of the preset `top.dx10` then succeeds and writes the
settings, leaving out the custom directory because it is no directory: read back
into a fresh manager, the custom directory is empty, not the `/Gone` of the
in-memory record. -/
theorem settings_read_back_refuted :
    (PresetManager.create linuxHost staleSettingsFs).1.customPresetDirectory = ["Gone"] ∧
    settingsWritable linuxHost (PresetManager.create linuxHost staleSettingsFs).2 = true ∧
    ((PresetManager.create linuxHost staleSettingsFs).1.loadPresetFromFile linuxHost
      (World.mk (PresetManager.create linuxHost staleSettingsFs).2 exampleState [])
      ["home", "user", "Documents", "DX10 Presets", "top.dx10"]).1 = true ∧
    ((PresetManager.create linuxHost staleSettingsFs).1.loadPresetFromFile linuxHost
      (World.mk (PresetManager.create linuxHost staleSettingsFs).2 exampleState [])
      ["home", "user", "Documents", "DX10 Presets", "top.dx10"]).2.1.customPresetDirectory
      = ["Gone"] ∧
    ¬ ((freshManager.loadSettings linuxHost
        ((PresetManager.create linuxHost staleSettingsFs).1.loadPresetFromFile linuxHost
          (World.mk (PresetManager.create linuxHost staleSettingsFs).2 exampleState [])
          ["home", "user", "Documents", "DX10 Presets", "top.dx10"]).2.2.fs).customPresetDirectory
      = ((PresetManager.create linuxHost staleSettingsFs).1.loadPresetFromFile linuxHost
          (World.mk (PresetManager.create linuxHost staleSettingsFs).2 exampleState [])
          ["home", "user", "Documents", "DX10 Presets", "top.dx10"]).2.1.customPresetDirectory) := by
  decide

theorem isDirectory_nil (fs : List FsNode) : isDirectory fs [] = false := by
  simp [isDirectory, lookup]

/-- C15 (amended). Where the settings file can be written, each mutating operation
writes the record at once, and reading the file back into a fresh manager gives the
last-loaded path of the in-memory record.  It gives the custom directory of the
in-memory record when that is an existing directory with a plain path, as after
`setPresetDirectory` on an existing directory, and when it is empty, as after
`resetToDefaultDirectory`; a custom directory that is kept in memory but is no
directory when the record is written is left out of the file and reads back as
empty.  `setPresetDirectory` on a path that is no directory changes and writes
nothing. -/
theorem settings_written_at_once (h : Host) (pm : PresetManager) (w : World)
    (dir file : File) :
    (isDirectory w.fs dir = true → plainPath dir = true →
      settingsWritable h w.fs = true →
        (pm.setPresetDirectory h w.fs dir).1.customPresetDirectory = dir ∧
        (pm.setPresetDirectory h w.fs dir).1.presetDirectory = dir ∧
        freshManager.loadSettings h (pm.setPresetDirectory h w.fs dir).2 =
          PresetManager.mk []
            (pm.setPresetDirectory h w.fs dir).1.customPresetDirectory
            (pm.setPresetDirectory h w.fs dir).1.lastLoadedPreset) ∧
    (settingsWritable h
        (if !fileExists w.fs (getDefaultPresetDirectory h) then
          createDirectory w.fs (getDefaultPresetDirectory h) else w.fs) = true →
      (pm.resetToDefaultDirectory h w.fs).1.customPresetDirectory = [] ∧
      freshManager.loadSettings h (pm.resetToDefaultDirectory h w.fs).2 =
        PresetManager.mk []
          (pm.resetToDefaultDirectory h w.fs).1.customPresetDirectory
          (pm.resetToDefaultDirectory h w.fs).1.lastLoadedPreset) ∧
    ((pm.loadPresetFromFile h w file).1 = true → settingsWritable h w.fs = true →
      (pm.loadPresetFromFile h w file).2.1.lastLoadedPreset = getFullPathName file ∧
      (pm.loadPresetFromFile h w file).2.1.customPresetDirectory
        = pm.customPresetDirectory ∧
      (freshManager.loadSettings h (pm.loadPresetFromFile h w file).2.2.fs).lastLoadedPreset
        = (pm.loadPresetFromFile h w file).2.1.lastLoadedPreset ∧
      (freshManager.loadSettings h
          (pm.loadPresetFromFile h w file).2.2.fs).customPresetDirectory
        = (if isDirectory
              (createDirectory w.fs (getParentDirectory (getSettingsFile h)))
              pm.customPresetDirectory then
            fileFromPath (getFullPathName pm.customPresetDirectory)
          else []) ∧
      ((isDirectory w.fs pm.customPresetDirectory = true ∧
          plainPath pm.customPresetDirectory = true) ∨ pm.customPresetDirectory = [] →
        (freshManager.loadSettings h
            (pm.loadPresetFromFile h w file).2.2.fs).customPresetDirectory
          = (pm.loadPresetFromFile h w file).2.1.customPresetDirectory)) ∧
    (isDirectory w.fs dir = false → pm.setPresetDirectory h w.fs dir = (pm, w.fs)) := by
  refine ⟨?_, ?_, ?_, ?_⟩
  · intro hd hp hw
    have hset : pm.setPresetDirectory h w.fs dir =
        ({ pm with presetDirectory := dir, customPresetDirectory := dir },
          PresetManager.saveSettings h
            { pm with presetDirectory := dir, customPresetDirectory := dir } w.fs) := by
      unfold PresetManager.setPresetDirectory
      simp [hd]
    rw [hset]
    refine ⟨rfl, rfl, ?_⟩
    rw [loadSettings_saveSettings h _ freshManager w.fs hw]
    simp only [isDirectory_createDirectory w.fs _ dir hd, if_true,
      fileFromPath_getFullPathName dir hp]
    rfl
  · intro hw
    have hreset : pm.resetToDefaultDirectory h w.fs =
        ({ pm with presetDirectory := getDefaultPresetDirectory h,
                   customPresetDirectory := [] },
          PresetManager.saveSettings h
            { pm with presetDirectory := getDefaultPresetDirectory h,
                      customPresetDirectory := [] }
            (if !fileExists w.fs (getDefaultPresetDirectory h) then
              createDirectory w.fs (getDefaultPresetDirectory h) else w.fs)) := rfl
    rw [hreset]
    refine ⟨rfl, ?_⟩
    rw [loadSettings_saveSettings h _ freshManager _ hw]
    simp only [isDirectory_nil, Bool.false_eq_true, if_false]
    rfl
  · intro hl hw
    obtain ⟨e1, e2⟩ := loadPresetFromFile_true h pm w file hl
    have hread := loadSettings_saveSettings h
      { pm with lastLoadedPreset := getFullPathName file } freshManager w.fs hw
    rw [e1, e2, hread]
    refine ⟨rfl, rfl, rfl, rfl, ?_⟩
    rintro (⟨hd, hp⟩ | hnil)
    · simp only [isDirectory_createDirectory w.fs _ _ hd, if_true,
        fileFromPath_getFullPathName _ hp]
    · simp only [hnil, isDirectory_nil, Bool.false_eq_true, if_false]
      rfl
  · intro hd
    unfold PresetManager.setPresetDirectory
    simp [hd]

/-- The amended statement at work: `setPresetDirectory` on the existing directory
`Presets`, read back. -/
theorem settings_written_at_once_witness :
    (freshManager.loadSettings linuxHost
      (recordedManager.setPresetDirectory linuxHost exampleFs
        ["Presets"]).2).customPresetDirectory = ["Presets"] := by
  have hthm := (settings_written_at_once linuxHost recordedManager exampleWorld
    ["Presets"] []).1 (by decide) (by decide) (by decide)
  have h3 := hthm.2.2
  have h1 := hthm.1
  simp only [exampleWorld] at h3 h1
  rw [h3, h1]

/-! ### Depths in the flat sequence -/

end DX10
